import Mathlib

/-!
# Course registration project: the two linked-list containers and their clients

A shallow embedding of `DoublyLinkedList.h` and `LListWithDummyNode.h`, of the members of
`Student.cpp` and `Course.cpp` that the properties below are about, and of the add-course
attempt and the final statements of `option8` and `option9` of `main.cpp`.

* Nodes live in an explicit heap (`Heap`): cell `a` holds `some node` while the
  node is allocated and `none` once it has been deleted.  `new` appends a cell,
  so a fresh address is never the address of an earlier node.
* A pointer is `Option Nat`; `none` is `nullptr`.
* Every member function becomes a function from the heap and the data
  members of the object to `Except Fault _`; a run that dereferences a null or deleted
  pointer, that never leaves a loop, or that calls `exit` ends in the matching
  `Fault`.
* Each `while`/`for` loop is a recursive function on a fuel argument.  Pointer
  walks get `heap size + 1` units of fuel, which is enough for every
  null-terminated chain (`Chain.length_le`).
* `int` fields are `Int`; the `unsigned` comparisons `index >= mySize` convert
  the `int` operand modulo `2 ^ 32` (`toUnsigned`).  Wrap-around of `mySize++`
  and of loop counters is not modelled: it needs a list of `2 ^ 31` nodes.
* The sums of two credit counts in `main.cpp` are 32-bit `int` additions (`intAdd`): the
  sum modulo `2 ^ 32`, taken in the range from `-2 ^ 31` to `2 ^ 31 - 1`.
-/

namespace CourseReg

/-- Ways in which a call can fail to return to its caller. -/
inductive Fault where
  /-- A member access through `nullptr`. -/
  | nullDeref
  /-- A member access through, or a `delete` of, a pointer whose cell is not allocated. -/
  | danglingDeref
  /-- The loop fuel ran out. -/
  | noTermination
  /-- The function called `exit(0)`. -/
  | exitCalled
  deriving DecidableEq, Repr

/-- A node pointer; `none` is `nullptr`. -/
abbrev Ptr := Option Nat

/-- The node store: cell `a` is `some n` while the node at address `a` is allocated. -/
abbrev Heap (ν : Type) := List (Option ν)

namespace Heap

variable {ν : Type}

/-- Read `*p`. -/
def load (h : Heap ν) (p : Ptr) : Except Fault ν :=
  match p with
  | none => .error .nullDeref
  | some a =>
    match h[a]? with
    | some (some n) => .ok n
    | _ => .error .danglingDeref

/-- The statement `new Node(..)`: the node goes to a fresh cell, whose address is returned. -/
def alloc (h : Heap ν) (n : ν) : Heap ν × Nat :=
  (h ++ [some n], h.length)

/-- A field assignment `p->field = ..`, given as the update `f` of the node `*p`. -/
def modify (h : Heap ν) (p : Ptr) (f : ν → ν) : Except Fault (Heap ν) :=
  match h.load p with
  | .ok n =>
    match p with
    | some a => .ok (h.set a (some (f n)))
    | none => .error .nullDeref
  | .error e => .error e

/-- The statement `delete p`; deleting `nullptr` does nothing. -/
def free (h : Heap ν) (p : Ptr) : Except Fault (Heap ν) :=
  match p with
  | none => .ok h
  | some a =>
    match h[a]? with
    | some (some _) => .ok (h.set a none)
    | _ => .error .danglingDeref

/-- Fuel for a pointer walk through `h`. -/
def fuel (h : Heap ν) : Nat := h.length + 1

end Heap

/-- Conversion of an `int` to `unsigned int` (32 bit), as in `index >= mySize`. -/
def toUnsigned (i : Int) : Nat := (i % 4294967296).toNat

/-! ## Chains of nodes -/

/-- Chain of nodes: following the `next` links from `p` through the heap `h` visits exactly
the allocated cells `cells` (address and node), in this order, and then reaches `nullptr`. -/
def Chain {ν : Type} (next : ν → Ptr) (h : Heap ν) : Ptr → List (Nat × ν) → Prop
  | p, [] => p = none
  | p, c :: rest => p = some c.1 ∧ h[c.1]? = some (some c.2) ∧ Chain next h (next c.2) rest

/-- The traversal behind `Chain`, as a function: the cells met from `p` on. -/
def cellsFrom {ν : Type} (next : ν → Ptr) (h : Heap ν) :
    Nat → Ptr → Except Fault (List (Nat × ν))
  | 0, _ => .error .noTermination
  | _ + 1, none => .ok []
  | k + 1, some a => do
    let n ← h.load (some a)
    let rest ← cellsFrom next h k (next n)
    pure ((a, n) :: rest)

deriving instance DecidableEq for Except

/-! ## DoublyLinkedList.h -/

/-- The class `DoublyLinkedList::DNode`. -/
structure DNode (α : Type) where
  data : α
  next : Ptr
  prev : Ptr
  deriving DecidableEq, Repr

/-- The constructor `DNode(const ElementType &data)`. -/
def DNode.mk1 {α : Type} (data : α) : DNode α := ⟨data, none, none⟩

/-- The data members of a `DoublyLinkedList` object. -/
structure DoublyLinkedList where
  myFirst : Ptr
  mySize : Int
  deriving DecidableEq, Repr

namespace DoublyLinkedList

variable {α : Type}

/-- The default constructor `DoublyLinkedList()`. -/
def new : DoublyLinkedList := { myFirst := none, mySize := 0 }

/-- The member `isEmpty`. -/
def isEmpty (l : DoublyLinkedList) : Bool := l.myFirst == none

/-- The member `getSize`. -/
def getSize (l : DoublyLinkedList) : Int := l.mySize

/-- The `while (loopPtr != nullptr)` loop shared by the copy constructor and `operator=`. -/
def copyLoop : Nat → Heap (DNode α) → Ptr → Ptr → Except Fault (Heap (DNode α))
  | 0, _, _, _ => .error .noTermination
  | _ + 1, h, none, _ => .ok h
  | k + 1, h, some a, initPtr => do
    let src ← h.load (some a)
    let (h1, fresh) := h.alloc (DNode.mk1 src.data)
    let h2 ← h1.modify initPtr (fun n => { n with next := some fresh })
    let i1 ← h2.load initPtr
    let h3 ← h2.modify i1.next (fun n => { n with prev := initPtr })
    let i2 ← h3.load initPtr
    let s2 ← h3.load (some a)
    copyLoop k h3 s2.next i2.next

/-- The copy constructor `DoublyLinkedList(const DoublyLinkedList &orig)`. -/
def copy (h : Heap (DNode α)) (orig : DoublyLinkedList) :
    Except Fault (Heap (DNode α) × DoublyLinkedList) :=
  match orig.myFirst with
  | none => .ok (h, { myFirst := none, mySize := orig.mySize })
  | some a => do
    let first ← h.load (some a)
    let (h1, fresh) := h.alloc (DNode.mk1 first.data)
    let h2 ← copyLoop h1.fuel h1 (some a) (some fresh)
    pure (h2, { myFirst := some fresh, mySize := orig.mySize })

/-- The loop of the destructor and the first loop of `operator=`: delete every node from `p` on. -/
def freeLoop : Nat → Heap (DNode α) → Ptr → Except Fault (Heap (DNode α))
  | 0, _, _ => .error .noTermination
  | _ + 1, h, none => .ok h
  | k + 1, h, some a => do
    let n ← h.load (some a)
    let h1 ← h.free (some a)
    freeLoop k h1 n.next

/-- The destructor `~DoublyLinkedList()`. -/
def destroy (h : Heap (DNode α)) (l : DoublyLinkedList) :
    Except Fault (Heap (DNode α) × DoublyLinkedList) := do
  let h1 ← freeLoop h.fuel h l.myFirst
  pure (h1, { myFirst := none, mySize := 0 })

/-- The member `insertAtBegin`. -/
def insertAtBegin (h : Heap (DNode α)) (l : DoublyLinkedList) (data : α) :
    Except Fault (Heap (DNode α) × DoublyLinkedList × Bool) :=
  let (h1, newNode) := h.alloc (DNode.mk1 data)
  if l.isEmpty then
    .ok (h1, { myFirst := some newNode, mySize := l.mySize + 1 }, true)
  else do
    let h2 ← h1.modify (some newNode) (fun n => { n with next := l.myFirst })
    let h3 ← h2.modify l.myFirst (fun n => { n with prev := some newNode })
    pure (h3, { myFirst := some newNode, mySize := l.mySize + 1 }, true)

/-- The loop `while (p->next != nullptr) p = p->next;`: the last node of the chain from `p`. -/
def walkToLast : Nat → Heap (DNode α) → Ptr → Except Fault Ptr
  | 0, _, _ => .error .noTermination
  | k + 1, h, p => do
    let n ← h.load p
    match n.next with
    | none => pure p
    | some b => walkToLast k h (some b)

/-- The member `insertAtEnd`. -/
def insertAtEnd (h : Heap (DNode α)) (l : DoublyLinkedList) (data : α) :
    Except Fault (Heap (DNode α) × DoublyLinkedList × Bool) :=
  let (h1, newNode) := h.alloc (DNode.mk1 data)
  if l.isEmpty then
    .ok (h1, { myFirst := some newNode, mySize := l.mySize + 1 }, false)
  else do
    let tempDNodePtr ← walkToLast h1.fuel h1 l.myFirst
    let h2 ← h1.modify tempDNodePtr (fun n => { n with next := some newNode })
    let h3 ← h2.modify (some newNode) (fun n => { n with prev := tempDNodePtr })
    pure (h3, { l with mySize := l.mySize + 1 }, true)

/-- The member `deleteFromBegin`. -/
def deleteFromBegin (h : Heap (DNode α)) (l : DoublyLinkedList) :
    Except Fault (Heap (DNode α) × DoublyLinkedList × Bool) :=
  if l.isEmpty then .ok (h, l, false)
  else do
    let first ← h.load l.myFirst
    match first.next with
    | none =>
      let h1 ← h.free l.myFirst
      pure (h1, { myFirst := none, mySize := l.mySize - 1 }, true)
    | some b =>
      let h1 ← h.modify (some b) (fun n => { n with prev := none })
      let h2 ← h1.free l.myFirst
      pure (h2, { myFirst := some b, mySize := l.mySize - 1 }, true)

/-- The member `deleteFromEnd`. -/
def deleteFromEnd (h : Heap (DNode α)) (l : DoublyLinkedList) :
    Except Fault (Heap (DNode α) × DoublyLinkedList × Bool) :=
  if l.isEmpty then .ok (h, l, false)
  else do
    let first ← h.load l.myFirst
    match first.next with
    | none =>
      let h1 ← h.free l.myFirst
      pure (h1, { myFirst := none, mySize := l.mySize - 1 }, true)
    | some _ =>
      let loopPtr ← walkToLast h.fuel h l.myFirst
      let last ← h.load loopPtr
      let h1 ← h.modify last.prev (fun n => { n with next := none })
      let h2 ← h1.free loopPtr
      pure (h2, { l with mySize := l.mySize - 1 }, true)

/-- The `while (temp != nullptr)` loop of `deleteAtElement`; the flag tells whether a node
was unlinked and deleted. -/
def deleteAtElementLoop [BEq α] (e : α) :
    Nat → Heap (DNode α) → Ptr → Except Fault (Heap (DNode α) × Bool)
  | 0, _, _ => .error .noTermination
  | _ + 1, h, none => .ok (h, false)
  | k + 1, h, some a => do
    let t ← h.load (some a)
    if t.data == e then
      let h1 ← h.modify t.prev (fun n => { n with next := t.next })
      let t1 ← h1.load (some a)
      let h2 ← h1.modify t1.next (fun n => { n with prev := t1.prev })
      let h3 ← h2.free (some a)
      pure (h3, true)
    else deleteAtElementLoop e k h t.next

/-- The member `deleteAtElement`. -/
def deleteAtElement [BEq α] (h : Heap (DNode α)) (l : DoublyLinkedList) (e : α) :
    Except Fault (Heap (DNode α) × DoublyLinkedList × Bool) :=
  if l.isEmpty then .ok (h, l, false)
  else do
    let temp ← h.load l.myFirst
    if temp.data == e then deleteFromBegin h l
    else do
      let (h1, found) ← deleteAtElementLoop e h.fuel h l.myFirst
      if found then pure (h1, { l with mySize := l.mySize - 1 }, true)
      else pure (h1, l, false)

/-- The loop `for (int i = 0; i < index; i++) temp = temp->next;`. -/
def advance (h : Heap (DNode α)) : Nat → Ptr → Except Fault Ptr
  | 0, p => .ok p
  | i + 1, p => do
    let n ← h.load p
    advance h i n.next

/-- The member `retrieveAtIndex`; the returned reference is read at once. -/
def retrieveAtIndex (h : Heap (DNode α)) (l : DoublyLinkedList) (index : Nat) :
    Except Fault α :=
  if index ≥ toUnsigned l.mySize then .error .exitCalled
  else do
    let temp ← advance h index l.myFirst
    let n ← h.load temp
    pure n.data

/-- The member `deleteAtIndex`. -/
def deleteAtIndex (h : Heap (DNode α)) (l : DoublyLinkedList) (index : Nat) :
    Except Fault (Heap (DNode α) × DoublyLinkedList × Bool) :=
  if l.isEmpty then .ok (h, l, false)
  else if index ≥ toUnsigned l.mySize then .ok (h, l, false)
  else if index = 0 then do
    let t ← h.load l.myFirst
    let h1 ← match t.next with
      | some b => h.modify (some b) (fun n => { n with prev := none })
      | none => pure h
    let h2 ← h1.free l.myFirst
    pure (h2, { myFirst := t.next, mySize := l.mySize - 1 }, true)
  else do
    let temp ← advance h index l.myFirst
    let t ← h.load temp
    let h1 ← h.modify t.prev (fun n => { n with next := t.next })
    let t1 ← h1.load temp
    let h2 ← match t1.next with
      | some b => h1.modify (some b) (fun n => { n with prev := t1.prev })
      | none => pure h1
    let h3 ← h2.free temp
    pure (h3, { l with mySize := l.mySize - 1 }, true)

/-- The member `operator=`.  `sameObject` is the outcome of the test
`this == &comparisonList` on the addresses of the two objects. -/
def assign (h : Heap (DNode α)) (this : DoublyLinkedList) (sameObject : Bool)
    (comparisonList : DoublyLinkedList) :
    Except Fault (Heap (DNode α) × DoublyLinkedList) :=
  if sameObject then .ok (h, this)
  else do
    let h0 ← freeLoop h.fuel h this.myFirst
    match comparisonList.myFirst with
    | none => pure (h0, { myFirst := none, mySize := comparisonList.mySize })
    | some a =>
      let first ← h0.load (some a)
      let (h1, fresh) := h0.alloc (DNode.mk1 first.data)
      let h2 ← copyLoop h1.fuel h1 (some a) (some fresh)
      pure (h2, { myFirst := some fresh, mySize := comparisonList.mySize })

/-- The `while (temp != nullptr)` loop of `search`. -/
def searchLoop [BEq α] (h : Heap (DNode α)) (e : α) : Nat → Ptr → Int → Except Fault Int
  | 0, _, _ => .error .noTermination
  | _ + 1, none, _ => .ok (-1)
  | k + 1, some a, counter => do
    let t ← h.load (some a)
    if t.data == e then pure counter
    else searchLoop h e k t.next (counter + 1)

/-- The member `search`. -/
def search [BEq α] (h : Heap (DNode α)) (l : DoublyLinkedList) (e : α) : Except Fault Int :=
  if l.isEmpty then .ok (-1)
  else do
    let temp ← h.load l.myFirst
    if temp.data == e then pure 0
    else searchLoop h e h.fuel l.myFirst 0

/-- The `while (temp->next != nullptr)` loop of `searchAndRetreivePtr`; the result is the
address of the node whose `data` member the returned pointer designates. -/
def searchPtrLoop [BEq α] (h : Heap (DNode α)) (e : α) : Nat → Ptr → Except Fault Ptr
  | 0, _ => .error .noTermination
  | k + 1, temp => do
    let t ← h.load temp
    match t.next with
    | none => pure none
    | some b =>
      let nx ← h.load (some b)
      if nx.data == e then pure (some b)
      else searchPtrLoop h e k (some b)

/-- The member `searchAndRetreivePtr`. -/
def searchAndRetreivePtr [BEq α] (h : Heap (DNode α)) (l : DoublyLinkedList) (e : α) :
    Except Fault Ptr :=
  if l.isEmpty then .ok none
  else do
    let temp ← h.load l.myFirst
    if temp.data == e then pure l.myFirst
    else searchPtrLoop h e h.fuel l.myFirst

/-- The member `displayList`, with the stream as the list of the chunks written to it. -/
def displayLoop (h : Heap (DNode α)) (show1 : α → String) :
    Nat → Ptr → List String → Except Fault (List String)
  | 0, _, _ => .error .noTermination
  | _ + 1, none, out => .ok out
  | k + 1, some a, out => do
    let n ← h.load (some a)
    displayLoop h show1 k n.next (out ++ [show1 n.data, "\n"])

/-- The member `displayList`. -/
def displayList (h : Heap (DNode α)) (l : DoublyLinkedList) (show1 : α → String)
    (out : List String) : Except Fault (List String) :=
  if l.isEmpty then .ok (out ++ ["Empty List"])
  else displayLoop h show1 h.fuel l.myFirst out

/-- Abstraction of a list object: in the heap `h` the nodes reachable from `l.myFirst` form a
null-terminated chain whose data members are, from head to tail, `xs`. -/
def Holds (h : Heap (DNode α)) (l : DoublyLinkedList) (xs : List α) : Prop :=
  ∃ cells, Chain DNode.next h l.myFirst cells ∧ cells.map (fun c => c.2.data) = xs

/-- The elements of the list, read by following the `next` links from `myFirst`. -/
def toList (h : Heap (DNode α)) (l : DoublyLinkedList) : Except Fault (List α) := do
  let cells ← cellsFrom DNode.next h h.fuel l.myFirst
  pure (cells.map (fun c => c.2.data))

/-- The list built in the heap `h` by `insertAtEnd` calls, one per element of `xs`, on a
default-constructed list. -/
def ofList (h : Heap (DNode α)) (xs : List α) :
    Except Fault (Heap (DNode α) × DoublyLinkedList) :=
  xs.foldlM (fun s x => do
    let r ← insertAtEnd s.1 s.2 x
    pure (r.1, r.2.1)) (h, DoublyLinkedList.new)

/-- Doubly linked chain: the cells `cells` are met from `p` by the `next` links as in `Chain`,
the `prev` link of the first cell is `q`, and the `prev` link of every later cell holds the
address of the cell before it. -/
def DChain (h : Heap (DNode α)) : Ptr → Ptr → List (Nat × DNode α) → Prop
  | p, _, [] => p = none
  | p, q, c :: rest =>
    p = some c.1 ∧ h[c.1]? = some (some c.2) ∧ c.2.prev = q ∧
      DChain h c.2.next (some c.1) rest

/-- Well-formed list object with elements `xs`: the nodes reachable from `myFirst` form a
null-terminated chain holding `xs`, the first `prev` link is null, every other `prev` link
designates the predecessor, and `mySize` is the number of nodes. -/
def WellFormed (h : Heap (DNode α)) (l : DoublyLinkedList) (xs : List α) : Prop :=
  ∃ cells, DChain h l.myFirst none cells ∧ cells.map (fun c => c.2.data) = xs ∧
    l.mySize = (xs.length : Int)

/-- A sample heap: the three nodes of the list 5, 7, 5. -/
def sampleHeap : Heap (DNode Nat) :=
  [some ⟨5, some 1, none⟩, some ⟨7, some 2, some 0⟩, some ⟨5, none, some 1⟩]

/-- The list object of the sample list 5, 7, 5 in `sampleHeap`. -/
def sampleList : DoublyLinkedList := { myFirst := some 0, mySize := 3 }

end DoublyLinkedList

/-! ## LListWithDummyNode.h -/

/-- The class `LListWithDummyNode::Node`. -/
structure Node (α : Type) where
  data : α
  next : Ptr
  deriving DecidableEq, Repr

/-- The constructor `Node(const ElementType &data)`. -/
def Node.mk1 {α : Type} (data : α) : Node α := ⟨data, none⟩

/-- The data members of a `LListWithDummyNode` object; `myFirst` points to the dummy node. -/
structure LListWithDummyNode where
  myFirst : Ptr
  mySize : Int
  deriving DecidableEq, Repr

namespace LListWithDummyNode

variable {α : Type}

/-- The default constructor; `dummy` is the default-initialised `ElementType dummy`. -/
def new (h : Heap (Node α)) (dummy : α) : Heap (Node α) × LListWithDummyNode :=
  let (h1, d) := h.alloc (Node.mk1 dummy)
  (h1, { myFirst := some d, mySize := 0 })

/-- The member `isEmpty`. -/
def isEmpty (h : Heap (Node α)) (l : LListWithDummyNode) : Except Fault Bool := do
  let d ← h.load l.myFirst
  pure (d.next == none)

/-- The member `getSize`. -/
def getSize (l : LListWithDummyNode) : Int := l.mySize

/-- The `while (loopPtr != nullptr)` loop of the copy constructor. -/
def copyLoop : Nat → Heap (Node α) → Ptr → Ptr → Except Fault (Heap (Node α))
  | 0, _, _, _ => .error .noTermination
  | _ + 1, h, none, _ => .ok h
  | k + 1, h, some a, _ => do
    let src ← h.load (some a)
    let (h1, fresh) := h.alloc (Node.mk1 src.data)
    let i1 ← h1.load (some fresh)
    let s1 ← h1.load (some a)
    copyLoop k h1 s1.next i1.next

/-- The copy constructor `LListWithDummyNode(const LListWithDummyNode &orig)`. -/
def copy (h : Heap (Node α)) (orig : LListWithDummyNode) (dummy : α) :
    Except Fault (Heap (Node α) × LListWithDummyNode) :=
  let (h1, d) := h.alloc (Node.mk1 dummy)
  do
    let od ← h1.load orig.myFirst
    match od.next with
    | none =>
      let h2 ← h1.modify (some d) (fun n => { n with next := none })
      pure (h2, { myFirst := some d, mySize := orig.mySize })
    | some b =>
      let nd ← h1.load (some d)
      let h2 ← copyLoop h1.fuel h1 (some b) nd.next
      pure (h2, { myFirst := some d, mySize := orig.mySize })

/-- The loop of the destructor. -/
def freeLoop : Nat → Heap (Node α) → Ptr → Except Fault (Heap (Node α))
  | 0, _, _ => .error .noTermination
  | _ + 1, h, none => .ok h
  | k + 1, h, some a => do
    let n ← h.load (some a)
    let h1 ← h.free (some a)
    freeLoop k h1 n.next

/-- The destructor `~LListWithDummyNode()`. -/
def destroy (h : Heap (Node α)) (l : LListWithDummyNode) : Except Fault (Heap (Node α)) :=
  freeLoop h.fuel h l.myFirst

/-- The member `insertAtBegin`. -/
def insertAtBegin (h : Heap (Node α)) (l : LListWithDummyNode) (data : α) :
    Except Fault (Heap (Node α) × LListWithDummyNode × Bool) :=
  let (h1, newNode) := h.alloc (Node.mk1 data)
  do
    let empty ← isEmpty h1 l
    if empty then
      let h2 ← h1.modify l.myFirst (fun n => { n with next := some newNode })
      pure (h2, { l with mySize := l.mySize + 1 }, true)
    else
      let d ← h1.load l.myFirst
      let h2 ← h1.modify (some newNode) (fun n => { n with next := d.next })
      let h3 ← h2.modify l.myFirst (fun n => { n with next := some newNode })
      pure (h3, { l with mySize := l.mySize + 1 }, true)

/-- The loop `while (walker->next != nullptr) walker = walker->next;`. -/
def walkToLast : Nat → Heap (Node α) → Ptr → Except Fault Ptr
  | 0, _, _ => .error .noTermination
  | k + 1, h, p => do
    let n ← h.load p
    match n.next with
    | none => pure p
    | some b => walkToLast k h (some b)

/-- The member `insertAtEnd`. -/
def insertAtEnd (h : Heap (Node α)) (l : LListWithDummyNode) (data : α) :
    Except Fault (Heap (Node α) × LListWithDummyNode × Bool) :=
  let (h1, newNode) := h.alloc (Node.mk1 data)
  if l.mySize = 0 then do
    let h2 ← h1.modify l.myFirst (fun n => { n with next := some newNode })
    pure (h2, { l with mySize := l.mySize + 1 }, true)
  else do
    let d ← h1.load l.myFirst
    let walker ← walkToLast h1.fuel h1 d.next
    let h2 ← h1.modify walker (fun n => { n with next := some newNode })
    pure (h2, { l with mySize := l.mySize + 1 }, true)

/-- The member `deleteFromBegin`. -/
def deleteFromBegin (h : Heap (Node α)) (l : LListWithDummyNode) :
    Except Fault (Heap (Node α) × LListWithDummyNode × Bool) := do
  let empty ← isEmpty h l
  if empty then pure (h, l, false)
  else
    let d ← h.load l.myFirst
    let first ← h.load d.next
    let h1 ← h.modify l.myFirst (fun n => { n with next := first.next })
    let h2 ← h1.free d.next
    pure (h2, { l with mySize := l.mySize - 1 }, true)

/-- The member `deleteFromEnd`. -/
def deleteFromEnd (h : Heap (Node α)) (l : LListWithDummyNode) :
    Except Fault (Heap (Node α) × LListWithDummyNode × Bool) := do
  let d ← h.load l.myFirst
  match d.next with
  | none => pure (h, l, false)
  | some b =>
    let walker ← walkToLast h.fuel h (some b)
    let h1 ← h.free walker
    pure (h1, { l with mySize := l.mySize - 1 }, true)

/-- The loop `for (int i = 0; i < n; i++) p = p->next;`. -/
def advance (h : Heap (Node α)) : Nat → Ptr → Except Fault Ptr
  | 0, p => .ok p
  | i + 1, p => do
    let n ← h.load p
    advance h i n.next

/-- The member `deleteAtIndex`. -/
def deleteAtIndex (h : Heap (Node α)) (l : LListWithDummyNode) (index : Nat) :
    Except Fault (Heap (Node α) × LListWithDummyNode × Bool) := do
  let empty ← isEmpty h l
  if empty then pure (h, l, false)
  else if index ≥ toUnsigned l.mySize then pure (h, l, false)
  else if index = 0 then deleteFromBegin h l
  else if index = toUnsigned (l.mySize - 1) then deleteFromEnd h l
  else
    let d ← h.load l.myFirst
    let prev ← advance h (index - 1) d.next
    let p ← h.load prev
    let deleteMe ← h.load p.next
    let h1 ← h.modify prev (fun n => { n with next := deleteMe.next })
    let h2 ← h1.free p.next
    pure (h2, { l with mySize := l.mySize - 1 }, true)

/-- The `while (temp != nullptr)` loop of `deleteAtElement`, on `temp` and `prev`; the flag
tells whether a node was unlinked and deleted. -/
def deleteAtElementLoop [BEq α] (e : α) :
    Nat → Heap (Node α) → Ptr → Ptr → Except Fault (Heap (Node α) × Bool)
  | 0, _, _, _ => .error .noTermination
  | _ + 1, h, none, _ => .ok (h, false)
  | k + 1, h, some a, prev => do
    let t ← h.load (some a)
    if t.data == e then
      let h1 ← h.modify prev (fun n => { n with next := t.next })
      let h2 ← h1.free (some a)
      pure (h2, true)
    else
      let p ← h.load prev
      deleteAtElementLoop e k h t.next p.next

/-- The member `deleteAtElement`. -/
def deleteAtElement [BEq α] (h : Heap (Node α)) (l : LListWithDummyNode) (e : α) :
    Except Fault (Heap (Node α) × LListWithDummyNode × Bool) := do
  let empty ← isEmpty h l
  if empty then pure (h, l, false)
  else
    let d ← h.load l.myFirst
    let temp ← h.load d.next
    if temp.data == e then deleteFromBegin h l
    else
      let (h1, found) ← deleteAtElementLoop e h.fuel h d.next l.myFirst
      if found then pure (h1, { l with mySize := l.mySize - 1 }, true)
      else pure (h1, l, false)

/-- The member `retrieveAtIndex`; the returned reference is read at once. -/
def retrieveAtIndex (h : Heap (Node α)) (l : LListWithDummyNode) (index : Nat) :
    Except Fault α :=
  if index ≥ toUnsigned l.mySize then .error .exitCalled
  else do
    let d ← h.load l.myFirst
    let temp ← advance h index d.next
    let n ← h.load temp
    pure n.data

/-- The first loop of `operator=`: unlink and delete the node after the dummy until none is left. -/
def clearLoop : Nat → Heap (Node α) → Ptr → Except Fault (Heap (Node α))
  | 0, _, _ => .error .noTermination
  | k + 1, h, myFirst => do
    let d ← h.load myFirst
    match d.next with
    | none => pure h
    | some b =>
      let tempPtr ← h.load (some b)
      let h1 ← h.modify myFirst (fun n => { n with next := tempPtr.next })
      let h2 ← h1.free (some b)
      clearLoop k h2 myFirst

/-- The second loop of `operator=`, on `listPtr` and `temp`. -/
def assignLoop : Nat → Heap (Node α) → Ptr → Ptr → Except Fault (Heap (Node α))
  | 0, _, _, _ => .error .noTermination
  | _ + 1, h, none, _ => .ok h
  | k + 1, h, some a, temp => do
    let src ← h.load (some a)
    let (h1, fresh) := h.alloc (Node.mk1 src.data)
    let h2 ← h1.modify temp (fun n => { n with next := some fresh })
    let t ← h2.load temp
    let s ← h2.load (some a)
    assignLoop k h2 s.next t.next

/-- The member `operator=`.  `sameObject` is the outcome of the test
`this == &comparisonList` on the addresses of the two objects. -/
def assign (h : Heap (Node α)) (this : LListWithDummyNode) (sameObject : Bool)
    (comparisonList : LListWithDummyNode) :
    Except Fault (Heap (Node α) × LListWithDummyNode) :=
  if sameObject then .ok (h, this)
  else do
    let h1 ← clearLoop h.fuel h this.myFirst
    let h2 ← assignLoop h1.fuel h1 comparisonList.myFirst this.myFirst
    pure (h2, { this with mySize := comparisonList.mySize })

/-- The `while (temp->next != nullptr)` loop of `search`. -/
def searchLoop [BEq α] (h : Heap (Node α)) (e : α) : Nat → Ptr → Int → Except Fault Int
  | 0, _, _ => .error .noTermination
  | k + 1, temp, counter => do
    let t ← h.load temp
    match t.next with
    | none => pure (-1)
    | some b =>
      let nx ← h.load (some b)
      if nx.data == e then pure counter
      else searchLoop h e k (some b) (counter + 1)

/-- The member `search`. -/
def search [BEq α] (h : Heap (Node α)) (l : LListWithDummyNode) (e : α) : Except Fault Int := do
  let empty ← isEmpty h l
  if empty then pure (-1)
  else
    let d ← h.load l.myFirst
    let temp ← h.load d.next
    if temp.data == e then pure 0
    else searchLoop h e h.fuel d.next 0

/-- The `while (temp->next != nullptr)` loop of `searchAndRetreivePtr`; the result is the
address of the node whose `data` member the returned pointer designates. -/
def searchPtrLoop [BEq α] (h : Heap (Node α)) (e : α) : Nat → Ptr → Except Fault Ptr
  | 0, _ => .error .noTermination
  | k + 1, temp => do
    let t ← h.load temp
    match t.next with
    | none => pure none
    | some b =>
      let nx ← h.load (some b)
      if nx.data == e then pure (some b)
      else searchPtrLoop h e k (some b)

/-- The member `searchAndRetreivePtr`. -/
def searchAndRetreivePtr [BEq α] (h : Heap (Node α)) (l : LListWithDummyNode) (e : α) :
    Except Fault Ptr := do
  let empty ← isEmpty h l
  if empty then pure none
  else
    let d ← h.load l.myFirst
    let temp ← h.load d.next
    if temp.data == e then pure d.next
    else searchPtrLoop h e h.fuel d.next

/-- The `while (dataPtr != nullptr)` loop of `displayList`. -/
def displayLoop (h : Heap (Node α)) (show1 : α → String) :
    Nat → Ptr → List String → Except Fault (List String)
  | 0, _, _ => .error .noTermination
  | _ + 1, none, out => .ok out
  | k + 1, some a, out => do
    let n ← h.load (some a)
    displayLoop h show1 k n.next (out ++ [show1 n.data])

/-- The member `displayList`, with the stream as the list of the chunks written to it. -/
def displayList (h : Heap (Node α)) (l : LListWithDummyNode) (show1 : α → String)
    (out : List String) : Except Fault (List String) := do
  let empty ← isEmpty h l
  if empty then pure (out ++ ["Empty List"])
  else
    let d ← h.load l.myFirst
    displayLoop h show1 h.fuel d.next out

/-- Abstraction of a list object: in the heap `h` the dummy node is allocated and the nodes
after it form a null-terminated chain whose data members are, in order, `xs`. -/
def Holds (h : Heap (Node α)) (l : LListWithDummyNode) (xs : List α) : Prop :=
  ∃ dummy cells, Chain Node.next h l.myFirst (dummy :: cells) ∧
    cells.map (fun c => c.2.data) = xs

/-- The real elements of the list, read by following the `next` links from the dummy node. -/
def toList (h : Heap (Node α)) (l : LListWithDummyNode) : Except Fault (List α) := do
  let d ← h.load l.myFirst
  let cells ← cellsFrom Node.next h h.fuel d.next
  pure (cells.map (fun c => c.2.data))

/-- The list built in the heap `h` by `insertAtEnd` calls, one per element of `xs`, on a
default-constructed list. -/
def ofList (h : Heap (Node α)) (dummy : α) (xs : List α) :
    Except Fault (Heap (Node α) × LListWithDummyNode) :=
  xs.foldlM (fun s x => do
    let r ← insertAtEnd s.1 s.2 x
    pure (r.1, r.2.1)) (LListWithDummyNode.new h dummy)

/-- Well-formed list object with real elements `xs`: the dummy node is allocated, the chain
after it is null-terminated and holds `xs`, and `mySize` is the number of real nodes. -/
def WellFormed (h : Heap (Node α)) (l : LListWithDummyNode) (xs : List α) : Prop :=
  Holds h l xs ∧ l.mySize = (xs.length : Int)

/-- A sample heap: the dummy node (value 0) and the two real nodes of the list 5, 7. -/
def sampleHeap : Heap (Node Nat) :=
  [some ⟨0, some 1⟩, some ⟨5, some 2⟩, some ⟨7, none⟩]

/-- The list object of the sample list 5, 7 in `sampleHeap`. -/
def sampleList : LListWithDummyNode := { myFirst := some 0, mySize := 2 }

end LListWithDummyNode

/-- Footprint of a call on a list object: going from the heap `h` to the heap `h1` the heap
did not shrink, every cell of `h` whose address is not in `addrs` (the nodes of the object
before the call) is as before, and every address in `addrs1` (the nodes of the object after
the call) is one of `addrs` or the address of a cell allocated by the call. -/
def Footprint {ν : Type} (h h1 : Heap ν) (addrs addrs1 : List Nat) : Prop :=
  h.length ≤ h1.length ∧ (∀ a, a < h.length → a ∉ addrs → h1[a]? = h[a]?) ∧
    (∀ a ∈ addrs1, a ∈ addrs ∨ h.length ≤ a)

namespace DoublyLinkedList

variable {α : Type}

/-- Linked list object with elements `xs`: the nodes reachable from `myFirst` form a
null-terminated chain holding `xs` with consistent `prev` links, as in `WellFormed` but with
no condition on `mySize`. -/
def Linked (h : Heap (DNode α)) (l : DoublyLinkedList) (xs : List α) : Prop :=
  ∃ cells, DChain h l.myFirst none cells ∧ cells.map (fun c => c.2.data) = xs

end DoublyLinkedList

/-! ### Mutator calls and closed sets of addresses -/

/-- A call of one of the six mutators of a container, with its argument. -/
inductive Call (α : Type) where
  /-- The call `insertAtBegin(data)`. -/
  | insertAtBegin (data : α)
  /-- The call `insertAtEnd(data)`. -/
  | insertAtEnd (data : α)
  /-- The call `deleteFromBegin()`. -/
  | deleteFromBegin
  /-- The call `deleteFromEnd()`. -/
  | deleteFromEnd
  /-- The call `deleteAtElement(e)`. -/
  | deleteAtElement (e : α)
  /-- The call `deleteAtIndex(index)`. -/
  | deleteAtIndex (index : Nat)
  deriving DecidableEq, Repr

/-- The pointer `p` is null or designates a cell whose address is in `S`. -/
def PtrIn (S : Nat → Prop) (p : Ptr) : Prop := ∀ a, p = some a → S a

/-- The set `S` of addresses is closed in the heap `h`: it contains every address not yet
allocated, and the links `links n` of every allocated node `n` at an address of `S` are null or
lead to an address of `S`. -/
def Closed {ν : Type} (links : ν → List Ptr) (S : Nat → Prop) (h : Heap ν) : Prop :=
  (∀ a, h.length ≤ a → S a) ∧
    ∀ a n, S a → h[a]? = some (some n) → ∀ p ∈ links n, PtrIn S p

/-- Going from the heap `h` to the heap `h1` no cell outside `S` has changed. -/
def Same {ν : Type} (S : Nat → Prop) (h h1 : Heap ν) : Prop :=
  ∀ a, ¬ S a → h1[a]? = h[a]?

/-- The links of a `DNode`. -/
def DNode.links {α : Type} (n : DNode α) : List Ptr := [n.next, n.prev]

/-- The links of a `Node`. -/
def Node.links {α : Type} (n : Node α) : List Ptr := [n.next]

namespace DoublyLinkedList

variable {α : Type}

/-- One mutator call `c` on the list `l`. -/
def run [BEq α] (h : Heap (DNode α)) (l : DoublyLinkedList) :
    Call α → Except Fault (Heap (DNode α) × DoublyLinkedList × Bool)
  | .insertAtBegin data => insertAtBegin h l data
  | .insertAtEnd data => insertAtEnd h l data
  | .deleteFromBegin => deleteFromBegin h l
  | .deleteFromEnd => deleteFromEnd h l
  | .deleteAtElement e => deleteAtElement h l e
  | .deleteAtIndex index => deleteAtIndex h l index

/-- The mutator calls `cs` on the list `l`, one after the other. -/
def runAll [BEq α] : Heap (DNode α) → DoublyLinkedList → List (Call α) →
    Except Fault (Heap (DNode α) × DoublyLinkedList)
  | h, l, [] => .ok (h, l)
  | h, l, c :: cs => do
    let r ← run h l c
    runAll r.1 r.2.1 cs

end DoublyLinkedList

namespace LListWithDummyNode

variable {α : Type}

/-- One mutator call `c` on the list `l`. -/
def run [BEq α] (h : Heap (Node α)) (l : LListWithDummyNode) :
    Call α → Except Fault (Heap (Node α) × LListWithDummyNode × Bool)
  | .insertAtBegin data => insertAtBegin h l data
  | .insertAtEnd data => insertAtEnd h l data
  | .deleteFromBegin => deleteFromBegin h l
  | .deleteFromEnd => deleteFromEnd h l
  | .deleteAtElement e => deleteAtElement h l e
  | .deleteAtIndex index => deleteAtIndex h l index

/-- The mutator calls `cs` on the list `l`, one after the other. -/
def runAll [BEq α] : Heap (Node α) → LListWithDummyNode → List (Call α) →
    Except Fault (Heap (Node α) × LListWithDummyNode)
  | h, l, [] => .ok (h, l)
  | h, l, c :: cs => do
    let r ← run h l c
    runAll r.1 r.2.1 cs

end LListWithDummyNode

/-! ### Client programs on DoublyLinkedList objects -/

namespace DoublyLinkedList

variable {α : Type}

/-- A statement of a client program that works on `DoublyLinkedList` objects; an object is
named by its number in the order of construction. -/
inductive Stmt (α : Type) where
  /-- The declaration `DoublyLinkedList<T> x;` (default constructor). -/
  | construct
  /-- The declaration `DoublyLinkedList<T> x(orig);` (copy constructor). -/
  | copyConstruct (orig : Nat)
  /-- The statement `target = source;` (`operator=`). -/
  | assign (target source : Nat)
  /-- A mutator call on the object `target`. -/
  | call (target : Nat) (c : Call α)
  deriving DecidableEq, Repr

/-- The state of a client program: the node store and the list objects constructed so far. -/
structure World (α : Type) where
  /-- The node store. -/
  heap : Heap (DNode α)
  /-- The data members of the objects, in the order of construction. -/
  objs : List DoublyLinkedList

/-- One statement of a client program.  A statement that names an object which has not been
constructed is not a statement of a program and leaves the state as it is.  In `target =
source` the two operands are the same object exactly when their numbers are equal. -/
def exec [BEq α] (w : World α) : Stmt α → Except Fault (World α)
  | .construct => .ok { heap := w.heap, objs := w.objs ++ [DoublyLinkedList.new] }
  | .copyConstruct i =>
    match w.objs[i]? with
    | none => .ok w
    | some orig => do
      let r ← copy w.heap orig
      pure { heap := r.1, objs := w.objs ++ [r.2] }
  | .assign i j =>
    match w.objs[i]?, w.objs[j]? with
    | some l, some c => do
      let r ← assign w.heap l (i == j) c
      pure { heap := r.1, objs := w.objs.set i r.2 }
    | _, _ => .ok w
  | .call i c =>
    match w.objs[i]? with
    | none => .ok w
    | some l => do
      let r ← run w.heap l c
      pure { heap := r.1, objs := w.objs.set i r.2.1 }

/-- The statements of a client program, one after the other. -/
def execAll [BEq α] : World α → List (Stmt α) → Except Fault (World α)
  | w, [] => .ok w
  | w, s :: ss => do
    let w1 ← exec w s
    execAll w1 ss

/-- The objects of the state `w` are separated: the nodes of object number `i` form the doubly
linked chain `ch i`, and the chains of two different objects have no address in common. -/
def Separated (w : World α) (ch : Nat → List (Nat × DNode α)) : Prop :=
  (∀ i l, w.objs[i]? = some l → DChain w.heap l.myFirst none (ch i)) ∧
    ∀ i j, i ≠ j → i < w.objs.length → j < w.objs.length →
      ∀ x ∈ ch i, x.1 ∉ (ch j).map Prod.fst

end DoublyLinkedList

/-! ## Student.cpp, Course.cpp

A `std::string` is a `String`, a `char` a `Char`: the texts of the program are ASCII.  A
`std::vector<string>` is a `List String`, and the `std::map<string, string>` of a course is the
list of its entries in the order of the keys. -/

/-- A value of type `double`, as far as the comparisons of the program with the constants 0, 2
and 4 see it: a rational number, or NaN.  An infinity compares with these constants like a
number beyond them. -/
inductive Double where
  /-- An ordinary value. -/
  | val (q : Rat)
  /-- Not a number: every comparison with it is false. -/
  | nan

namespace Double

/-- The comparison `x < c`. -/
def lt (x : Double) (c : Rat) : Bool :=
  match x with
  | val q => decide (q < c)
  | nan => false

/-- The comparison `x > c`. -/
def gt (x : Double) (c : Rat) : Bool :=
  match x with
  | val q => decide (c < q)
  | nan => false

end Double

/-- The function `isdigit` on a character of an ID. -/
def isdigit (c : Char) : Bool := decide ('0' ≤ c) && decide (c ≤ '9')

/-- The function `split` of Course.cpp, its loop: `splitting` and `temp` after the characters
`cs` that are still to be read. -/
def splitLoop : List Char → List String → String → List String × String
  | [], splitting, temp => (splitting, temp)
  | c :: cs, splitting, temp =>
    if c == ' ' && !temp.isEmpty then splitLoop cs (splitting ++ [temp]) ""
    else splitLoop cs splitting (temp.push c)

/-- The function `split` of Course.cpp. -/
def split (s : String) : List String :=
  let r := splitLoop s.data [] ""
  if !r.2.isEmpty then r.1 ++ [r.2] else r.1

/-- The function `toUpperCase` of Course.cpp. -/
def toUpperCase (input : String) : String :=
  String.mk (input.data.map (fun c =>
    if decide ('a' ≤ c) && decide (c ≤ 'z') then Char.ofNat (c.toNat - 'a'.toNat + 'A'.toNat)
    else c))

/-- The data members of a `Student`. -/
structure Student where
  studentID : String
  firstName : String
  lastName : String
  numberOfcredits : Int
  gpa : Double
  courseRegistred : List String

/-- The operator `Student::operator==`: two students are equal when their IDs are. -/
instance : BEq Student := ⟨fun a b => a.studentID == b.studentID⟩

namespace Student

/-- The loop `for (int i = 1; i < 8; i++)` of `setSudentId` from index `i` on, with `k` rounds
left: the value of `isValid` after it. -/
def digitsLoop (id : List Char) : Nat → Nat → Bool
  | 0, _ => true
  | k + 1, i => if !isdigit (id.getD i ' ') then false else digitsLoop id k (i + 1)

/-- The member `setSudentId`. -/
def setSudentId (s : Student) (id : String) : Student :=
  if id.length = 8 then
    if id.data.getD 0 ' ' = 'A' then
      if digitsLoop id.data 7 1 then { s with studentID := id }
      else { s with studentID := "NULL" }
    else s
  else s

/-- The member `setFirstName`. -/
def setFirstName (s : Student) (name : String) : Student := { s with firstName := name }

/-- The member `setLastName`. -/
def setLastName (s : Student) (name : String) : Student := { s with lastName := name }

/-- The member `setGpa`. -/
def setGpa (s : Student) (gpa : Double) : Student :=
  if gpa.gt 4 || gpa.lt 0 then { s with gpa := Double.val 2 } else { s with gpa := gpa }

/-- The member `setNumberOfCredits`. -/
def setNumberOfCredits (s : Student) (number : Int) : Student :=
  { s with numberOfcredits := number }

/-- The constructor `Student(double, string, string, string)`; the members start from the
empty string. -/
def mk4 (gpa : Double) (studentID firstName lastName : String) : Student :=
  let s0 : Student := ⟨"", "", "", 0, gpa, []⟩
  let s1 := ((s0.setSudentId studentID).setFirstName firstName).setLastName lastName
  { s1 with numberOfcredits := 0, courseRegistred := [] }.setGpa gpa

/-- The member `getNumberOfcredits`. -/
def getNumberOfcredits (s : Student) : Int := s.numberOfcredits

/-- The member `getRegisteredCourse`. -/
def getRegisteredCourse (s : Student) : List String := s.courseRegistred

end Student

/-- The order `<` of `std::string`, on the characters of the two strings. -/
def strLt : List Char → List Char → Bool
  | [], [] => false
  | [], _ :: _ => true
  | _ :: _, [] => false
  | a :: as, b :: bs =>
    if a.toNat < b.toNat then true
    else if b.toNat < a.toNat then false
    else strLt as bs

/-- The statement `m[key] = value` on a `std::map<string, string>`: the entry of `key` is
replaced, or a new entry is put at the place of `key` in the order of the keys. -/
def mapAssign : List (String × String) → String → String → List (String × String)
  | [], key, value => [(key, value)]
  | (k, v) :: rest, key, value =>
    if key = k then (key, value) :: rest
    else if strLt key.data k.data then (key, value) :: (k, v) :: rest
    else (k, v) :: mapAssign rest key value

/-- The data members of a `Course`. -/
structure Course where
  courseCode : String
  courseTitle : String
  numberOfCredits : Int
  capacity : Int
  registeredStudents : List (String × String)

/-- The operator `Course::operator==`: two courses are equal when their codes are. -/
instance : BEq Course := ⟨fun a b => a.courseCode == b.courseCode⟩

namespace Course

/-- The member `setNumberOfCredits`. -/
def setNumberOfCredits (c : Course) (numberOfCredits : Int) : Course :=
  if numberOfCredits < 0 then { c with numberOfCredits := numberOfCredits } else c

/-- The member `setCapacity`. -/
def setCapacity (c : Course) (capacity : Int) : Course :=
  if capacity < 0 then c else { c with capacity := capacity }

/-- The member `registerStudent`. -/
def registerStudent (c : Course) (studentId studentFullName : String) : Course × Bool :=
  ({ c with registeredStudents := mapAssign c.registeredStudents studentId studentFullName },
    true)

/-- The member `getNumberOfCredits`. -/
def getNumberOfCredits (c : Course) : Int := c.numberOfCredits

/-- The member `getNumberOfEnrolled`. -/
def getNumberOfEnrolled (c : Course) : Int := (c.registeredStudents.length : Int)

end Course

/-! ## main.cpp -/

/-- The statements of `option9` after the add/drop loop (main.cpp:794-797), on the two student
lists in one node store; `resultStudent` designates the node of `registeredList` that holds
the selected student.  The result is the store and the lists `registeredList` and
`unregistered`. -/
def option9Finish (h : Heap (Node Student)) (registeredList unregistered : LListWithDummyNode)
    (resultStudent : Ptr) :
    Except Fault (Heap (Node Student) × LListWithDummyNode × LListWithDummyNode) := do
  let n ← h.load resultStudent
  if n.data.getRegisteredCourse.length = 0 then
    let r1 ← LListWithDummyNode.insertAtBegin h unregistered n.data
    let n1 ← r1.1.load resultStudent
    let r2 ← LListWithDummyNode.deleteAtElement r1.1 r1.2.1 n1.data
    pure (r2.1, registeredList, r2.2.1)
  else pure (h, registeredList, unregistered)

/-- The statements of `option8` after the registration loop (main.cpp:634-637), on the two
student lists in one node store; `resultStudent` designates the node of `unregistered` that
holds the selected student.  The result is the store and the lists `unregistered` and
`registered`. -/
def option8Finish (h : Heap (Node Student)) (unregistered registered : LListWithDummyNode)
    (resultStudent : Ptr) :
    Except Fault (Heap (Node Student) × LListWithDummyNode × LListWithDummyNode) := do
  let n ← h.load resultStudent
  if n.data.getNumberOfcredits ≠ 0 then
    let r1 ← LListWithDummyNode.insertAtBegin h registered n.data
    let n1 ← r1.1.load resultStudent
    let r2 ← LListWithDummyNode.deleteAtElement r1.1 unregistered n1.data
    pure (r2.1, r2.2.1, r1.2.1)
  else pure (h, unregistered, registered)

/-! ## Theorems -/

/-! ### Chains -/

theorem Heap.load_some_iff {ν : Type} {h : Heap ν} {a : Nat} {n : ν} :
    h.load (some a) = .ok n ↔ h[a]? = some (some n) := by
  simp only [Heap.load]
  cases h[a]? with
  | none => simp
  | some o => cases o <;> simp

theorem Chain.functional {ν : Type} {next : ν → Ptr} {h : Heap ν} :
    ∀ {c1 c2 : List (Nat × ν)} {p : Ptr}, Chain next h p c1 → Chain next h p c2 → c1 = c2
  | [], [], _, _, _ => rfl
  | [], _ :: _, _, h1, h2 => by
    simp only [Chain] at h1 h2
    rw [h1] at h2
    cases h2.1
  | _ :: _, [], _, h1, h2 => by
    simp only [Chain] at h1 h2
    rw [h2] at h1
    cases h1.1
  | (a1, n1) :: r1, (a2, n2) :: r2, p, h1, h2 => by
    simp only [Chain] at h1 h2
    obtain ⟨hp1, hc1, ht1⟩ := h1
    obtain ⟨hp2, hc2, ht2⟩ := h2
    rw [hp1] at hp2
    cases hp2
    rw [hc1] at hc2
    cases hc2
    rw [Chain.functional ht1 ht2]

theorem Chain.suffix {ν : Type} {next : ν → Ptr} {h : Heap ν} :
    ∀ {cells : List (Nat × ν)} {p : Ptr} {a : Nat}, Chain next h p cells →
      a ∈ cells.map Prod.fst →
      ∃ suf, Chain next h (some a) suf ∧ suf.length ≤ cells.length
  | [], _, _, _, hm => by simp at hm
  | c :: rest, p, a, hc, hm => by
    by_cases hac : a = c.1
    · refine ⟨c :: rest, ?_, le_refl _⟩
      have hc2 := hc
      simp only [Chain] at hc
      rw [hac, ← hc.1]
      exact hc2
    · simp only [Chain] at hc
      have hm2 : a ∈ rest.map Prod.fst := by
        simp only [List.map_cons, List.mem_cons] at hm
        rcases hm with hm | hm
        · exact absurd hm hac
        · exact hm
      obtain ⟨suf, hs, hl⟩ := Chain.suffix hc.2.2 hm2
      exact ⟨suf, hs, by simp only [List.length_cons]; omega⟩

theorem Chain.nodup {ν : Type} {next : ν → Ptr} {h : Heap ν} :
    ∀ {cells : List (Nat × ν)} {p : Ptr}, Chain next h p cells → (cells.map Prod.fst).Nodup
  | [], _, _ => by simp
  | c :: rest, p, hc => by
    have hc2 := hc
    simp only [Chain] at hc
    obtain ⟨hp, _, ht⟩ := hc
    rw [List.map_cons, List.nodup_cons]
    refine ⟨?_, Chain.nodup ht⟩
    intro hm
    obtain ⟨suf, hs, hl⟩ := Chain.suffix ht hm
    rw [hp] at hc2
    have := Chain.functional hs hc2
    rw [this] at hl
    simp only [List.length_cons] at hl
    omega

theorem Chain.addr_lt {ν : Type} {next : ν → Ptr} {h : Heap ν} :
    ∀ {cells : List (Nat × ν)} {p : Ptr}, Chain next h p cells →
      ∀ a ∈ cells.map Prod.fst, a < h.length
  | [], _, _, a, hm => by simp at hm
  | c :: rest, p, hc, a, hm => by
    simp only [Chain] at hc
    simp only [List.map_cons, List.mem_cons] at hm
    rcases hm with hm | hm
    · rw [hm]
      by_contra hlt
      have : h[c.1]? = none := List.getElem?_eq_none (by omega)
      rw [this] at hc
      cases hc.2.1
    · exact Chain.addr_lt hc.2.2 a hm

/-- A chain has at most as many cells as the heap: the heap size bounds every pointer walk. -/
theorem Chain.length_le {ν : Type} {next : ν → Ptr} {h : Heap ν} {cells : List (Nat × ν)} {p : Ptr}
    (hc : Chain next h p cells) : cells.length ≤ h.length := by
  have hsub : cells.map Prod.fst ⊆ List.range h.length := by
    intro a ha
    exact List.mem_range.mpr (hc.addr_lt a ha)
  have := (List.subperm_of_subset hc.nodup hsub).length_le
  simpa using this

theorem Chain.length_lt_fuel {ν : Type} {next : ν → Ptr} {h : Heap ν} {cells : List (Nat × ν)} {p : Ptr}
    (hc : Chain next h p cells) : cells.length < h.fuel := by
  have := hc.length_le
  unfold Heap.fuel
  omega

/-! ### Heap cells -/

theorem Heap.lt_of_cell {ν : Type} {h : Heap ν} {a : Nat} {x : Option ν}
    (hl : h[a]? = some x) : a < h.length := by
  by_contra hlt
  rw [List.getElem?_eq_none (by omega)] at hl
  cases hl

theorem Heap.load_of_cell {ν : Type} {h : Heap ν} {a : Nat} {n : ν}
    (hl : h[a]? = some (some n)) : h.load (some a) = .ok n :=
  Heap.load_some_iff.mpr hl

theorem Heap.cell_of_load {ν : Type} {h : Heap ν} {p : Ptr} {n : ν}
    (hl : h.load p = .ok n) : ∃ a, p = some a ∧ h[a]? = some (some n) := by
  cases p with
  | none => cases hl
  | some a => exact ⟨a, rfl, Heap.load_some_iff.mp hl⟩

theorem Heap.modify_of_cell {ν : Type} {h : Heap ν} {a : Nat} {n : ν}
    (hl : h[a]? = some (some n)) (f : ν → ν) :
    h.modify (some a) f = .ok (h.set a (some (f n))) := by
  simp [Heap.modify, Heap.load_of_cell hl]

theorem Heap.free_of_cell {ν : Type} {h : Heap ν} {a : Nat} {n : ν}
    (hl : h[a]? = some (some n)) : h.free (some a) = .ok (h.set a none) := by
  simp [Heap.free, hl]

theorem Heap.cell_alloc_new {ν : Type} (h : Heap ν) (n : ν) :
    (h.alloc n).1[(h.alloc n).2]? = some (some n) := by
  simp [Heap.alloc]

theorem Heap.cell_alloc_old {ν : Type} {h : Heap ν} {a : Nat} {x : Option ν} (n : ν)
    (hl : h[a]? = some x) : (h.alloc n).1[a]? = some x := by
  have hlt := Heap.lt_of_cell hl
  simp [Heap.alloc, List.getElem?_append_left hlt, hl]

theorem Heap.cell_set_self {ν : Type} {h : Heap ν} {a : Nat} {x : Option ν} (y : Option ν)
    (hl : h[a]? = some x) : (h.set a y)[a]? = some y := by
  have hlt := Heap.lt_of_cell hl
  simp [hlt]

theorem toUnsigned_natCast {n : Nat} (hn : n < 4294967296) : toUnsigned (n : Int) = n := by
  unfold toUnsigned
  omega

/-! ### Frames -/

theorem Chain.cell_of_mem {ν : Type} {next : ν → Ptr} {h : Heap ν} :
    ∀ {cells : List (Nat × ν)} {p : Ptr}, Chain next h p cells →
      ∀ c ∈ cells, h[c.1]? = some (some c.2)
  | [], _, _, c, hm => by simp at hm
  | c0 :: rest, p, hc, c, hm => by
    simp only [Chain] at hc
    rcases List.mem_cons.mp hm with hm | hm
    · rw [hm]; exact hc.2.1
    · exact Chain.cell_of_mem hc.2.2 c hm

theorem Chain.frame {ν : Type} {next : ν → Ptr} {h h' : Heap ν} :
    ∀ {cells : List (Nat × ν)} {p : Ptr}, Chain next h p cells →
      (∀ x ∈ cells, h'[x.1]? = h[x.1]?) → Chain next h' p cells
  | [], _, hc, _ => hc
  | c :: rest, p, hc, hf => by
    simp only [Chain] at hc ⊢
    refine ⟨hc.1, ?_, Chain.frame hc.2.2 (fun x hx => hf x (List.mem_cons_of_mem _ hx))⟩
    rw [hf c (List.mem_cons_self _ _)]
    exact hc.2.1

/-- Rebuilding a chain whose cells before `t` are untouched and whose part from `t` on is
replaced by a chain that starts at the same address. -/
theorem Chain.append_frame {ν : Type} {next : ν → Ptr} {h h' : Heap ν}
    {t : Nat × ν} {tail tail' : List (Nat × ν)} :
    ∀ {pre : List (Nat × ν)} {p : Ptr}, Chain next h p (pre ++ t :: tail) →
      (∀ x ∈ pre, h'[x.1]? = h[x.1]?) → Chain next h' (some t.1) tail' →
      Chain next h' p (pre ++ tail')
  | [], p, hc, _, ht => by
    simp only [List.nil_append, Chain] at hc ⊢
    rw [hc.1]
    exact ht
  | c :: rest, p, hc, hf, ht => by
    simp only [List.cons_append, Chain] at hc ⊢
    refine ⟨hc.1, ?_, Chain.append_frame hc.2.2
      (fun x hx => hf x (List.mem_cons_of_mem _ hx)) ht⟩
    rw [hf c (List.mem_cons_self _ _)]
    exact hc.2.1

theorem nodup_mid {ν : Type} {pre post : List (Nat × ν)} {b c : Nat × ν}
    (hnd : ((pre ++ b :: c :: post).map Prod.fst).Nodup) :
    b.1 ≠ c.1 ∧ (∀ x ∈ pre, x.1 ≠ b.1 ∧ x.1 ≠ c.1 ∧ ∀ y ∈ post, x.1 ≠ y.1)
      ∧ (∀ y ∈ post, y.1 ≠ b.1 ∧ y.1 ≠ c.1) ∧ (post.map Prod.fst).Nodup := by
  simp only [List.map_append, List.map_cons, List.nodup_append, List.nodup_cons,
    List.mem_cons, not_or, List.mem_map, not_exists, not_and, List.Disjoint] at hnd
  obtain ⟨_, ⟨⟨hbc, hbp⟩, hcp, hpp⟩, hdis⟩ := hnd
  refine ⟨hbc, ?_, ?_, hpp⟩
  · intro x hx
    have hd := @hdis x.1 ⟨x, hx, rfl⟩
    refine ⟨fun he => hd (Or.inl he), fun he => hd (Or.inr (Or.inl he)), ?_⟩
    intro y hy he
    exact hd (Or.inr (Or.inr ⟨y, hy, he.symm⟩))
  · intro y hy
    exact ⟨fun he => hbp y hy he, fun he => hcp y hy he⟩

/-! ### DoublyLinkedList -/

namespace DoublyLinkedList

variable {α : Type}

theorem dll_searchLoop_chain [BEq α] {h : Heap (DNode α)} (e : α) :
    ∀ (cells : List (Nat × DNode α)) (p : Ptr) (k : Nat) (c : Int),
      Chain DNode.next h p cells → cells.length < k →
      searchLoop h e k p c = .ok
        (match (cells.map (fun c => c.2.data)).findIdx? (fun x => x == e) with
          | some i => c + (i : Int)
          | none => -1)
  | [], p, k, c, hc, hk => by
    simp only [Chain] at hc
    subst hc
    obtain ⟨k, rfl⟩ : ∃ j, k = j + 1 := ⟨k - 1, by simp at hk; omega⟩
    simp [searchLoop]
  | cell :: rest, p, k, c, hc, hk => by
    simp only [Chain] at hc
    obtain ⟨hp, hcell, ht⟩ := hc
    subst hp
    obtain ⟨k, rfl⟩ : ∃ j, k = j + 1 := ⟨k - 1, by simp at hk; omega⟩
    have hload : h.load (some cell.1) = .ok cell.2 := Heap.load_some_iff.mpr hcell
    simp only [searchLoop, hload, List.map_cons, List.findIdx?_cons]
    by_cases hm : (cell.2.data == e) = true
    · simp [hm, bind, Except.bind, pure, Except.pure]
    · have ih := dll_searchLoop_chain e rest cell.2.next k (c + 1) ht
        (by simp only [List.length_cons] at hk; omega)
      simp only [hm, bind, Except.bind, ih, List.findIdx?_succ]
      cases (List.map (fun c => c.2.data) rest).findIdx? (fun x => x == e) with
      | none => simp
      | some i => simp; omega

/-- C10: on every DoublyLinkedList whose nodes form a chain with elements `xs`, and for every
value `v`, `search(v)` returns the zero-based index of the first element of `xs` equal to `v`
(under the `==` of the element type), and it returns -1 exactly when no element of `xs` equals
`v`, the empty list included.  `search` is a `const` member: it reads the heap and returns the
index only, so heap and list are the same after the call. -/
theorem dll_search_first_index [BEq α] (h : Heap (DNode α)) (l : DoublyLinkedList)
    (xs : List α) (v : α) (hx : Holds h l xs) :
    search h l v = .ok
        (match xs.findIdx? (fun x => x == v) with
          | some i => (i : Int)
          | none => -1)
      ∧ (search h l v = .ok (-1) ↔ ∀ x ∈ xs, (x == v) = false) := by
  obtain ⟨cells, hc, rfl⟩ := hx
  have key : search h l v = .ok
        (match (cells.map (fun c => c.2.data)).findIdx? (fun x => x == v) with
          | some i => (i : Int)
          | none => -1) := by
    cases cells with
    | nil =>
      simp only [Chain] at hc
      simp [search, isEmpty, hc]
    | cons cell rest =>
      have hc2 := hc
      simp only [Chain] at hc
      obtain ⟨hp, hcell, ht⟩ := hc
      have hload : h.load (some cell.1) = .ok cell.2 := Heap.load_some_iff.mpr hcell
      by_cases hm : (cell.2.data == v) = true
      · simp [search, isEmpty, hp, hload, hm, bind, Except.bind, pure, Except.pure]
      · have hl := dll_searchLoop_chain v (cell :: rest) l.myFirst h.fuel 0 hc2 hc2.length_lt_fuel
        simp only [search, isEmpty, hp, hload, hm, bind, Except.bind]
        rw [hp] at hl
        simp only [hl]
        simp
  refine ⟨key, ?_⟩
  rw [key]
  cases hf : (cells.map (fun c => c.2.data)).findIdx? (fun x => x == v) with
  | none =>
    simp only [true_iff]
    exact List.findIdx?_eq_none_iff.mp hf
  | some i =>
    have hne : ¬ ∀ x ∈ cells.map (fun c => c.2.data), (x == v) = false := by
      intro hall
      rw [List.findIdx?_eq_none_iff.mpr hall] at hf
      cases hf
    simp only [hne, iff_false]
    intro heq
    injection heq with heq
    omega

/-- Witness of C10: the list 5, 7, 5 and the value 7, found at index 1. -/
theorem dll_search_first_index_witness :
    Holds [some ⟨5, some 1, none⟩, some ⟨7, some 2, some 0⟩, some ⟨5, none, some 1⟩]
        { myFirst := some 0, mySize := 3 } [5, 7, 5]
      ∧ (search [some ⟨5, some 1, none⟩, some ⟨7, some 2, some 0⟩, some ⟨5, none, some 1⟩]
            { myFirst := some 0, mySize := 3 } 7 = .ok
            (match [5, 7, 5].findIdx? (fun x => x == 7) with
              | some i => (i : Int)
              | none => -1)
        ∧ (search [some ⟨5, some 1, none⟩, some ⟨7, some 2, some 0⟩, some ⟨5, none, some 1⟩]
            { myFirst := some 0, mySize := 3 } 7 = .ok (-1) ↔
            ∀ x ∈ [5, 7, 5], (x == 7) = false)) :=
  have hx : Holds [some ⟨5, some 1, none⟩, some ⟨7, some 2, some 0⟩, some ⟨5, none, some 1⟩]
      { myFirst := some 0, mySize := 3 } [5, 7, 5] :=
    ⟨[(0, ⟨5, some 1, none⟩), (1, ⟨7, some 2, some 0⟩), (2, ⟨5, none, some 1⟩)],
      ⟨rfl, rfl, rfl, rfl, rfl, rfl, rfl⟩, rfl⟩
  ⟨hx, dll_search_first_index _ _ _ _ hx⟩

/-- C1, the code at a failing input: the copy constructor applied to the list A = 1, 2 (built
by two `insertAtEnd` calls) gives a list B with `getSize() == 2` but with the three nodes
1, 1, 2 reachable from its head, and `B.retrieveAtIndex(1)` is 1 where `A.retrieveAtIndex(1)`
is 2: the first element is copied twice. -/
theorem dll_copy_two_elements :
    (do
      let (h, a) ← ofList ([] : Heap (DNode Nat)) [1, 2]
      let (h1, b) ← copy h a
      let ys ← toList h1 b
      let y ← retrieveAtIndex h1 b 1
      let x ← retrieveAtIndex h1 a 1
      pure (b.getSize, ys, y, x)) = .ok (2, [1, 1, 2], 1, 2) := by
  decide

/-- C3, the code at a failing input: with A = 1, 2 and B = 7, the assignment `B = A` leaves B
with `getSize() == 2` and the three elements 1, 1, 2 reachable from its head, while A still
holds 1, 2. -/
theorem dll_assign_two_elements :
    (do
      let (h, a) ← ofList ([] : Heap (DNode Nat)) [1, 2]
      let (h0, b0) ← ofList h [7]
      let (h1, b) ← assign h0 b0 false a
      let ys ← toList h1 b
      let xs ← toList h1 a
      pure (b.getSize, ys, xs)) = .ok (2, [1, 1, 2], [1, 2]) := by
  decide

/-- C5, the code at a failing input: the list 1, 2, 3 built by `insertAtEnd` has size 3 and
three reachable nodes, and `deleteAtElement(3)` on it, the value of the last node, writes
through the null `next` link of that node instead of returning a state. -/
theorem dll_deleteAtElement_last_of_three :
    (do
      let (h, a) ← ofList ([] : Heap (DNode Nat)) [1, 2, 3]
      let xs ← toList h a
      pure (a.getSize, xs)) = .ok (3, [1, 2, 3])
    ∧ (do
      let (h, a) ← ofList ([] : Heap (DNode Nat)) [1, 2, 3]
      deleteAtElement h a 3) = .error .nullDeref := by
  decide

/-- C8, the code at a failing input: on the list 1, 2 the call `deleteAtElement(2)`, whose
value occurs in the last node only, dereferences the null `next` link of that node; it returns
neither true nor a list. -/
theorem dll_deleteAtElement_last_of_two :
    (do
      let (h, a) ← ofList ([] : Heap (DNode Nat)) [1, 2]
      deleteAtElement h a 2) = .error .nullDeref := by
  decide

theorem DChain.toChain {h : Heap (DNode α)} :
    ∀ {cells : List (Nat × DNode α)} {p q : Ptr}, DChain h p q cells →
      Chain DNode.next h p cells
  | [], _, _, hc => by
    simp only [DChain] at hc
    simp only [Chain, hc]
  | c :: rest, p, q, hc => by
    simp only [DChain] at hc
    simp only [Chain]
    exact ⟨hc.1, hc.2.1, DChain.toChain hc.2.2.2⟩

theorem WellFormed.holds {h : Heap (DNode α)} {l : DoublyLinkedList} {xs : List α}
    (hw : WellFormed h l xs) : Holds h l xs := by
  obtain ⟨cells, hc, hx, _⟩ := hw
  exact ⟨cells, hc.toChain, hx⟩

theorem dll_advance_chain {h : Heap (DNode α)} :
    ∀ (cells : List (Nat × DNode α)) (p : Ptr) (i : Nat) (hi : i < cells.length),
      Chain DNode.next h p cells → advance h i p = .ok (some cells[i].1)
  | [], _, _, hi, _ => by simp at hi
  | c :: rest, p, 0, _, hc => by
    simp only [Chain] at hc
    simp [advance, hc.1]
  | c :: rest, p, i + 1, hi, hc => by
    simp only [Chain] at hc
    obtain ⟨hp, hcell, ht⟩ := hc
    have ih := dll_advance_chain rest c.2.next i (by simpa using hi) ht
    simp only [advance, hp, Heap.load_of_cell hcell, bind, Except.bind, ih]
    simp

theorem dll_deleteAtElementLoop_absent [BEq α] {h : Heap (DNode α)} (e : α) :
    ∀ (cells : List (Nat × DNode α)) (p : Ptr) (k : Nat),
      Chain DNode.next h p cells → (∀ c ∈ cells, (c.2.data == e) = false) →
      cells.length < k → deleteAtElementLoop e k h p = .ok (h, false)
  | [], p, k, hc, _, hk => by
    simp only [Chain] at hc
    subst hc
    obtain ⟨k, rfl⟩ : ∃ j, k = j + 1 := ⟨k - 1, by simp at hk; omega⟩
    simp [deleteAtElementLoop]
  | cell :: rest, p, k, hc, hn, hk => by
    simp only [Chain] at hc
    obtain ⟨hp, hcell, ht⟩ := hc
    subst hp
    obtain ⟨k, rfl⟩ : ∃ j, k = j + 1 := ⟨k - 1, by simp at hk; omega⟩
    have hm : (cell.2.data == e) = false := hn cell (List.mem_cons_self _ _)
    have ih := dll_deleteAtElementLoop_absent e rest cell.2.next k ht
      (fun c hc => hn c (List.mem_cons_of_mem _ hc))
      (by simp only [List.length_cons] at hk; omega)
    simp only [deleteAtElementLoop, Heap.load_of_cell hcell, hm, bind, Except.bind, ih]
    simp

theorem DChain.dll_frame {h h' : Heap (DNode α)} :
    ∀ {cells : List (Nat × DNode α)} {p q : Ptr}, DChain h p q cells →
      (∀ x ∈ cells, h'[x.1]? = h[x.1]?) → DChain h' p q cells
  | [], _, _, hc, _ => hc
  | c :: rest, p, q, hc, hf => by
    simp only [DChain] at hc ⊢
    refine ⟨hc.1, ?_, hc.2.2.1,
      DChain.dll_frame hc.2.2.2 (fun x hx => hf x (List.mem_cons_of_mem _ hx))⟩
    rw [hf c (List.mem_cons_self _ _)]
    exact hc.2.1

/-- Rebuilding a doubly linked chain whose cells before `t` are untouched and whose part from
`t` on is replaced by a chain that starts at the same address with the same `prev` link. -/
theorem DChain.dll_append_frame {h h' : Heap (DNode α)} {t : Nat × DNode α}
    {tail tail' : List (Nat × DNode α)} :
    ∀ {pre : List (Nat × DNode α)} {p q : Ptr}, DChain h p q (pre ++ t :: tail) →
      (∀ x ∈ pre, h'[x.1]? = h[x.1]?) → DChain h' (some t.1) t.2.prev tail' →
      DChain h' p q (pre ++ tail')
  | [], p, q, hc, _, ht => by
    simp only [List.nil_append, DChain] at hc ⊢
    rw [hc.1, ← hc.2.2.1]
    exact ht
  | c :: rest, p, q, hc, hf, ht => by
    simp only [List.cons_append, DChain] at hc ⊢
    refine ⟨hc.1, ?_, hc.2.2.1, DChain.dll_append_frame hc.2.2.2
      (fun x hx => hf x (List.mem_cons_of_mem _ hx)) ht⟩
    rw [hf c (List.mem_cons_self _ _)]
    exact hc.2.1

/-- The facts a doubly linked chain gives about two neighbouring cells `b`, `c`. -/
theorem DChain.mid {h : Heap (DNode α)} {b c : Nat × DNode α}
    {post : List (Nat × DNode α)} :
    ∀ {pre : List (Nat × DNode α)} {p q : Ptr}, DChain h p q (pre ++ b :: c :: post) →
      h[b.1]? = some (some b.2) ∧ b.2.next = some c.1 ∧ h[c.1]? = some (some c.2)
        ∧ c.2.prev = some b.1 ∧ DChain h c.2.next (some c.1) post
  | [], p, q, hc => by
    simp only [List.nil_append, DChain] at hc
    exact ⟨hc.2.1, hc.2.2.2.1, hc.2.2.2.2.1, hc.2.2.2.2.2.1, hc.2.2.2.2.2.2⟩
  | x :: rest, p, q, hc => by
    simp only [List.cons_append, DChain] at hc
    exact DChain.mid hc.2.2.2

theorem dll_advance_prefix {h : Heap (DNode α)} {c : Nat × DNode α}
    {post : List (Nat × DNode α)} :
    ∀ (pre : List (Nat × DNode α)) (p : Ptr), Chain DNode.next h p (pre ++ c :: post) →
      advance h pre.length p = .ok (some c.1)
  | [], p, hc => by
    simp only [List.nil_append, Chain] at hc
    simp [advance, hc.1]
  | x :: rest, p, hc => by
    simp only [List.cons_append, Chain] at hc
    have ih := dll_advance_prefix rest x.2.next hc.2.2
    simp only [List.length_cons, advance, hc.1, Heap.load_of_cell hc.2.1, bind, Except.bind, ih]

theorem exists_split_at {β : Type} :
    ∀ (cells : List β) (i : Nat), i + 1 < cells.length →
      ∃ pre b c post, cells = pre ++ b :: c :: post ∧ pre.length = i
  | [], _, hi => by simp at hi
  | [_], _, hi => by simp at hi
  | b :: c :: post, 0, _ => ⟨[], b, c, post, rfl, rfl⟩
  | x :: y :: rest, i + 1, hi => by
    obtain ⟨pre, b, c, post, hs, hl⟩ := exists_split_at (y :: rest) i
      (by simp only [List.length_cons] at hi ⊢; omega)
    exact ⟨x :: pre, b, c, post, by rw [hs]; rfl, by simp [hl]⟩

theorem dll_sample_wellFormed : WellFormed sampleHeap sampleList [5, 7, 5] :=
  ⟨[(0, ⟨5, some 1, none⟩), (1, ⟨7, some 2, some 0⟩), (2, ⟨5, none, some 1⟩)],
    ⟨rfl, rfl, rfl, rfl, rfl, rfl, rfl, rfl, rfl, rfl⟩, rfl, rfl⟩

/-- C17: on every well-formed DoublyLinkedList with elements `xs` (whose size is in the range
of `int`) and for every index `i < getSize()`, `deleteAtIndex(i)` returns true, decrements the
size by one, and leaves a well-formed list, head pointer and `next`/`prev` links included,
whose elements are `xs` without the element at position `i`. -/
theorem dll_deleteAtIndex_in_range (h : Heap (DNode α)) (l : DoublyLinkedList)
    (xs : List α) (i : Nat) (hw : WellFormed h l xs) (hr : l.getSize < 2147483648)
    (hi : (i : Int) < l.getSize) :
    ∃ h1 l1, deleteAtIndex h l i = .ok (h1, l1, true)
      ∧ l1.getSize = l.getSize - 1
      ∧ WellFormed h1 l1 (xs.eraseIdx i) := by
  obtain ⟨cells, hc, rfl, hsz⟩ := hw
  obtain ⟨first, size⟩ := l
  simp only [getSize] at hr hi ⊢
  have hsz' : size = (cells.length : Int) := by
    have h0 : size = _ := hsz
    rw [h0]
    simp
  have hu : toUnsigned size = cells.length := by
    rw [hsz']
    exact toUnsigned_natCast (by omega)
  have hilt : i < cells.length := by omega
  have hnot : ¬ i ≥ toUnsigned size := by rw [hu]; omega
  cases i with
  | zero =>
    cases cells with
    | nil => simp at hilt
    | cons c post =>
      have hnd := hc.toChain.nodup
      simp only [List.map_cons, List.nodup_cons] at hnd
      simp only [DChain] at hc
      obtain ⟨hp, hcell, _, ht⟩ := hc
      subst hp
      cases post with
      | nil =>
        simp only [DChain] at ht
        have hfree := Heap.free_of_cell hcell
        refine ⟨h.set c.1 none, { myFirst := c.2.next, mySize := size - 1 }, ?_, rfl,
          [], ?_, rfl, ?_⟩
        · simp only [deleteAtIndex, isEmpty, if_neg hnot, Heap.load_of_cell hcell, ht, hfree,
            bind, Except.bind, pure, Except.pure]
          simp
        · simp only [DChain, ht]
        · show size - 1 = _
          simp only [List.length_cons, List.length_nil] at hsz'
          simp only [List.map_cons, List.map_nil, List.eraseIdx_cons_zero, List.length_nil]
          omega
      | cons d r =>
        simp only [DChain] at ht
        obtain ⟨hcn, hdc, _, hr2⟩ := ht
        simp only [List.map_cons, List.mem_cons, not_or, List.nodup_cons] at hnd
        obtain ⟨⟨hcd, hcr⟩, hdr, _⟩ := hnd
        have hm := Heap.modify_of_cell hdc (fun n => { n with prev := none })
        have hc1 : (h.set d.1 (some { d.2 with prev := none }))[c.1]? = some (some c.2) := by
          rw [List.getElem?_set_ne (Ne.symm hcd)]; exact hcell
        have hfree := Heap.free_of_cell hc1
        refine ⟨(h.set d.1 (some { d.2 with prev := none })).set c.1 none,
          { myFirst := c.2.next, mySize := size - 1 }, ?_, rfl,
          (d.1, { d.2 with prev := none }) :: r, ?_, rfl, ?_⟩
        · simp only [deleteAtIndex, isEmpty, if_neg hnot, Heap.load_of_cell hcell, hcn, hm,
            hfree, bind, Except.bind, pure, Except.pure]
          simp
        · simp only [DChain, hcn]
          refine ⟨trivial, ?_, trivial, ?_⟩
          · rw [List.getElem?_set_ne hcd]
            exact Heap.cell_set_self _ hdc
          · refine DChain.dll_frame hr2 ?_
            intro x hx
            have hxm : x.1 ∈ r.map Prod.fst := List.mem_map.mpr ⟨x, hx, rfl⟩
            rw [List.getElem?_set_ne (fun he => hcr (by rw [he]; exact hxm)),
              List.getElem?_set_ne (fun he => hdr (by rw [he]; exact hxm))]
        · show size - 1 = _
          simp only [List.length_cons] at hsz'
          simp only [List.map_cons, List.eraseIdx_cons_zero, List.length_cons, List.length_map]
          push_cast
          omega
  | succ j =>
    obtain ⟨pre, b, c, post, rfl, hl⟩ := exists_split_at cells j hilt
    subst hl
    obtain ⟨hbc, hpre, hpost, hpn⟩ := nodup_mid hc.toChain.nodup
    obtain ⟨hb, hbn, hcc, hcp, ht⟩ := DChain.mid hc
    have hadv : advance h (pre.length + 1) first = .ok (some c.1) := by
      have hch : Chain DNode.next h first ((pre ++ [b]) ++ c :: post) := by
        simpa using hc.toChain
      simpa using dll_advance_prefix (pre ++ [b]) first hch
    have hne : ¬ pre.length + 1 = 0 := by omega
    have hfirst : (first == none) = false := by
      have := hc.toChain
      cases pre with
      | nil => simp only [List.nil_append, Chain] at this; simp [this.1]
      | cons x rest => simp only [List.cons_append, Chain] at this; simp [this.1]
    have hdata : ((pre ++ b :: c :: post).map (fun c => c.2.data)).eraseIdx (pre.length + 1)
        = (pre ++ b :: post).map (fun c => c.2.data) := by
      simp only [List.map_append, List.map_cons]
      rw [List.eraseIdx_append_of_length_le (by simp)]
      simp
    have hszn : size - 1 = (((pre ++ b :: post).map (fun c => c.2.data)).length : Int) := by
      simp only [List.length_append, List.length_cons, List.length_map] at hsz' ⊢
      omega
    rw [hdata]
    cases post with
    | nil =>
      simp only [DChain] at ht
      have hm1 := Heap.modify_of_cell hb (fun n => { n with next := none })
      have hc1 : (h.set b.1 (some { b.2 with next := none }))[c.1]? = some (some c.2) := by
        rw [List.getElem?_set_ne hbc]; exact hcc
      have hfree := Heap.free_of_cell hc1
      refine ⟨(h.set b.1 (some { b.2 with next := none })).set c.1 none,
        { myFirst := first, mySize := size - 1 }, ?_, rfl,
        pre ++ [(b.1, { b.2 with next := none })], ?_, by simp, hszn⟩
      · simp only [deleteAtIndex, isEmpty, hfirst, if_neg hnot, if_neg hne, hadv,
          Heap.load_of_cell hcc, hcp, ht, hm1, Heap.load_of_cell hc1, hfree,
          bind, Except.bind, pure, Except.pure]
        simp
      · refine DChain.dll_append_frame hc ?_ ?_
        · intro x hx
          obtain ⟨hxb, hxc, _⟩ := hpre x hx
          rw [List.getElem?_set_ne (Ne.symm hxc), List.getElem?_set_ne (Ne.symm hxb)]
        · simp only [DChain]
          refine ⟨trivial, ?_, trivial, trivial⟩
          rw [List.getElem?_set_ne (Ne.symm hbc)]
          exact Heap.cell_set_self _ hb
    | cons d r =>
      simp only [DChain] at ht
      obtain ⟨hcn, hdc, _, hr2⟩ := ht
      obtain ⟨hdb, hdcne⟩ := hpost d (List.mem_cons_self _ _)
      simp only [List.map_cons, List.nodup_cons] at hpn
      have hm1 := Heap.modify_of_cell hb (fun n => { n with next := some d.1 })
      have hc1 : (h.set b.1 (some { b.2 with next := some d.1 }))[c.1]? = some (some c.2) := by
        rw [List.getElem?_set_ne hbc]; exact hcc
      have hd1 : (h.set b.1 (some { b.2 with next := some d.1 }))[d.1]? = some (some d.2) := by
        rw [List.getElem?_set_ne (Ne.symm hdb)]; exact hdc
      have hm2 := Heap.modify_of_cell hd1 (fun n => { n with prev := some b.1 })
      have hc2 : ((h.set b.1 (some { b.2 with next := some d.1 })).set d.1
          (some { d.2 with prev := some b.1 }))[c.1]? = some (some c.2) := by
        rw [List.getElem?_set_ne hdcne]; exact hc1
      have hfree := Heap.free_of_cell hc2
      refine ⟨((h.set b.1 (some { b.2 with next := some d.1 })).set d.1
          (some { d.2 with prev := some b.1 })).set c.1 none,
        { myFirst := first, mySize := size - 1 }, ?_, rfl,
        pre ++ (b.1, { b.2 with next := some d.1 }) :: (d.1, { d.2 with prev := some b.1 }) :: r,
        ?_, by simp, hszn⟩
      · simp only [deleteAtIndex, isEmpty, hfirst, if_neg hnot, if_neg hne, hadv,
          Heap.load_of_cell hcc, hcp, hcn, hm1, Heap.load_of_cell hc1, hm2, hfree,
          bind, Except.bind, pure, Except.pure]
        simp
      · refine DChain.dll_append_frame hc ?_ ?_
        · intro x hx
          obtain ⟨hxb, hxc, hxp⟩ := hpre x hx
          rw [List.getElem?_set_ne (Ne.symm hxc),
            List.getElem?_set_ne (Ne.symm (hxp d (List.mem_cons_self _ _))),
            List.getElem?_set_ne (Ne.symm hxb)]
        · simp only [DChain]
          refine ⟨trivial, ?_, trivial, trivial, ?_, trivial, ?_⟩
          · rw [List.getElem?_set_ne (Ne.symm hbc), List.getElem?_set_ne hdb]
            exact Heap.cell_set_self _ hb
          · rw [List.getElem?_set_ne (Ne.symm hdcne)]
            exact Heap.cell_set_self _ hd1
          · refine DChain.dll_frame hr2 ?_
            intro x hx
            have hxm : x.1 ∈ r.map Prod.fst := List.mem_map.mpr ⟨x, hx, rfl⟩
            obtain ⟨hxb, hxc⟩ := hpost x (List.mem_cons_of_mem _ hx)
            rw [List.getElem?_set_ne (Ne.symm hxc),
              List.getElem?_set_ne (fun he => hpn.1 (by rw [he]; exact hxm)),
              List.getElem?_set_ne (Ne.symm hxb)]

/-- Witness of C17: deleting index 1, a middle index, of the sample list 5, 7, 5. -/
theorem dll_deleteAtIndex_in_range_witness :
    WellFormed sampleHeap sampleList [5, 7, 5]
      ∧ sampleList.getSize < 2147483648
      ∧ ((1 : Nat) : Int) < sampleList.getSize
      ∧ ∃ h1 l1, deleteAtIndex sampleHeap sampleList 1 = .ok (h1, l1, true)
          ∧ l1.getSize = sampleList.getSize - 1
          ∧ WellFormed h1 l1 (([5, 7, 5] : List Nat).eraseIdx 1) :=
  ⟨dll_sample_wellFormed, by decide, by decide,
    dll_deleteAtIndex_in_range sampleHeap sampleList [5, 7, 5] 1 dll_sample_wellFormed
      (by decide) (by decide)⟩

/-- C12, the code at a failing input: on a default-constructed list `insertAtEnd(1)` returns
false, yet afterwards `getSize()` is 1 and the list holds the element 1: the size is not the
number of insert calls that returned true, and a call that returned false changed the list. -/
theorem dll_insertAtEnd_on_empty :
    (do
      let (h1, l1, r) ← insertAtEnd ([] : Heap (DNode Nat)) DoublyLinkedList.new 1
      let xs ← toList h1 l1
      pure (r, l1.getSize, xs)) = .ok (false, 1, [1]) := by
  decide

end DoublyLinkedList

/-! ### LListWithDummyNode -/

namespace LListWithDummyNode

/-- C2, the code at a failing input: the copy constructor applied to the list A = 1 gives a
list B with `getSize() == 1` whose dummy node has a null `next` link: no real element follows
the dummy node of B, and `B.isEmpty()` is true while `A.isEmpty()` is false. -/
theorem sll_copy_one_element :
    (do
      let (h, a) ← ofList ([] : Heap (Node Nat)) 0 [1]
      let (h1, b) ← copy h a 0
      let ys ← toList h1 b
      let eb ← isEmpty h1 b
      let ea ← isEmpty h1 a
      pure (b.getSize, ys, eb, ea)) = .ok (1, [], true, false) := by
  decide

/-- C4, the code at a failing input: with A = 1, 2 (dummy value 0) and B = 7, the assignment
`B = A` leaves B with `getSize() == 2` and the three real elements 0, 1, 2 after its dummy
node: the value of the dummy node of A is copied as an element. -/
theorem sll_assign_two_elements :
    (do
      let (h, a) ← ofList ([] : Heap (Node Nat)) 0 [1, 2]
      let (h0, b0) ← ofList h 0 [7]
      let (h1, b) ← assign h0 b0 false a
      let ys ← toList h1 b
      let xs ← toList h1 a
      pure (b.getSize, ys, xs)) = .ok (2, [0, 1, 2], [1, 2]) := by
  decide

/-- C6, the code at a failing input: after `insertAtBegin(1)` on a default-constructed list
the size is 1 and one real node is reachable; `deleteFromEnd()` then returns true and sets the
size to 0, but the `next` link of the dummy node still holds the address of the deleted node:
`isEmpty()` is false and the walk from the dummy node meets a deleted cell. -/
theorem sll_deleteFromEnd_one_element :
    (do
      let (h0, l0) := LListWithDummyNode.new ([] : Heap (Node Nat)) 0
      let (h1, l1, _) ← insertAtBegin h0 l0 1
      let xs ← toList h1 l1
      let (h2, l2, r) ← deleteFromEnd h1 l1
      let e ← isEmpty h2 l2
      pure (l1.getSize, xs, r, l2.getSize, e, toList h2 l2))
      = .ok (1, [1], true, 0, false, .error .danglingDeref) := by
  rfl

/-- C7, the code at a failing input: after `insertAtBegin(1)`, `insertAtBegin(2)` the list is
2, 1; `deleteFromEnd()` returns true and sets the size to 1, and the node after the dummy node
holds 2, but its `next` link is not null: it still holds the address of the deleted node, so
the chain after the dummy node is not the list 2. -/
theorem sll_deleteFromEnd_scenario :
    (do
      let (h0, l0) := LListWithDummyNode.new ([] : Heap (Node Nat)) 0
      let (h1, l1, _) ← insertAtBegin h0 l0 1
      let (h2, l2, _) ← insertAtBegin h1 l1 2
      let xs ← toList h2 l2
      let (h3, l3, r) ← deleteFromEnd h2 l2
      let d ← h3.load l3.myFirst
      let first ← h3.load d.next
      pure (xs, r, l3.getSize, first.data, first.next, h3.load first.next, toList h3 l3))
      = .ok ([2, 1], true, 1, 2, some 1, .error .danglingDeref, .error .danglingDeref) := by
  rfl

/-- C9, the code at a failing input: on the list 1, 2 the call `search(2)` returns 0, although
the first element equal to 2 is at index 1. -/
theorem sll_search_second_element :
    (do
      let (h, a) ← ofList ([] : Heap (Node Nat)) 0 [1, 2]
      let xs ← toList h a
      let i ← search h a 2
      pure (xs, i)) = .ok ([1, 2], 0) := by
  decide

theorem sll_advance_chain {h : Heap (Node α)} :
    ∀ (cells : List (Nat × Node α)) (p : Ptr) (i : Nat) (hi : i < cells.length),
      Chain Node.next h p cells → advance h i p = .ok (some cells[i].1)
  | [], _, _, hi, _ => by simp at hi
  | c :: rest, p, 0, _, hc => by
    simp only [Chain] at hc
    simp [advance, hc.1]
  | c :: rest, p, i + 1, hi, hc => by
    simp only [Chain] at hc
    obtain ⟨hp, hcell, ht⟩ := hc
    have ih := sll_advance_chain rest c.2.next i (by simpa using hi) ht
    simp only [advance, hp, Heap.load_of_cell hcell, bind, Except.bind, ih]
    simp

theorem sll_deleteAtElementLoop_absent [BEq α] {h : Heap (Node α)} (e : α) :
    ∀ (rest : List (Nat × Node α)) (b : Nat × Node α) (k : Nat),
      h[b.1]? = some (some b.2) → Chain Node.next h b.2.next rest →
      (∀ c ∈ rest, (c.2.data == e) = false) → rest.length < k →
      deleteAtElementLoop e k h b.2.next (some b.1) = .ok (h, false)
  | [], b, k, _, hc, _, hk => by
    simp only [Chain] at hc
    obtain ⟨k, rfl⟩ : ∃ j, k = j + 1 := ⟨k - 1, by simp at hk; omega⟩
    simp [deleteAtElementLoop, hc]
  | cell :: rest, b, k, hb, hc, hn, hk => by
    simp only [Chain] at hc
    obtain ⟨hp, hcell, ht⟩ := hc
    obtain ⟨k, rfl⟩ : ∃ j, k = j + 1 := ⟨k - 1, by simp at hk; omega⟩
    have hm : (cell.2.data == e) = false := hn cell (List.mem_cons_self _ _)
    have ih := sll_deleteAtElementLoop_absent e rest cell k hcell ht
      (fun c hc => hn c (List.mem_cons_of_mem _ hc))
      (by simp only [List.length_cons] at hk; omega)
    rw [hp]
    simp only [deleteAtElementLoop, Heap.load_of_cell hcell, hm, Heap.load_of_cell hb, hp,
      bind, Except.bind, ih]
    simp

/-- Unlinking and deleting the cell `c` after the cell `b`. -/
theorem sll_splice {h : Heap (Node α)} {b c : Nat × Node α} {r2 : List (Nat × Node α)}
    (hc : Chain Node.next h (some b.1) (b :: c :: r2)) :
    Chain Node.next ((h.set b.1 (some { b.2 with next := c.2.next })).set c.1 none)
        (some b.1) ((b.1, { b.2 with next := c.2.next }) :: r2)
      ∧ ∀ a, a ≠ b.1 → a ≠ c.1 →
        ((h.set b.1 (some { b.2 with next := c.2.next })).set c.1 none)[a]? = h[a]? := by
  have hnd := hc.nodup
  simp only [List.map_cons, List.nodup_cons, List.mem_cons, not_or] at hnd
  obtain ⟨⟨hbc, hbr⟩, hcr, _⟩ := hnd
  simp only [Chain] at hc
  obtain ⟨_, hb, _, hcc, ht⟩ := hc
  have hframe : ∀ a, a ≠ b.1 → a ≠ c.1 →
      ((h.set b.1 (some { b.2 with next := c.2.next })).set c.1 none)[a]? = h[a]? := by
    intro a hab hac
    rw [List.getElem?_set_ne (Ne.symm hac), List.getElem?_set_ne (Ne.symm hab)]
  refine ⟨?_, hframe⟩
  simp only [Chain]
  refine ⟨trivial, ?_, ?_⟩
  · rw [List.getElem?_set_ne (Ne.symm hbc)]
    exact Heap.cell_set_self _ hb
  · refine Chain.frame ht ?_
    intro x hx
    have hxm : x.1 ∈ r2.map Prod.fst := List.mem_map.mpr ⟨x, hx, rfl⟩
    refine hframe x.1 ?_ ?_
    · intro heq; exact hbr (heq ▸ hxm)
    · intro heq; exact hcr (heq ▸ hxm)

theorem sll_deleteAtElementLoop_found [BEq α] {h : Heap (Node α)} (e : α)
    {c : Nat × Node α} {r2 : List (Nat × Node α)} (hm : (c.2.data == e) = true) :
    ∀ (r1 : List (Nat × Node α)) (b : Nat × Node α) (k : Nat),
      Chain Node.next h (some b.1) (b :: (r1 ++ c :: r2)) →
      (∀ x ∈ r1, (x.2.data == e) = false) → r1.length < k →
      ∃ (h' : Heap (Node α)) (cells' : List (Nat × Node α)),
        deleteAtElementLoop e k h b.2.next (some b.1) = .ok (h', true)
        ∧ Chain Node.next h' (some b.1) cells'
        ∧ cells'.map (fun x => x.2.data) = (b :: (r1 ++ r2)).map (fun x => x.2.data)
        ∧ ∀ a, a ∉ (b :: (r1 ++ c :: r2)).map Prod.fst → h'[a]? = h[a]?
  | [], b, k, hc, _, hk => by
    obtain ⟨k, rfl⟩ : ∃ j, k = j + 1 := ⟨k - 1, by omega⟩
    have hsp := sll_splice hc
    have hnd := hc.nodup
    simp only [List.nil_append, List.map_cons, List.nodup_cons, List.mem_cons, not_or] at hnd
    obtain ⟨⟨hbc, _⟩, _, _⟩ := hnd
    simp only [List.nil_append, Chain] at hc
    obtain ⟨_, hb, hbn, hcc, _⟩ := hc
    have h1 := Heap.modify_of_cell hb (fun n => { n with next := c.2.next })
    have hc1 : (h.set b.1 (some { b.2 with next := c.2.next }))[c.1]? = some (some c.2) := by
      rw [List.getElem?_set_ne hbc]; exact hcc
    have h2 := Heap.free_of_cell hc1
    refine ⟨_, (b.1, { b.2 with next := c.2.next }) :: r2, ?_, hsp.1, rfl, ?_⟩
    · rw [hbn]
      simp only [deleteAtElementLoop, Heap.load_of_cell hcc, hm, h1, h2, bind, Except.bind,
        pure, Except.pure, if_true]
    · intro a ha
      simp only [List.nil_append, List.map_cons, List.mem_cons, not_or] at ha
      exact hsp.2 a ha.1 ha.2.1
  | x :: r1, b, k, hc, hn, hk => by
    obtain ⟨k, rfl⟩ : ∃ j, k = j + 1 := ⟨k - 1, by simp at hk; omega⟩
    have hnd := hc.nodup
    simp only [List.cons_append, List.map_cons, List.nodup_cons] at hnd
    simp only [List.cons_append, Chain] at hc
    obtain ⟨_, hb, hbn, hx, ht⟩ := hc
    have hxm : (x.2.data == e) = false := hn x (List.mem_cons_self _ _)
    have htail : Chain Node.next h (some x.1) (x :: (r1 ++ c :: r2)) := by
      simp only [Chain]; exact ⟨trivial, hx, ht⟩
    obtain ⟨h', cells', hloop, hch, hdata, hframe⟩ :=
      sll_deleteAtElementLoop_found e hm r1 x k htail
        (fun y hy => hn y (List.mem_cons_of_mem _ hy))
        (by simp only [List.length_cons] at hk; omega)
    refine ⟨h', b :: cells', ?_, ?_, ?_, ?_⟩
    · rw [hbn]
      simp only [deleteAtElementLoop, Heap.load_of_cell hx, hxm, Heap.load_of_cell hb, hbn,
        bind, Except.bind]
      simpa using hloop
    · have hb' : h'[b.1]? = some (some b.2) := by
        rw [hframe b.1 (by simpa using hnd.1)]; exact hb
      simp only [Chain]
      refine ⟨trivial, hb', ?_⟩
      rw [hbn]
      exact hch
    · simp only [List.map_cons, List.cons_append, hdata]
    · intro a ha
      simp only [List.cons_append, List.map_cons, List.mem_cons, not_or] at ha
      exact hframe a (by simp only [List.map_cons, List.mem_cons, not_or]; exact ha.2)

theorem sll_sample_wellFormed : WellFormed sampleHeap sampleList [5, 7] :=
  ⟨⟨(0, ⟨0, some 1⟩), [(1, ⟨5, some 2⟩), (2, ⟨7, none⟩)],
    ⟨rfl, rfl, rfl, rfl, rfl, rfl, rfl⟩, rfl⟩, rfl⟩

/-- C19: on every well-formed LListWithDummyNode with real elements `xs` and for every value
`v` that equals some element of `xs` (under the `==` of the element type, at any position,
the last included), `deleteAtElement(v)` returns true, decrements the size by one, and leaves
a well-formed list whose chain after the dummy node holds `xs` without the first element
equal to `v`. -/
theorem sll_deleteAtElement_present [BEq α] (h : Heap (Node α)) (l : LListWithDummyNode)
    (xs : List α) (v : α) (hw : WellFormed h l xs) (hv : ∃ x ∈ xs, (x == v) = true) :
    ∃ h1 l1, deleteAtElement h l v = .ok (h1, l1, true)
      ∧ l1.getSize = l.getSize - 1
      ∧ WellFormed h1 l1 (xs.eraseP (fun x => x == v)) := by
  obtain ⟨⟨dummy, cells, hc, rfl⟩, hsz⟩ := hw
  obtain ⟨first, size⟩ := l
  obtain ⟨y, hy, hyv⟩ := hv
  obtain ⟨c0, hc0, rfl⟩ := List.mem_map.mp hy
  obtain ⟨c, r1, r2, hr1, hcm, hsplit, herase⟩ :=
    List.exists_of_eraseP (p := fun x : Nat × Node α => x.2.data == v) hc0 hyv
  have hdata : (cells.map (fun x => x.2.data)).eraseP (fun x => x == v)
      = (r1 ++ r2).map (fun x => x.2.data) := by
    rw [List.eraseP_map, ← herase]
    rfl
  subst hsplit
  have hfuel := hc.length_lt_fuel
  have hc' := hc
  simp only [Chain] at hc'
  obtain ⟨hp, hdummy, ht⟩ := hc'
  subst hp
  have hsz' : size = (((r1 ++ r2).map (fun x => x.2.data)).length : Int) + 1 := by
    have h0 : size = _ := hsz
    rw [h0]
    simp only [List.map_append, List.map_cons, List.length_append, List.length_cons,
      List.length_map]
    omega
  have hr1' : ∀ x ∈ r1, (x.2.data == v) = false := fun x hx => by
    simpa using hr1 x hx
  rw [hdata]
  cases r1 with
  | nil =>
    have hsp := sll_splice hc
    have hnd := hc.nodup
    simp only [List.nil_append, List.map_cons, List.nodup_cons, List.mem_cons, not_or] at hnd
    obtain ⟨⟨hbc, _⟩, _, _⟩ := hnd
    simp only [List.nil_append, Chain] at ht
    obtain ⟨hdn, hcc, _⟩ := ht
    have h1 := Heap.modify_of_cell hdummy (fun n => { n with next := c.2.next })
    have hc1 : (h.set dummy.1 (some { dummy.2 with next := c.2.next }))[c.1]?
        = some (some c.2) := by
      rw [List.getElem?_set_ne hbc]; exact hcc
    have h2 := Heap.free_of_cell hc1
    refine ⟨_, { myFirst := some dummy.1, mySize := size - 1 }, ?_, rfl,
      ⟨_, r2, hsp.1, rfl⟩, ?_⟩
    · simp only [deleteAtElement, deleteFromBegin, isEmpty, Heap.load_of_cell hdummy, hdn,
        Heap.load_of_cell hcc, hcm, h1, h2, bind, Except.bind, pure, Except.pure]
      simp
    · show size - 1 = _
      omega
  | cons x r1 =>
    obtain ⟨h', cells', hloop, hch, hd', _⟩ :=
      sll_deleteAtElementLoop_found v hcm (x :: r1) dummy h.fuel hc hr1'
        (by simp only [List.length_cons, List.length_append] at hfuel ⊢; omega)
    have hxm : (x.2.data == v) = false := hr1' x (List.mem_cons_self _ _)
    simp only [List.cons_append, Chain] at ht
    obtain ⟨hdn, hxc, _⟩ := ht
    cases cells' with
    | nil => simp at hd'
    | cons d' real' =>
      simp only [List.map_cons, List.cons.injEq] at hd'
      refine ⟨h', { myFirst := some dummy.1, mySize := size - 1 }, ?_, rfl,
        ⟨d', real', hch, ?_⟩, ?_⟩
      · rw [hdn] at hloop
        simp only [deleteAtElement, isEmpty, Heap.load_of_cell hdummy, hdn,
          Heap.load_of_cell hxc, hxm, hloop, bind, Except.bind, pure, Except.pure]
        simp
      · simpa using hd'.2
      · show size - 1 = _
        omega

/-- Witness of C19: deleting the value 7, held by the last node of the sample list 5, 7. -/
theorem sll_deleteAtElement_present_witness :
    WellFormed sampleHeap sampleList [5, 7]
      ∧ (∃ x ∈ ([5, 7] : List Nat), (x == 7) = true)
      ∧ ∃ h1 l1, deleteAtElement sampleHeap sampleList 7 = .ok (h1, l1, true)
          ∧ l1.getSize = sampleList.getSize - 1
          ∧ WellFormed h1 l1 (([5, 7] : List Nat).eraseP (fun x => x == 7)) :=
  ⟨sll_sample_wellFormed, ⟨7, by decide, rfl⟩,
    sll_deleteAtElement_present sampleHeap sampleList [5, 7] 7 sll_sample_wellFormed
      ⟨7, by decide, rfl⟩⟩

/-- C11, the code at a failing input: after `insertAtEnd(1)` and `deleteFromEnd()` on a
default-constructed LListWithDummyNode, both calls returning true, `getSize()` is 0 but
`isEmpty()` returns false: the `next` link of the dummy node still holds the address of the
deleted node. -/
theorem sll_isEmpty_after_deleteFromEnd :
    (do
      let (h0, l0) := LListWithDummyNode.new ([] : Heap (Node Nat)) 0
      let (h1, l1, r1) ← insertAtEnd h0 l0 1
      let (h2, l2, r2) ← deleteFromEnd h1 l1
      let e ← isEmpty h2 l2
      pure (r1, r2, l2.getSize, e)) = .ok (true, true, 0, false) := by
  rfl

/-- C18, the code at a failing input: on the list 1, 2 the call `deleteAtIndex(1)`, the last
index, returns true and sets the size to 1, but the node holding 1 keeps its `next` link to
the deleted node: the chain after the dummy node is not the list 1. -/
theorem sll_deleteAtIndex_last :
    (do
      let (h, a) ← ofList ([] : Heap (Node Nat)) 0 [1, 2]
      let (h1, l1, r) ← deleteAtIndex h a 1
      let d ← h1.load l1.myFirst
      let first ← h1.load d.next
      pure (r, l1.getSize, first.data, first.next, toList h1 l1))
      = .ok (true, 1, 1, some 2, .error .danglingDeref) := by
  rfl

end LListWithDummyNode

/-! ### Both containers -/

/-- C13: for both container kinds, on every list object whose head pointer is null or
designates an allocated node (DoublyLinkedList), respectively whose dummy node is allocated
(LListWithDummyNode), and for every value `v` (equal to itself under the `==` of the element
type), `insertAtBegin(v)` returns, and afterwards `search(v)` returns 0 and
`searchAndRetreivePtr(v)` returns a non-null pointer to a node whose element is `v`. -/
theorem insertAtBegin_then_search {α : Type} [BEq α]
    (hd : Heap (DNode α)) (ld : DoublyLinkedList)
    (hs : Heap (Node α)) (ls : LListWithDummyNode) (v : α)
    (hv : (v == v) = true)
    (hxd : ld.myFirst = none ∨ ∃ n, hd.load ld.myFirst = .ok n)
    (hxs : ∃ n, hs.load ls.myFirst = .ok n) :
    (∃ h1 l1 r, DoublyLinkedList.insertAtBegin hd ld v = .ok (h1, l1, r)
        ∧ DoublyLinkedList.search h1 l1 v = .ok 0
        ∧ ∃ a n, DoublyLinkedList.searchAndRetreivePtr h1 l1 v = .ok (some a)
            ∧ h1.load (some a) = .ok n ∧ n.data = v)
    ∧ (∃ h1 l1 r, LListWithDummyNode.insertAtBegin hs ls v = .ok (h1, l1, r)
        ∧ LListWithDummyNode.search h1 l1 v = .ok 0
        ∧ ∃ a n, LListWithDummyNode.searchAndRetreivePtr h1 l1 v = .ok (some a)
            ∧ h1.load (some a) = .ok n ∧ n.data = v) := by
  constructor
  · have hnew : (hd.alloc (DNode.mk1 v)).1[hd.length]? = some (some (DNode.mk1 v)) :=
      Heap.cell_alloc_new hd (DNode.mk1 v)
    rcases hxd with hc | ⟨n, hn⟩
    · refine ⟨(hd.alloc (DNode.mk1 v)).1, { myFirst := some hd.length, mySize := ld.mySize + 1 },
        true, ?_, ?_, hd.length, DNode.mk1 v, ?_, Heap.load_of_cell hnew, rfl⟩
      · simp [DoublyLinkedList.insertAtBegin, DoublyLinkedList.isEmpty, hc, Heap.alloc]
      · simp only [DoublyLinkedList.search, DoublyLinkedList.isEmpty, Heap.load_of_cell hnew,
          bind, Except.bind, pure, Except.pure]
        simp [DNode.mk1, hv]
      · simp only [DoublyLinkedList.searchAndRetreivePtr, DoublyLinkedList.isEmpty,
          Heap.load_of_cell hnew, bind, Except.bind, pure, Except.pure]
        simp [DNode.mk1, hv]
    · obtain ⟨a, hp, hcell⟩ := Heap.cell_of_load hn
      obtain ⟨first, size⟩ := ld
      subst hp
      have hlt : a < hd.length := Heap.lt_of_cell hcell
      have hne : hd.length ≠ a := by omega
      have h2 := Heap.modify_of_cell hnew (fun n => { n with next := some a })
      have hc2 : ((hd.alloc (DNode.mk1 v)).1.set hd.length
          (some { DNode.mk1 v with next := some a }))[a]? = some (some n) := by
        rw [List.getElem?_set_ne hne]
        exact Heap.cell_alloc_old _ hcell
      have h3 := Heap.modify_of_cell hc2 (fun n => { n with prev := some hd.length })
      have hfin : (((hd.alloc (DNode.mk1 v)).1.set hd.length
          (some { DNode.mk1 v with next := some a })).set a
          (some { n with prev := some hd.length }))[hd.length]?
          = some (some { DNode.mk1 v with next := some a }) := by
        rw [List.getElem?_set_ne (Ne.symm hne)]
        exact Heap.cell_set_self _ hnew
      refine ⟨_, { myFirst := some hd.length, mySize := size + 1 }, true, ?_, ?_,
        hd.length, _, ?_, Heap.load_of_cell hfin, rfl⟩
      · simp only [DoublyLinkedList.insertAtBegin, DoublyLinkedList.isEmpty]
        simp only [beq_iff_eq, reduceCtorEq, if_false, Bool.false_eq_true, bind, Except.bind]
        have h2' : (hd.alloc (DNode.mk1 v)).2 = hd.length := rfl
        simp only [h2', h2, h3, pure, Except.pure]
      · simp only [DoublyLinkedList.search, DoublyLinkedList.isEmpty, Heap.load_of_cell hfin,
          bind, Except.bind, pure, Except.pure]
        simp [DNode.mk1, hv]
      · simp only [DoublyLinkedList.searchAndRetreivePtr, DoublyLinkedList.isEmpty,
          Heap.load_of_cell hfin, bind, Except.bind, pure, Except.pure]
        simp [DNode.mk1, hv]
  · obtain ⟨dn, hn⟩ := hxs
    obtain ⟨da, hp, hdummy⟩ := Heap.cell_of_load hn
    obtain ⟨first, size⟩ := ls
    subst hp
    have hlt : da < hs.length := Heap.lt_of_cell hdummy
    have hne : hs.length ≠ da := by omega
    have hnew : (hs.alloc (Node.mk1 v)).1[hs.length]? = some (some (Node.mk1 v)) :=
      Heap.cell_alloc_new hs (Node.mk1 v)
    have hold : (hs.alloc (Node.mk1 v)).1[da]? = some (some dn) :=
      Heap.cell_alloc_old _ hdummy
    have h2' : (hs.alloc (Node.mk1 v)).2 = hs.length := rfl
    have key : ∀ (H : Heap (Node α)) (D N : Node α), H[da]? = some (some D) →
        D.next = some hs.length → H[hs.length]? = some (some N) → N.data = v →
        LListWithDummyNode.search H { myFirst := some da, mySize := size + 1 } v = .ok 0
        ∧ ∃ a n, LListWithDummyNode.searchAndRetreivePtr H
              { myFirst := some da, mySize := size + 1 } v = .ok (some a)
            ∧ H.load (some a) = .ok n ∧ n.data = v := by
      intro H D N hD hDn hN hNd
      have hNv : (N.data == v) = true := by rw [hNd]; exact hv
      refine ⟨?_, hs.length, N, ?_, Heap.load_of_cell hN, hNd⟩
      · simp only [LListWithDummyNode.search, LListWithDummyNode.isEmpty,
          Heap.load_of_cell hD, hDn, Heap.load_of_cell hN, hNv, bind, Except.bind, pure,
          Except.pure]
        simp
      · simp only [LListWithDummyNode.searchAndRetreivePtr, LListWithDummyNode.isEmpty,
          Heap.load_of_cell hD, hDn, Heap.load_of_cell hN, hNv, bind, Except.bind, pure,
          Except.pure]
        simp
    cases hnx : dn.next with
    | none =>
      have h2 := Heap.modify_of_cell hold (fun n => { n with next := some hs.length })
      refine ⟨_, { myFirst := some da, mySize := size + 1 }, true, ?_,
        key _ { dn with next := some hs.length } (Node.mk1 v)
          (Heap.cell_set_self _ hold) rfl ?_ rfl⟩
      · simp only [LListWithDummyNode.insertAtBegin, LListWithDummyNode.isEmpty,
          Heap.load_of_cell hold, hnx, h2', h2, bind, Except.bind, pure, Except.pure]
        simp
      · rw [List.getElem?_set_ne (Ne.symm hne)]
        exact hnew
    | some b =>
      have h2 := Heap.modify_of_cell hnew (fun n => { n with next := some b })
      have hc2 : ((hs.alloc (Node.mk1 v)).1.set hs.length
          (some { Node.mk1 v with next := some b }))[da]? = some (some dn) := by
        rw [List.getElem?_set_ne hne]
        exact hold
      have h3 := Heap.modify_of_cell hc2 (fun n => { n with next := some hs.length })
      refine ⟨_, { myFirst := some da, mySize := size + 1 }, true, ?_,
        key _ { dn with next := some hs.length } { Node.mk1 v with next := some b }
          (Heap.cell_set_self _ hc2) rfl ?_ rfl⟩
      · simp only [LListWithDummyNode.insertAtBegin, LListWithDummyNode.isEmpty,
          Heap.load_of_cell hold, hnx, h2', h2, h3, bind, Except.bind, pure, Except.pure]
        simp
      · rw [List.getElem?_set_ne (Ne.symm hne)]
        exact Heap.cell_set_self _ hnew

/-- Witness of C13: inserting 9 at the front of the sample lists 5, 7, 5 and 5, 7. -/
theorem insertAtBegin_then_search_witness :
    ((9 : Nat) == 9) = true
      ∧ (DoublyLinkedList.sampleList.myFirst = none ∨ ∃ n, DoublyLinkedList.sampleHeap.load DoublyLinkedList.sampleList.myFirst = .ok n)
      ∧ (∃ n, LListWithDummyNode.sampleHeap.load LListWithDummyNode.sampleList.myFirst = .ok n)
      ∧ ((∃ h1 l1 r, DoublyLinkedList.insertAtBegin DoublyLinkedList.sampleHeap DoublyLinkedList.sampleList 9 = .ok (h1, l1, r)
          ∧ DoublyLinkedList.search h1 l1 9 = .ok 0
          ∧ ∃ a n, DoublyLinkedList.searchAndRetreivePtr h1 l1 9 = .ok (some a)
              ∧ h1.load (some a) = .ok n ∧ n.data = 9)
        ∧ (∃ h1 l1 r, LListWithDummyNode.insertAtBegin LListWithDummyNode.sampleHeap LListWithDummyNode.sampleList 9 = .ok (h1, l1, r)
          ∧ LListWithDummyNode.search h1 l1 9 = .ok 0
          ∧ ∃ a n, LListWithDummyNode.searchAndRetreivePtr h1 l1 9 = .ok (some a)
              ∧ h1.load (some a) = .ok n ∧ n.data = 9)) :=
  ⟨rfl, Or.inr ⟨_, rfl⟩, ⟨_, rfl⟩,
    insertAtBegin_then_search DoublyLinkedList.sampleHeap DoublyLinkedList.sampleList LListWithDummyNode.sampleHeap LListWithDummyNode.sampleList 9 rfl (Or.inr ⟨_, rfl⟩) ⟨_, rfl⟩⟩

/-- C14: for both container kinds, on a well-formed list with elements `xs` (whose size is in
the range of `int`), `retrieveAtIndex(i)` returns `xs[i]` for every `i < getSize()`, and takes
the `exit` path, returning no element, for every `i >= getSize()`.  `retrieveAtIndex` is a
`const` member: it reads the heap and returns the element only, so the list is unchanged. -/
theorem retrieveAtIndex_in_and_out_of_range {α : Type}
    (hd : Heap (DNode α)) (ld : DoublyLinkedList) (xs : List α)
    (hs : Heap (Node α)) (ls : LListWithDummyNode) (ys : List α)
    (hwd : DoublyLinkedList.WellFormed hd ld xs) (hrd : ld.getSize < 2147483648)
    (hws : LListWithDummyNode.WellFormed hs ls ys) (hrs : ls.getSize < 2147483648) :
    ((∀ i : Nat, (i : Int) < ld.getSize →
        ∃ hi : i < xs.length, DoublyLinkedList.retrieveAtIndex hd ld i = .ok xs[i])
      ∧ (∀ i : Nat, ld.getSize ≤ (i : Int) →
        DoublyLinkedList.retrieveAtIndex hd ld i = .error .exitCalled))
    ∧ ((∀ i : Nat, (i : Int) < ls.getSize →
        ∃ hi : i < ys.length, LListWithDummyNode.retrieveAtIndex hs ls i = .ok ys[i])
      ∧ (∀ i : Nat, ls.getSize ≤ (i : Int) →
        LListWithDummyNode.retrieveAtIndex hs ls i = .error .exitCalled)) := by
  constructor
  · obtain ⟨cells, hc, rfl, hsz⟩ := hwd
    simp only [DoublyLinkedList.getSize] at hrd ⊢
    have hlen : (cells.map (fun c => c.2.data)).length < 4294967296 := by omega
    have hu : toUnsigned ld.mySize = (cells.map (fun c => c.2.data)).length := by
      rw [hsz]; exact toUnsigned_natCast hlen
    constructor
    · intro i hi
      have hi1 : i < (cells.map (fun c => c.2.data)).length := by omega
      refine ⟨hi1, ?_⟩
      have hi2 : i < cells.length := by simpa using hi1
      have hadv := DoublyLinkedList.dll_advance_chain cells ld.myFirst i hi2 hc.toChain
      have hcell := Chain.cell_of_mem hc.toChain cells[i] (List.getElem_mem hi2)
      have hnot : ¬ i ≥ toUnsigned ld.mySize := by rw [hu]; omega
      simp only [DoublyLinkedList.retrieveAtIndex, hnot, if_false, hadv, bind, Except.bind,
        Heap.load_of_cell hcell, pure, Except.pure, List.getElem_map]
    · intro i hi
      have hge : i ≥ toUnsigned ld.mySize := by rw [hu]; omega
      simp only [DoublyLinkedList.retrieveAtIndex, hge, if_true]
  · obtain ⟨⟨dummy, cells, hc, rfl⟩, hsz⟩ := hws
    simp only [LListWithDummyNode.getSize] at hrs ⊢
    have hlen : (cells.map (fun c => c.2.data)).length < 4294967296 := by omega
    have hu : toUnsigned ls.mySize = (cells.map (fun c => c.2.data)).length := by
      rw [hsz]; exact toUnsigned_natCast hlen
    simp only [Chain] at hc
    obtain ⟨hp, hdummy, ht⟩ := hc
    constructor
    · intro i hi
      have hi1 : i < (cells.map (fun c => c.2.data)).length := by omega
      refine ⟨hi1, ?_⟩
      have hi2 : i < cells.length := by simpa using hi1
      have hadv := LListWithDummyNode.sll_advance_chain cells dummy.2.next i hi2 ht
      have hcell := Chain.cell_of_mem ht cells[i] (List.getElem_mem hi2)
      have hnot : ¬ i ≥ toUnsigned ls.mySize := by rw [hu]; omega
      simp only [LListWithDummyNode.retrieveAtIndex, hnot, if_false, hp,
        Heap.load_of_cell hdummy, hadv, bind, Except.bind,
        Heap.load_of_cell hcell, pure, Except.pure, List.getElem_map]
    · intro i hi
      have hge : i ≥ toUnsigned ls.mySize := by rw [hu]; omega
      simp only [LListWithDummyNode.retrieveAtIndex, hge, if_true]

/-- Witness of C14: the sample lists 5, 7, 5 and 5, 7. -/
theorem retrieveAtIndex_in_and_out_of_range_witness :
    DoublyLinkedList.WellFormed DoublyLinkedList.sampleHeap DoublyLinkedList.sampleList [5, 7, 5]
      ∧ DoublyLinkedList.sampleList.getSize < 2147483648
      ∧ LListWithDummyNode.WellFormed LListWithDummyNode.sampleHeap LListWithDummyNode.sampleList [5, 7]
      ∧ LListWithDummyNode.sampleList.getSize < 2147483648
      ∧ (((∀ i : Nat, (i : Int) < DoublyLinkedList.sampleList.getSize →
            ∃ hi : i < ([5, 7, 5] : List Nat).length,
              DoublyLinkedList.retrieveAtIndex DoublyLinkedList.sampleHeap DoublyLinkedList.sampleList i = .ok ([5, 7, 5] : List Nat)[i])
          ∧ (∀ i : Nat, DoublyLinkedList.sampleList.getSize ≤ (i : Int) →
            DoublyLinkedList.retrieveAtIndex DoublyLinkedList.sampleHeap DoublyLinkedList.sampleList i = .error .exitCalled))
        ∧ ((∀ i : Nat, (i : Int) < LListWithDummyNode.sampleList.getSize →
            ∃ hi : i < ([5, 7] : List Nat).length,
              LListWithDummyNode.retrieveAtIndex LListWithDummyNode.sampleHeap LListWithDummyNode.sampleList i = .ok ([5, 7] : List Nat)[i])
          ∧ (∀ i : Nat, LListWithDummyNode.sampleList.getSize ≤ (i : Int) →
            LListWithDummyNode.retrieveAtIndex LListWithDummyNode.sampleHeap LListWithDummyNode.sampleList i = .error .exitCalled))) :=
  ⟨DoublyLinkedList.dll_sample_wellFormed, by decide,
    LListWithDummyNode.sll_sample_wellFormed, by decide,
    retrieveAtIndex_in_and_out_of_range DoublyLinkedList.sampleHeap DoublyLinkedList.sampleList [5, 7, 5] LListWithDummyNode.sampleHeap LListWithDummyNode.sampleList [5, 7]
      DoublyLinkedList.dll_sample_wellFormed (by decide)
      LListWithDummyNode.sll_sample_wellFormed (by decide)⟩

/-- C15: for both container kinds, on a well-formed list (whose size is in the range of `int`)
`deleteAtIndex(i)` with `i >= getSize()`, the empty list and `i == getSize()` included,
returns false and leaves the heap and the data members of the object, hence the element
sequence and the size, as they were. -/
theorem deleteAtIndex_out_of_range {α : Type}
    (hd : Heap (DNode α)) (ld : DoublyLinkedList) (xs : List α)
    (hs : Heap (Node α)) (ls : LListWithDummyNode) (ys : List α) (i j : Nat)
    (hwd : DoublyLinkedList.WellFormed hd ld xs) (hrd : ld.getSize < 2147483648)
    (hi : ld.getSize ≤ (i : Int))
    (hws : LListWithDummyNode.WellFormed hs ls ys) (hrs : ls.getSize < 2147483648)
    (hj : ls.getSize ≤ (j : Int)) :
    DoublyLinkedList.deleteAtIndex hd ld i = .ok (hd, ld, false)
      ∧ LListWithDummyNode.deleteAtIndex hs ls j = .ok (hs, ls, false) := by
  constructor
  · obtain ⟨cells, _, rfl, hsz⟩ := hwd
    simp only [DoublyLinkedList.getSize] at hrd hi
    have hge : i ≥ toUnsigned ld.mySize := by
      rw [hsz, toUnsigned_natCast (by omega)]; omega
    simp only [DoublyLinkedList.deleteAtIndex, hge, if_true]
    split <;> rfl
  · obtain ⟨⟨dummy, cells, hc, rfl⟩, hsz⟩ := hws
    simp only [LListWithDummyNode.getSize] at hrs hj
    have hge : j ≥ toUnsigned ls.mySize := by
      rw [hsz, toUnsigned_natCast (by omega)]; omega
    simp only [Chain] at hc
    obtain ⟨hp, hdummy, _⟩ := hc
    simp only [LListWithDummyNode.deleteAtIndex, LListWithDummyNode.isEmpty, hp,
      Heap.load_of_cell hdummy, bind, Except.bind, pure, Except.pure, hge, if_true]
    split <;> rfl

/-- Witness of C15: index 3 on the sample list 5, 7, 5 and index 2 on the sample list 5, 7. -/
theorem deleteAtIndex_out_of_range_witness :
    DoublyLinkedList.WellFormed DoublyLinkedList.sampleHeap DoublyLinkedList.sampleList [5, 7, 5]
      ∧ DoublyLinkedList.sampleList.getSize < 2147483648
      ∧ DoublyLinkedList.sampleList.getSize ≤ ((3 : Nat) : Int)
      ∧ LListWithDummyNode.WellFormed LListWithDummyNode.sampleHeap LListWithDummyNode.sampleList [5, 7]
      ∧ LListWithDummyNode.sampleList.getSize < 2147483648
      ∧ LListWithDummyNode.sampleList.getSize ≤ ((2 : Nat) : Int)
      ∧ (DoublyLinkedList.deleteAtIndex DoublyLinkedList.sampleHeap DoublyLinkedList.sampleList 3 = .ok (DoublyLinkedList.sampleHeap, DoublyLinkedList.sampleList, false)
        ∧ LListWithDummyNode.deleteAtIndex LListWithDummyNode.sampleHeap LListWithDummyNode.sampleList 2 = .ok (LListWithDummyNode.sampleHeap, LListWithDummyNode.sampleList, false)) :=
  ⟨DoublyLinkedList.dll_sample_wellFormed, by decide, by decide,
    LListWithDummyNode.sll_sample_wellFormed, by decide, by decide,
    deleteAtIndex_out_of_range DoublyLinkedList.sampleHeap DoublyLinkedList.sampleList [5, 7, 5] LListWithDummyNode.sampleHeap LListWithDummyNode.sampleList [5, 7] 3 2
      DoublyLinkedList.dll_sample_wellFormed (by decide) (by decide)
      LListWithDummyNode.sll_sample_wellFormed (by decide) (by decide)⟩

/-- C16: for both container kinds, on a default-constructed container (in any heap)
`isEmpty()` holds and `getSize()` is 0, each of `deleteFromBegin()`, `deleteFromEnd()` and
`deleteAtElement(v)` returns false and leaves heap and object as they were, `search(v)`
returns -1 and `searchAndRetreivePtr(v)` returns the null pointer. -/
theorem empty_container_contract {α : Type} [BEq α]
    (hd : Heap (DNode α)) (hs : Heap (Node α)) (dummy v : α) :
    (DoublyLinkedList.new.isEmpty = true
      ∧ DoublyLinkedList.new.getSize = 0
      ∧ DoublyLinkedList.deleteFromBegin hd DoublyLinkedList.new
          = .ok (hd, DoublyLinkedList.new, false)
      ∧ DoublyLinkedList.deleteFromEnd hd DoublyLinkedList.new
          = .ok (hd, DoublyLinkedList.new, false)
      ∧ DoublyLinkedList.deleteAtElement hd DoublyLinkedList.new v
          = .ok (hd, DoublyLinkedList.new, false)
      ∧ DoublyLinkedList.search hd DoublyLinkedList.new v = .ok (-1)
      ∧ DoublyLinkedList.searchAndRetreivePtr hd DoublyLinkedList.new v = .ok none)
    ∧ (LListWithDummyNode.isEmpty (LListWithDummyNode.new hs dummy).1
          (LListWithDummyNode.new hs dummy).2 = .ok true
      ∧ (LListWithDummyNode.new hs dummy).2.getSize = 0
      ∧ LListWithDummyNode.deleteFromBegin (LListWithDummyNode.new hs dummy).1
          (LListWithDummyNode.new hs dummy).2
          = .ok ((LListWithDummyNode.new hs dummy).1, (LListWithDummyNode.new hs dummy).2, false)
      ∧ LListWithDummyNode.deleteFromEnd (LListWithDummyNode.new hs dummy).1
          (LListWithDummyNode.new hs dummy).2
          = .ok ((LListWithDummyNode.new hs dummy).1, (LListWithDummyNode.new hs dummy).2, false)
      ∧ LListWithDummyNode.deleteAtElement (LListWithDummyNode.new hs dummy).1
          (LListWithDummyNode.new hs dummy).2 v
          = .ok ((LListWithDummyNode.new hs dummy).1, (LListWithDummyNode.new hs dummy).2, false)
      ∧ LListWithDummyNode.search (LListWithDummyNode.new hs dummy).1
          (LListWithDummyNode.new hs dummy).2 v = .ok (-1)
      ∧ LListWithDummyNode.searchAndRetreivePtr (LListWithDummyNode.new hs dummy).1
          (LListWithDummyNode.new hs dummy).2 v = .ok none) := by
  refine ⟨⟨rfl, rfl, rfl, rfl, rfl, rfl, rfl⟩, ?_⟩
  have hl : (LListWithDummyNode.new hs dummy).1.load (LListWithDummyNode.new hs dummy).2.myFirst
      = .ok (Node.mk1 dummy) :=
    Heap.load_of_cell (Heap.cell_alloc_new hs (Node.mk1 dummy))
  have he : LListWithDummyNode.isEmpty (LListWithDummyNode.new hs dummy).1
      (LListWithDummyNode.new hs dummy).2 = .ok true := by
    simp only [LListWithDummyNode.isEmpty, hl, bind, Except.bind, pure, Except.pure]
    rfl
  refine ⟨he, rfl, ?_, ?_, ?_, ?_, ?_⟩
  · simp only [LListWithDummyNode.deleteFromBegin, he, bind, Except.bind, pure, Except.pure,
      if_true]
  · simp only [LListWithDummyNode.deleteFromEnd, hl, bind, Except.bind, pure, Except.pure]
    rfl
  · simp only [LListWithDummyNode.deleteAtElement, he, bind, Except.bind, pure, Except.pure,
      if_true]
  · simp only [LListWithDummyNode.search, he, bind, Except.bind, pure, Except.pure, if_true]
  · simp only [LListWithDummyNode.searchAndRetreivePtr, he, bind, Except.bind, pure,
      Except.pure, if_true]

/-- C20: for both container kinds, on a list whose nodes form a chain with elements `xs` and
for every value `v` that equals no element of `xs` (under the `==` of the element type),
`deleteAtElement(v)` returns false and leaves the heap and the data members of the object,
hence the element sequence and the size, as they were. -/
theorem deleteAtElement_absent {α : Type} [BEq α]
    (hd : Heap (DNode α)) (ld : DoublyLinkedList) (xs : List α)
    (hs : Heap (Node α)) (ls : LListWithDummyNode) (ys : List α) (v w : α)
    (hxd : DoublyLinkedList.Holds hd ld xs) (hv : ∀ x ∈ xs, (x == v) = false)
    (hxs : LListWithDummyNode.Holds hs ls ys) (hw : ∀ y ∈ ys, (y == w) = false) :
    DoublyLinkedList.deleteAtElement hd ld v = .ok (hd, ld, false)
      ∧ LListWithDummyNode.deleteAtElement hs ls w = .ok (hs, ls, false) := by
  constructor
  · obtain ⟨cells, hc, rfl⟩ := hxd
    have hn : ∀ c ∈ cells, (c.2.data == v) = false := fun c hc =>
      hv _ (List.mem_map.mpr ⟨c, hc, rfl⟩)
    cases cells with
    | nil =>
      simp only [Chain] at hc
      simp [DoublyLinkedList.deleteAtElement, DoublyLinkedList.isEmpty, hc]
    | cons c rest =>
      have hloop := DoublyLinkedList.dll_deleteAtElementLoop_absent v (c :: rest) ld.myFirst
        hd.fuel hc hn hc.length_lt_fuel
      simp only [Chain] at hc
      obtain ⟨hp, hcell, _⟩ := hc
      have hm : (c.2.data == v) = false := hn c (List.mem_cons_self _ _)
      simp only [DoublyLinkedList.deleteAtElement, DoublyLinkedList.isEmpty, hp,
        Heap.load_of_cell hcell, hm, bind, Except.bind, pure, Except.pure]
      rw [hp] at hloop
      simp [hloop]
  · obtain ⟨dummy, cells, hc, rfl⟩ := hxs
    have hn : ∀ c ∈ cells, (c.2.data == w) = false := fun c hc =>
      hw _ (List.mem_map.mpr ⟨c, hc, rfl⟩)
    have hfuel := hc.length_lt_fuel
    simp only [Chain] at hc
    obtain ⟨hp, hdummy, ht⟩ := hc
    have hloop := LListWithDummyNode.sll_deleteAtElementLoop_absent w cells dummy
      hs.fuel hdummy ht hn (by simp only [List.length_cons] at hfuel; omega)
    cases cells with
    | nil =>
      simp only [Chain] at ht
      simp [LListWithDummyNode.deleteAtElement, LListWithDummyNode.isEmpty, hp,
        Heap.load_of_cell hdummy, ht, bind, Except.bind, pure, Except.pure]
    | cons c rest =>
      simp only [Chain] at ht
      obtain ⟨hnx, hcell, _⟩ := ht
      have hm : (c.2.data == w) = false := hn c (List.mem_cons_self _ _)
      rw [← hp] at hloop
      simp only [LListWithDummyNode.deleteAtElement, LListWithDummyNode.isEmpty,
        Heap.load_of_cell hdummy, hp, hnx, Heap.load_of_cell hcell, hm, bind, Except.bind, pure,
        Except.pure]
      rw [hp, hnx] at hloop
      simp [hloop]

/-- Witness of C20: the value 9 occurs in neither sample list. -/
theorem deleteAtElement_absent_witness :
    DoublyLinkedList.Holds DoublyLinkedList.sampleHeap DoublyLinkedList.sampleList [5, 7, 5]
      ∧ (∀ x ∈ ([5, 7, 5] : List Nat), (x == 9) = false)
      ∧ LListWithDummyNode.Holds LListWithDummyNode.sampleHeap LListWithDummyNode.sampleList [5, 7]
      ∧ (∀ y ∈ ([5, 7] : List Nat), (y == 9) = false)
      ∧ (DoublyLinkedList.deleteAtElement DoublyLinkedList.sampleHeap DoublyLinkedList.sampleList 9 = .ok (DoublyLinkedList.sampleHeap, DoublyLinkedList.sampleList, false)
        ∧ LListWithDummyNode.deleteAtElement LListWithDummyNode.sampleHeap LListWithDummyNode.sampleList 9 = .ok (LListWithDummyNode.sampleHeap, LListWithDummyNode.sampleList, false)) :=
  ⟨DoublyLinkedList.dll_sample_wellFormed.holds, by decide,
    LListWithDummyNode.sll_sample_wellFormed.1, by decide,
    deleteAtElement_absent DoublyLinkedList.sampleHeap DoublyLinkedList.sampleList [5, 7, 5] LListWithDummyNode.sampleHeap LListWithDummyNode.sampleList [5, 7] 9 9
      DoublyLinkedList.dll_sample_wellFormed.holds (by decide)
      LListWithDummyNode.sll_sample_wellFormed.1 (by decide)⟩

/-! ### Effect of the insertions and deletions at the ends -/

theorem Heap.cell_alloc_frame {ν : Type} (h : Heap ν) (n : ν) {a : Nat} (ha : a < h.length) :
    (h.alloc n).1[a]? = h[a]? := by
  simp [Heap.alloc, List.getElem?_append_left ha]

theorem Chain.addr_lt_of_mem {ν : Type} {next : ν → Ptr} {h : Heap ν}
    {cells : List (Nat × ν)} {p : Ptr} (hc : Chain next h p cells) {x : Nat × ν}
    (hx : x ∈ cells) : x.1 < h.length :=
  hc.addr_lt x.1 (List.mem_map.mpr ⟨x, hx, rfl⟩)

namespace DoublyLinkedList

variable {α : Type}

theorem dll_insertAtBegin_exact (h : Heap (DNode α)) (l : DoublyLinkedList) (v : α)
    (cells : List (Nat × DNode α)) (hc : DChain h l.myFirst none cells) :
    ∃ h1 cells1, insertAtBegin h l v
        = .ok (h1, { myFirst := some h.length, mySize := l.mySize + 1 }, true)
      ∧ DChain h1 (some h.length) none cells1
      ∧ cells1.map (fun c => c.2.data) = v :: cells.map (fun c => c.2.data)
      ∧ Footprint h h1 (cells.map Prod.fst) (cells1.map Prod.fst) := by
  obtain ⟨first, size⟩ := l
  have hnew : (h.alloc (DNode.mk1 v)).1[h.length]? = some (some (DNode.mk1 v)) :=
    Heap.cell_alloc_new h (DNode.mk1 v)
  have h2' : (h.alloc (DNode.mk1 v)).2 = h.length := rfl
  cases cells with
  | nil =>
    simp only [DChain] at hc
    subst hc
    refine ⟨(h.alloc (DNode.mk1 v)).1, [(h.length, DNode.mk1 v)], ?_, ?_, rfl, ?_, ?_, ?_⟩
    · simp [insertAtBegin, isEmpty, Heap.alloc]
    · simp only [DChain]
      exact ⟨trivial, hnew, rfl, rfl⟩
    · simp [Heap.alloc]
    · intro a ha _
      exact Heap.cell_alloc_frame h _ ha
    · intro a ha
      simp only [List.map_cons, List.map_nil, List.mem_singleton] at ha
      right; omega
  | cons c rest =>
    have hch := hc.toChain
    have hnd := hch.nodup
    simp only [List.map_cons, List.nodup_cons] at hnd
    simp only [DChain] at hc
    obtain ⟨hp, hcell, _, ht⟩ := hc
    subst hp
    have hlt : c.1 < h.length := Heap.lt_of_cell hcell
    have hne : h.length ≠ c.1 := by omega
    have hm1 := Heap.modify_of_cell hnew (fun n => { n with next := some c.1 })
    have hc2 : ((h.alloc (DNode.mk1 v)).1.set h.length
        (some { DNode.mk1 v with next := some c.1 }))[c.1]? = some (some c.2) := by
      rw [List.getElem?_set_ne hne]
      exact Heap.cell_alloc_old _ hcell
    have hm2 := Heap.modify_of_cell hc2 (fun n => { n with prev := some h.length })
    have hframe : ∀ a, a < h.length → a ≠ c.1 →
        (((h.alloc (DNode.mk1 v)).1.set h.length
          (some { DNode.mk1 v with next := some c.1 })).set c.1
          (some { c.2 with prev := some h.length }))[a]? = h[a]? := by
      intro a ha hac
      rw [List.getElem?_set_ne (Ne.symm hac), List.getElem?_set_ne (by omega)]
      exact Heap.cell_alloc_frame h _ ha
    refine ⟨((h.alloc (DNode.mk1 v)).1.set h.length
        (some { DNode.mk1 v with next := some c.1 })).set c.1
        (some { c.2 with prev := some h.length }),
      (h.length, { DNode.mk1 v with next := some c.1 })
        :: (c.1, { c.2 with prev := some h.length }) :: rest, ?_, ?_, rfl, ?_, ?_, ?_⟩
    · simp only [insertAtBegin, isEmpty]
      simp only [beq_iff_eq, reduceCtorEq, if_false, Bool.false_eq_true, bind, Except.bind]
      simp only [h2', hm1, hm2, pure, Except.pure]
    · simp only [DChain]
      refine ⟨trivial, ?_, rfl, trivial, ?_, trivial, ?_⟩
      · rw [List.getElem?_set_ne (Ne.symm hne)]
        exact Heap.cell_set_self _ hnew
      · exact Heap.cell_set_self _ hc2
      · refine DChain.dll_frame ht ?_
        intro x hx
        have hxm : x.1 ∈ rest.map Prod.fst := List.mem_map.mpr ⟨x, hx, rfl⟩
        have hxlt : x.1 < h.length := by
          simp only [Chain] at hch
          exact Chain.addr_lt_of_mem hch.2.2 hx
        exact hframe x.1 hxlt (fun he => hnd.1 (by rw [← he]; exact hxm))
    · simp [Heap.alloc]
    · intro a ha hna
      simp only [List.map_cons, List.mem_cons, not_or] at hna
      exact hframe a ha hna.1
    · intro a ha
      simp only [List.map_cons, List.mem_cons] at ha ⊢
      rcases ha with ha | ha | ha
      · right; omega
      · left; left; exact ha
      · left; right; exact ha

end DoublyLinkedList

theorem exists_last {β : Type} (l : List β) (hl : l ≠ []) : ∃ pre c, l = pre ++ [c] :=
  ⟨l.dropLast, l.getLast hl, (List.dropLast_concat_getLast hl).symm⟩

theorem nodup_last {ν : Type} {pre : List (Nat × ν)} {c : Nat × ν}
    (hnd : ((pre ++ [c]).map Prod.fst).Nodup) : ∀ x ∈ pre, x.1 ≠ c.1 := by
  intro x hx he
  simp only [List.map_append, List.map_cons, List.map_nil, List.nodup_append,
    List.Disjoint] at hnd
  exact hnd.2.2 (List.mem_map.mpr ⟨x, hx, rfl⟩) (by simp [he])

namespace DoublyLinkedList

variable {α : Type}

theorem DChain.dll_last {h : Heap (DNode α)} {c : Nat × DNode α} :
    ∀ {pre : List (Nat × DNode α)} {p q : Ptr}, DChain h p q (pre ++ [c]) →
      h[c.1]? = some (some c.2) ∧ c.2.next = none
  | [], p, q, hc => by
    simp only [List.nil_append, DChain] at hc
    exact ⟨hc.2.1, hc.2.2.2⟩
  | x :: rest, p, q, hc => by
    simp only [List.cons_append, DChain] at hc
    exact DChain.dll_last hc.2.2.2

theorem dll_walkToLast_chain {h : Heap (DNode α)} {c : Nat × DNode α} :
    ∀ (pre : List (Nat × DNode α)) (p : Ptr) (k : Nat),
      Chain DNode.next h p (pre ++ [c]) → pre.length < k →
      walkToLast k h p = .ok (some c.1)
  | [], p, k, hc, hk => by
    obtain ⟨k, rfl⟩ : ∃ j, k = j + 1 := ⟨k - 1, by simp at hk; omega⟩
    simp only [List.nil_append, Chain] at hc
    simp only [walkToLast, hc.1, Heap.load_of_cell hc.2.1, hc.2.2, bind, Except.bind, pure,
      Except.pure]
  | x :: rest, p, k, hc, hk => by
    obtain ⟨k, rfl⟩ : ∃ j, k = j + 1 := ⟨k - 1, by simp at hk; omega⟩
    simp only [List.cons_append, Chain] at hc
    obtain ⟨hp, hx, ht⟩ := hc
    have ih := dll_walkToLast_chain rest x.2.next k ht
      (by simp only [List.length_cons] at hk; omega)
    have hnx : ∃ b, x.2.next = some b := by
      cases rest with
      | nil => simp only [List.nil_append, Chain] at ht; exact ⟨_, ht.1⟩
      | cons y r => simp only [List.cons_append, Chain] at ht; exact ⟨_, ht.1⟩
    obtain ⟨b, hb⟩ := hnx
    rw [hb] at ih
    simp only [walkToLast, hp, Heap.load_of_cell hx, hb, bind, Except.bind, ih]

theorem dll_insertAtEnd_exact (h : Heap (DNode α)) (l : DoublyLinkedList) (v : α)
    (cells : List (Nat × DNode α)) (hc : DChain h l.myFirst none cells) :
    ∃ h1 l1 cells1, insertAtEnd h l v = .ok (h1, l1, !cells.isEmpty)
      ∧ l1.mySize = l.mySize + 1
      ∧ DChain h1 l1.myFirst none cells1
      ∧ cells1.map (fun c => c.2.data) = cells.map (fun c => c.2.data) ++ [v]
      ∧ Footprint h h1 (cells.map Prod.fst) (cells1.map Prod.fst) := by
  obtain ⟨first, size⟩ := l
  have hnew : (h.alloc (DNode.mk1 v)).1[h.length]? = some (some (DNode.mk1 v)) :=
    Heap.cell_alloc_new h (DNode.mk1 v)
  have h2' : (h.alloc (DNode.mk1 v)).2 = h.length := rfl
  by_cases hnil : cells = []
  · subst hnil
    simp only [DChain] at hc
    subst hc
    refine ⟨(h.alloc (DNode.mk1 v)).1, { myFirst := some h.length, mySize := size + 1 },
      [(h.length, DNode.mk1 v)], ?_, rfl, ?_, rfl, ?_, ?_, ?_⟩
    · simp [insertAtEnd, isEmpty, Heap.alloc]
    · simp only [DChain]
      exact ⟨trivial, hnew, rfl, rfl⟩
    · simp [Heap.alloc]
    · intro a ha _
      exact Heap.cell_alloc_frame h _ ha
    · intro a ha
      simp only [List.map_cons, List.map_nil, List.mem_singleton] at ha
      right; omega
  · obtain ⟨pre, c, rfl⟩ := exists_last cells hnil
    have hch := hc.toChain
    have hnd := nodup_last hch.nodup
    obtain ⟨hcell, hcn⟩ := DChain.dll_last hc
    have hlt : c.1 < h.length := Heap.lt_of_cell hcell
    have hne : h.length ≠ c.1 := by omega
    have hfirst : (first == none) = false := by
      cases pre with
      | nil => simp only [List.nil_append, Chain] at hch; simp [hch.1]
      | cons x rest => simp only [List.cons_append, Chain] at hch; simp [hch.1]
    have hch1 : Chain DNode.next (h.alloc (DNode.mk1 v)).1 first (pre ++ [c]) :=
      Chain.frame hch (fun x hx => Heap.cell_alloc_frame h _ (Chain.addr_lt_of_mem hch hx))
    have hwalk := dll_walkToLast_chain pre first (h.alloc (DNode.mk1 v)).1.fuel hch1 (by
      have := hch1.length_lt_fuel
      simp only [List.length_append, List.length_cons, List.length_nil] at this
      omega)
    have hc1 : (h.alloc (DNode.mk1 v)).1[c.1]? = some (some c.2) :=
      Heap.cell_alloc_old _ hcell
    have hm1 := Heap.modify_of_cell hc1 (fun n => { n with next := some h.length })
    have hn2 : ((h.alloc (DNode.mk1 v)).1.set c.1
        (some { c.2 with next := some h.length }))[h.length]? = some (some (DNode.mk1 v)) := by
      rw [List.getElem?_set_ne (Ne.symm hne)]
      exact hnew
    have hm2 := Heap.modify_of_cell hn2 (fun n => { n with prev := some c.1 })
    have hframe : ∀ a, a < h.length → a ≠ c.1 →
        (((h.alloc (DNode.mk1 v)).1.set c.1
          (some { c.2 with next := some h.length })).set h.length
          (some { DNode.mk1 v with prev := some c.1 }))[a]? = h[a]? := by
      intro a ha hac
      rw [List.getElem?_set_ne (by omega), List.getElem?_set_ne (Ne.symm hac)]
      exact Heap.cell_alloc_frame h _ ha
    refine ⟨((h.alloc (DNode.mk1 v)).1.set c.1
        (some { c.2 with next := some h.length })).set h.length
        (some { DNode.mk1 v with prev := some c.1 }),
      { myFirst := first, mySize := size + 1 },
      pre ++ [(c.1, { c.2 with next := some h.length }),
        (h.length, { DNode.mk1 v with prev := some c.1 })], ?_, rfl, ?_, ?_, ?_, ?_, ?_⟩
    · have hb : (!(pre ++ [c]).isEmpty) = true := by simp
      rw [hb]
      simp only [insertAtEnd, isEmpty, hfirst, h2', hwalk, hm1, hm2, bind, Except.bind, pure,
        Except.pure]
      simp
    · refine DChain.dll_append_frame hc ?_ ?_
      · intro x hx
        exact hframe x.1 (Chain.addr_lt_of_mem hch (List.mem_append_left _ hx)) (hnd x hx)
      · simp only [DChain]
        refine ⟨trivial, ?_, trivial, trivial, ?_, trivial, rfl⟩
        · rw [List.getElem?_set_ne hne]
          exact Heap.cell_set_self _ hc1
        · exact Heap.cell_set_self _ hn2
    · simp [DNode.mk1]
    · simp [Heap.alloc]
    · intro a ha hna
      refine hframe a ha ?_
      intro he
      exact hna (by simp [he])
    · intro a ha
      simp only [List.map_append, List.map_cons, List.map_nil, List.mem_append, List.mem_cons,
        List.mem_singleton, List.not_mem_nil, or_false] at ha ⊢
      rcases ha with ha | ha | ha
      · left; left; exact ha
      · left; right; exact ha
      · right; omega

end DoublyLinkedList

namespace DoublyLinkedList

variable {α : Type}

theorem dll_deleteFromBegin_nil (h : Heap (DNode α)) (l : DoublyLinkedList)
    (hc : DChain h l.myFirst none []) : deleteFromBegin h l = .ok (h, l, false) := by
  simp only [DChain] at hc
  simp [deleteFromBegin, isEmpty, hc]

theorem dll_deleteFromBegin_exact (h : Heap (DNode α)) (l : DoublyLinkedList)
    (c : Nat × DNode α) (rest : List (Nat × DNode α))
    (hc : DChain h l.myFirst none (c :: rest)) :
    ∃ h1 l1 cells1, deleteFromBegin h l = .ok (h1, l1, true)
      ∧ l1.mySize = l.mySize - 1
      ∧ DChain h1 l1.myFirst none cells1
      ∧ cells1.map (fun c => c.2.data) = rest.map (fun c => c.2.data)
      ∧ Footprint h h1 ((c :: rest).map Prod.fst) (cells1.map Prod.fst) := by
  obtain ⟨first, size⟩ := l
  have hch := hc.toChain
  have hnd := hch.nodup
  simp only [List.map_cons, List.nodup_cons] at hnd
  simp only [DChain] at hc
  obtain ⟨hp, hcell, _, ht⟩ := hc
  subst hp
  cases rest with
  | nil =>
    simp only [DChain] at ht
    have hfree := Heap.free_of_cell hcell
    refine ⟨h.set c.1 none, { myFirst := none, mySize := size - 1 }, [], ?_, rfl, ?_, rfl,
      ?_, ?_, ?_⟩
    · simp only [deleteFromBegin, isEmpty, Heap.load_of_cell hcell, ht, hfree, bind,
        Except.bind, pure, Except.pure]
      simp
    · simp only [DChain]
    · simp
    · intro a _ hna
      simp only [List.map_cons, List.map_nil, List.mem_singleton] at hna
      rw [List.getElem?_set_ne (Ne.symm hna)]
    · intro a ha
      simp at ha
  | cons d r =>
    simp only [DChain] at ht
    obtain ⟨hcn, hdc, _, hr2⟩ := ht
    simp only [List.map_cons, List.mem_cons, not_or, List.nodup_cons] at hnd
    obtain ⟨⟨hcd, hcr⟩, hdr, _⟩ := hnd
    have hm := Heap.modify_of_cell hdc (fun n => { n with prev := none })
    have hc1 : (h.set d.1 (some { d.2 with prev := none }))[c.1]? = some (some c.2) := by
      rw [List.getElem?_set_ne (Ne.symm hcd)]; exact hcell
    have hfree := Heap.free_of_cell hc1
    have hframe : ∀ a, a ≠ c.1 → a ≠ d.1 →
        ((h.set d.1 (some { d.2 with prev := none })).set c.1 none)[a]? = h[a]? := by
      intro a hac had
      rw [List.getElem?_set_ne (Ne.symm hac), List.getElem?_set_ne (Ne.symm had)]
    refine ⟨(h.set d.1 (some { d.2 with prev := none })).set c.1 none,
      { myFirst := some d.1, mySize := size - 1 },
      (d.1, { d.2 with prev := none }) :: r, ?_, rfl, ?_, rfl, ?_, ?_, ?_⟩
    · simp only [deleteFromBegin, isEmpty, Heap.load_of_cell hcell, hcn, hm, hfree, bind,
        Except.bind, pure, Except.pure]
      simp
    · simp only [DChain]
      refine ⟨trivial, ?_, trivial, ?_⟩
      · rw [List.getElem?_set_ne hcd]
        exact Heap.cell_set_self _ hdc
      · refine DChain.dll_frame hr2 ?_
        intro x hx
        have hxm : x.1 ∈ r.map Prod.fst := List.mem_map.mpr ⟨x, hx, rfl⟩
        exact hframe x.1 (fun he => hcr (by rw [← he]; exact hxm))
          (fun he => hdr (by rw [← he]; exact hxm))
    · simp
    · intro a _ hna
      simp only [List.map_cons, List.mem_cons, not_or] at hna
      exact hframe a hna.1 hna.2.1
    · intro a ha
      simp only [List.map_cons, List.mem_cons] at ha ⊢
      left; right; exact ha

theorem dll_deleteFromEnd_nil (h : Heap (DNode α)) (l : DoublyLinkedList)
    (hc : DChain h l.myFirst none []) : deleteFromEnd h l = .ok (h, l, false) := by
  simp only [DChain] at hc
  simp [deleteFromEnd, isEmpty, hc]

theorem dll_deleteFromEnd_exact (h : Heap (DNode α)) (l : DoublyLinkedList)
    (cells : List (Nat × DNode α)) (hne : cells ≠ [])
    (hc : DChain h l.myFirst none cells) :
    ∃ h1 l1 cells1, deleteFromEnd h l = .ok (h1, l1, true)
      ∧ l1.mySize = l.mySize - 1
      ∧ DChain h1 l1.myFirst none cells1
      ∧ cells1.map (fun c => c.2.data) = (cells.map (fun c => c.2.data)).dropLast
      ∧ Footprint h h1 (cells.map Prod.fst) (cells1.map Prod.fst) := by
  obtain ⟨first, size⟩ := l
  obtain ⟨pre0, c, rfl⟩ := exists_last cells hne
  have hch := hc.toChain
  by_cases hp0 : pre0 = []
  · subst hp0
    simp only [List.nil_append, DChain] at hc
    obtain ⟨hp, hcell, _, ht⟩ := hc
    subst hp
    have hfree := Heap.free_of_cell hcell
    refine ⟨h.set c.1 none, { myFirst := none, mySize := size - 1 }, [], ?_, rfl, ?_, rfl,
      ?_, ?_, ?_⟩
    · simp only [deleteFromEnd, isEmpty, Heap.load_of_cell hcell, ht, hfree, bind,
        Except.bind, pure, Except.pure]
      simp
    · simp only [DChain]
    · simp
    · intro a _ hna
      simp only [List.nil_append, List.map_cons, List.map_nil, List.mem_singleton] at hna
      rw [List.getElem?_set_ne (Ne.symm hna)]
    · intro a ha
      simp at ha
  · obtain ⟨pre, b, rfl⟩ := exists_last pre0 hp0
    have hc' : DChain h first none (pre ++ b :: c :: []) := by simpa using hc
    have hch' : Chain DNode.next h first (pre ++ b :: c :: []) := hc'.toChain
    obtain ⟨hbc, hpre, _, _⟩ := nodup_mid hch'.nodup
    obtain ⟨hb, hbn, hcc, hcp, ht⟩ := DChain.mid hc'
    simp only [DChain] at ht
    have hwalk := dll_walkToLast_chain (pre ++ [b]) first h.fuel hch (by
      have := hch.length_lt_fuel
      simp only [List.length_append, List.length_cons, List.length_nil] at this ⊢
      omega)
    have hfirst : ∃ f a, h.load first = .ok f ∧ f.next = some a := by
      cases pre with
      | nil =>
        simp only [List.nil_append, Chain] at hch'
        exact ⟨b.2, c.1, by rw [hch'.1]; exact Heap.load_of_cell hb, hbn⟩
      | cons x r =>
        simp only [List.cons_append, Chain] at hch'
        obtain ⟨hp, hx, ht2⟩ := hch'
        refine ⟨x.2, ?_, by rw [hp]; exact Heap.load_of_cell hx, ?_⟩
        · exact (match r, ht2 with
            | [], ht2 => b.1
            | y :: _, ht2 => y.1)
        · cases r with
          | nil => simp only [List.nil_append, Chain] at ht2; exact ht2.1
          | cons y r2 => simp only [List.cons_append, Chain] at ht2; exact ht2.1
    obtain ⟨f, a, hfl, hfn⟩ := hfirst
    have hfe : (first == none) = false := by
      cases first with
      | none => cases hfl
      | some _ => rfl
    have hm1 := Heap.modify_of_cell hb (fun n => { n with next := none })
    have hc1 : (h.set b.1 (some { b.2 with next := none }))[c.1]? = some (some c.2) := by
      rw [List.getElem?_set_ne hbc]; exact hcc
    have hfree := Heap.free_of_cell hc1
    have hframe : ∀ a, a ≠ b.1 → a ≠ c.1 →
        ((h.set b.1 (some { b.2 with next := none })).set c.1 none)[a]? = h[a]? := by
      intro a hab hac
      rw [List.getElem?_set_ne (Ne.symm hac), List.getElem?_set_ne (Ne.symm hab)]
    refine ⟨(h.set b.1 (some { b.2 with next := none })).set c.1 none,
      { myFirst := first, mySize := size - 1 },
      pre ++ [(b.1, { b.2 with next := none })], ?_, rfl, ?_, ?_, ?_, ?_, ?_⟩
    · simp only [deleteFromEnd, isEmpty, hfe, hfl, hfn, hwalk, Heap.load_of_cell hcc, hcp,
        hm1, hfree, bind, Except.bind, pure, Except.pure]
      simp
    · refine DChain.dll_append_frame hc' ?_ ?_
      · intro x hx
        obtain ⟨hxb, hxc, _⟩ := hpre x hx
        exact hframe x.1 hxb hxc
      · simp only [DChain]
        refine ⟨trivial, ?_, trivial, trivial⟩
        rw [List.getElem?_set_ne (Ne.symm hbc)]
        exact Heap.cell_set_self _ hb
    · simp
    · simp
    · intro a _ hna
      simp only [List.map_append, List.map_cons, List.map_nil, List.mem_append, List.mem_cons,
        List.mem_singleton, List.not_mem_nil, or_false, not_or] at hna
      exact hframe a hna.1.2 hna.2
    · intro a ha
      simp only [List.map_append, List.map_cons, List.map_nil, List.mem_append, List.mem_cons,
        List.mem_singleton, List.not_mem_nil, or_false] at ha ⊢
      rcases ha with ha | ha
      · left; left; left; exact ha
      · left; left; right; exact ha

end DoublyLinkedList

namespace LListWithDummyNode

variable {α : Type}

theorem sll_insertAtBegin_exact (h : Heap (Node α)) (l : LListWithDummyNode) (v : α)
    (dummy : Nat × Node α) (cells : List (Nat × Node α))
    (hc : Chain Node.next h l.myFirst (dummy :: cells)) :
    ∃ h1 dummy1 cells1, insertAtBegin h l v
        = .ok (h1, { l with mySize := l.mySize + 1 }, true)
      ∧ Chain Node.next h1 l.myFirst (dummy1 :: cells1)
      ∧ cells1.map (fun c => c.2.data) = v :: cells.map (fun c => c.2.data)
      ∧ Footprint h h1 ((dummy :: cells).map Prod.fst) ((dummy1 :: cells1).map Prod.fst) := by
  obtain ⟨first, size⟩ := l
  have hnd := hc.nodup
  simp only [List.map_cons, List.nodup_cons] at hnd
  have hc0 := hc
  simp only [Chain] at hc
  obtain ⟨hp, hdummy, ht⟩ := hc
  subst hp
  have hlt : dummy.1 < h.length := Heap.lt_of_cell hdummy
  have hne : h.length ≠ dummy.1 := by omega
  have hnew : (h.alloc (Node.mk1 v)).1[h.length]? = some (some (Node.mk1 v)) :=
    Heap.cell_alloc_new h (Node.mk1 v)
  have hold : (h.alloc (Node.mk1 v)).1[dummy.1]? = some (some dummy.2) :=
    Heap.cell_alloc_old _ hdummy
  have h2' : (h.alloc (Node.mk1 v)).2 = h.length := rfl
  have hlen : ∀ x ∈ cells, x.1 < h.length ∧ x.1 ≠ dummy.1 := by
    intro x hx
    refine ⟨Chain.addr_lt_of_mem ht hx, ?_⟩
    intro he
    exact hnd.1 (by rw [← he]; exact List.mem_map.mpr ⟨x, hx, rfl⟩)
  cases hnx : dummy.2.next with
  | none =>
    have hm := Heap.modify_of_cell hold (fun n => { n with next := some h.length })
    have hcn : cells = [] := by
      cases cells with
      | nil => rfl
      | cons y r => simp only [Chain] at ht; rw [hnx] at ht; cases ht.1
    subst hcn
    have hframe : ∀ a, a < h.length → a ≠ dummy.1 →
        ((h.alloc (Node.mk1 v)).1.set dummy.1
          (some { dummy.2 with next := some h.length }))[a]? = h[a]? := by
      intro a ha had
      rw [List.getElem?_set_ne (Ne.symm had)]
      exact Heap.cell_alloc_frame h _ ha
    refine ⟨(h.alloc (Node.mk1 v)).1.set dummy.1 (some { dummy.2 with next := some h.length }),
      (dummy.1, { dummy.2 with next := some h.length }), [(h.length, Node.mk1 v)],
      ?_, ?_, rfl, ?_, ?_, ?_⟩
    · simp only [insertAtBegin, isEmpty, Heap.load_of_cell hold, hnx, h2', hm, bind,
        Except.bind, pure, Except.pure]
      simp
    · simp only [Chain]
      refine ⟨trivial, Heap.cell_set_self _ hold, trivial, ?_, rfl⟩
      rw [List.getElem?_set_ne (Ne.symm hne)]
      exact hnew
    · simp [Heap.alloc]
    · intro a ha hna
      simp only [List.map_cons, List.map_nil, List.mem_singleton] at hna
      exact hframe a ha hna
    · intro a ha
      simp only [List.map_cons, List.map_nil, List.mem_cons, List.mem_singleton,
        List.not_mem_nil, or_false] at ha ⊢
      rcases ha with ha | ha
      · left; exact ha
      · right; omega
  | some b =>
    have hm1 := Heap.modify_of_cell hnew (fun n => { n with next := some b })
    have hc2 : ((h.alloc (Node.mk1 v)).1.set h.length
        (some { Node.mk1 v with next := some b }))[dummy.1]? = some (some dummy.2) := by
      rw [List.getElem?_set_ne hne]
      exact hold
    have hm2 := Heap.modify_of_cell hc2 (fun n => { n with next := some h.length })
    have hframe : ∀ a, a < h.length → a ≠ dummy.1 →
        (((h.alloc (Node.mk1 v)).1.set h.length
          (some { Node.mk1 v with next := some b })).set dummy.1
          (some { dummy.2 with next := some h.length }))[a]? = h[a]? := by
      intro a ha had
      rw [List.getElem?_set_ne (Ne.symm had), List.getElem?_set_ne (by omega)]
      exact Heap.cell_alloc_frame h _ ha
    refine ⟨((h.alloc (Node.mk1 v)).1.set h.length
        (some { Node.mk1 v with next := some b })).set dummy.1
        (some { dummy.2 with next := some h.length }),
      (dummy.1, { dummy.2 with next := some h.length }),
      (h.length, { Node.mk1 v with next := some b }) :: cells, ?_, ?_, rfl, ?_, ?_, ?_⟩
    · simp only [insertAtBegin, isEmpty, Heap.load_of_cell hold, hnx, h2', hm1, hm2, bind,
        Except.bind, pure, Except.pure]
      simp
    · simp only [Chain]
      refine ⟨trivial, Heap.cell_set_self _ hc2, trivial, ?_, ?_⟩
      · rw [List.getElem?_set_ne (Ne.symm hne)]
        exact Heap.cell_set_self _ hnew
      · rw [hnx] at ht
        exact Chain.frame ht (fun x hx => hframe x.1 (hlen x hx).1 (hlen x hx).2)
    · simp [Heap.alloc]
    · intro a ha hna
      simp only [List.map_cons, List.mem_cons, not_or] at hna
      exact hframe a ha hna.1
    · intro a ha
      simp only [List.map_cons, List.mem_cons] at ha ⊢
      rcases ha with ha | ha | ha
      · left; left; exact ha
      · right; omega
      · left; right; exact ha

theorem sll_deleteFromBegin_nil (h : Heap (Node α)) (l : LListWithDummyNode)
    (dummy : Nat × Node α) (hc : Chain Node.next h l.myFirst [dummy]) :
    deleteFromBegin h l = .ok (h, l, false) := by
  simp only [Chain] at hc
  simp only [deleteFromBegin, isEmpty, hc.1, Heap.load_of_cell hc.2.1, hc.2.2, bind,
    Except.bind, pure, Except.pure]
  simp

theorem sll_deleteFromBegin_exact (h : Heap (Node α)) (l : LListWithDummyNode)
    (dummy c : Nat × Node α) (rest : List (Nat × Node α))
    (hc : Chain Node.next h l.myFirst (dummy :: c :: rest)) :
    ∃ h1 dummy1, deleteFromBegin h l = .ok (h1, { l with mySize := l.mySize - 1 }, true)
      ∧ Chain Node.next h1 l.myFirst (dummy1 :: rest)
      ∧ Footprint h h1 ((dummy :: c :: rest).map Prod.fst) ((dummy1 :: rest).map Prod.fst) := by
  obtain ⟨first, size⟩ := l
  have hp : first = some dummy.1 := by
    simp only [Chain] at hc
    exact hc.1
  subst hp
  have hsp := sll_splice hc
  have hnd := hc.nodup
  simp only [List.map_cons, List.nodup_cons, List.mem_cons, not_or] at hnd
  obtain ⟨⟨hbc, _⟩, _, _⟩ := hnd
  simp only [Chain] at hc
  obtain ⟨_, hdummy, hdn, hcc, _⟩ := hc
  have h1 := Heap.modify_of_cell hdummy (fun n => { n with next := c.2.next })
  have hc1 : (h.set dummy.1 (some { dummy.2 with next := c.2.next }))[c.1]?
      = some (some c.2) := by
    rw [List.getElem?_set_ne hbc]; exact hcc
  have h2 := Heap.free_of_cell hc1
  refine ⟨(h.set dummy.1 (some { dummy.2 with next := c.2.next })).set c.1 none,
    (dummy.1, { dummy.2 with next := c.2.next }), ?_, hsp.1, ?_, ?_, ?_⟩
  · simp only [deleteFromBegin, isEmpty, Heap.load_of_cell hdummy, hdn,
      Heap.load_of_cell hcc, h1, h2, bind, Except.bind, pure, Except.pure]
    simp
  · simp
  · intro a _ hna
    simp only [List.map_cons, List.mem_cons, not_or] at hna
    exact hsp.2 a hna.1 hna.2.1
  · intro a ha
    simp only [List.map_cons, List.mem_cons] at ha ⊢
    rcases ha with ha | ha
    · left; left; exact ha
    · left; right; right; exact ha

end LListWithDummyNode

theorem Chain.last {ν : Type} {next : ν → Ptr} {h : Heap ν} {c : Nat × ν} :
    ∀ {pre : List (Nat × ν)} {p : Ptr}, Chain next h p (pre ++ [c]) →
      h[c.1]? = some (some c.2) ∧ next c.2 = none
  | [], p, hc => by
    simp only [List.nil_append, Chain] at hc
    exact ⟨hc.2.1, hc.2.2⟩
  | x :: rest, p, hc => by
    simp only [List.cons_append, Chain] at hc
    exact Chain.last hc.2.2

namespace LListWithDummyNode

variable {α : Type}

theorem sll_walkToLast_chain {h : Heap (Node α)} {c : Nat × Node α} :
    ∀ (pre : List (Nat × Node α)) (p : Ptr) (k : Nat),
      Chain Node.next h p (pre ++ [c]) → pre.length < k →
      walkToLast k h p = .ok (some c.1)
  | [], p, k, hc, hk => by
    obtain ⟨k, rfl⟩ : ∃ j, k = j + 1 := ⟨k - 1, by simp at hk; omega⟩
    simp only [List.nil_append, Chain] at hc
    simp only [walkToLast, hc.1, Heap.load_of_cell hc.2.1, hc.2.2, bind, Except.bind, pure,
      Except.pure]
  | x :: rest, p, k, hc, hk => by
    obtain ⟨k, rfl⟩ : ∃ j, k = j + 1 := ⟨k - 1, by simp at hk; omega⟩
    simp only [List.cons_append, Chain] at hc
    obtain ⟨hp, hx, ht⟩ := hc
    have ih := sll_walkToLast_chain rest x.2.next k ht
      (by simp only [List.length_cons] at hk; omega)
    have hnx : ∃ b, x.2.next = some b := by
      cases rest with
      | nil => simp only [List.nil_append, Chain] at ht; exact ⟨_, ht.1⟩
      | cons y r => simp only [List.cons_append, Chain] at ht; exact ⟨_, ht.1⟩
    obtain ⟨b, hb⟩ := hnx
    rw [hb] at ih
    simp only [walkToLast, hp, Heap.load_of_cell hx, hb, bind, Except.bind, ih]

/-- The branch `mySize == 0` of `insertAtEnd`: the new node is linked right after the dummy
node, whatever followed it. -/
theorem sll_insertAtEnd_size_zero (h : Heap (Node α)) (l : LListWithDummyNode) (v : α)
    (dummy : Nat × Node α) (cells : List (Nat × Node α))
    (hc : Chain Node.next h l.myFirst (dummy :: cells)) (hz : l.mySize = 0) :
    ∃ h1 dummy1, insertAtEnd h l v = .ok (h1, { l with mySize := l.mySize + 1 }, true)
      ∧ Chain Node.next h1 l.myFirst [dummy1, (h.length, Node.mk1 v)]
      ∧ Footprint h h1 ((dummy :: cells).map Prod.fst)
          ([dummy1, (h.length, Node.mk1 v)].map Prod.fst) := by
  obtain ⟨first, size⟩ := l
  simp only at hz
  subst hz
  simp only [Chain] at hc
  obtain ⟨hp, hdummy, _⟩ := hc
  subst hp
  have hlt : dummy.1 < h.length := Heap.lt_of_cell hdummy
  have hne : h.length ≠ dummy.1 := by omega
  have hnew : (h.alloc (Node.mk1 v)).1[h.length]? = some (some (Node.mk1 v)) :=
    Heap.cell_alloc_new h (Node.mk1 v)
  have hold : (h.alloc (Node.mk1 v)).1[dummy.1]? = some (some dummy.2) :=
    Heap.cell_alloc_old _ hdummy
  have h2' : (h.alloc (Node.mk1 v)).2 = h.length := rfl
  have hm := Heap.modify_of_cell hold (fun n => { n with next := some h.length })
  refine ⟨(h.alloc (Node.mk1 v)).1.set dummy.1 (some { dummy.2 with next := some h.length }),
    (dummy.1, { dummy.2 with next := some h.length }), ?_, ?_, ?_, ?_, ?_⟩
  · simp only [insertAtEnd, h2', hm, bind, Except.bind, pure, Except.pure]
    simp
  · simp only [Chain]
    refine ⟨trivial, Heap.cell_set_self _ hold, trivial, ?_, rfl⟩
    rw [List.getElem?_set_ne (Ne.symm hne)]
    exact hnew
  · simp [Heap.alloc]
  · intro a ha hna
    simp only [List.map_cons, List.mem_cons, not_or] at hna
    rw [List.getElem?_set_ne (Ne.symm hna.1)]
    exact Heap.cell_alloc_frame h _ ha
  · intro a ha
    simp only [List.map_cons, List.map_nil, List.mem_cons, List.mem_singleton,
      List.not_mem_nil, or_false] at ha ⊢
    rcases ha with ha | ha
    · left; left; exact ha
    · right; omega

/-- The branch `mySize != 0` of `insertAtEnd` on a list with no real node: the walk starts at
the null `next` link of the dummy node. -/
theorem sll_insertAtEnd_no_node (h : Heap (Node α)) (l : LListWithDummyNode) (v : α)
    (dummy : Nat × Node α) (hc : Chain Node.next h l.myFirst [dummy]) (hz : l.mySize ≠ 0) :
    insertAtEnd h l v = .error .nullDeref := by
  obtain ⟨first, size⟩ := l
  simp only at hz
  simp only [Chain] at hc
  obtain ⟨hp, hdummy, hdn⟩ := hc
  subst hp
  have hold : (h.alloc (Node.mk1 v)).1[dummy.1]? = some (some dummy.2) :=
    Heap.cell_alloc_old _ hdummy
  simp only [insertAtEnd, hz, if_false, Heap.load_of_cell hold, hdn, bind, Except.bind]
  rfl

/-- The branch `mySize != 0` of `insertAtEnd` on a list with real nodes: the new node is
linked after the last one. -/
theorem sll_insertAtEnd_exact (h : Heap (Node α)) (l : LListWithDummyNode) (v : α)
    (dummy c : Nat × Node α) (pre : List (Nat × Node α))
    (hc : Chain Node.next h l.myFirst (dummy :: (pre ++ [c]))) (hz : l.mySize ≠ 0) :
    ∃ h1, insertAtEnd h l v = .ok (h1, { l with mySize := l.mySize + 1 }, true)
      ∧ Chain Node.next h1 l.myFirst
          (dummy :: (pre ++ [(c.1, { c.2 with next := some h.length }),
            (h.length, Node.mk1 v)]))
      ∧ Footprint h h1 ((dummy :: (pre ++ [c])).map Prod.fst)
          ((dummy :: (pre ++ [(c.1, { c.2 with next := some h.length }),
            (h.length, Node.mk1 v)])).map Prod.fst) := by
  obtain ⟨first, size⟩ := l
  simp only at hz
  have hc' : Chain Node.next h first ((dummy :: pre) ++ [c]) := by simpa using hc
  have hnd := nodup_last hc'.nodup
  obtain ⟨hcell, hcn⟩ := Chain.last hc'
  have hc0 := hc
  simp only [Chain] at hc
  obtain ⟨hp, hdummy, ht⟩ := hc
  subst hp
  have hlt : c.1 < h.length := Heap.lt_of_cell hcell
  have hne : h.length ≠ c.1 := by omega
  have hnew : (h.alloc (Node.mk1 v)).1[h.length]? = some (some (Node.mk1 v)) :=
    Heap.cell_alloc_new h (Node.mk1 v)
  have hold : (h.alloc (Node.mk1 v)).1[dummy.1]? = some (some dummy.2) :=
    Heap.cell_alloc_old _ hdummy
  have hc1 : (h.alloc (Node.mk1 v)).1[c.1]? = some (some c.2) :=
    Heap.cell_alloc_old _ hcell
  have h2' : (h.alloc (Node.mk1 v)).2 = h.length := rfl
  have hch1 : Chain Node.next (h.alloc (Node.mk1 v)).1 dummy.2.next (pre ++ [c]) :=
    Chain.frame ht (fun x hx => Heap.cell_alloc_frame h _ (Chain.addr_lt_of_mem ht hx))
  have hwalk := sll_walkToLast_chain pre dummy.2.next (h.alloc (Node.mk1 v)).1.fuel hch1 (by
    have := hch1.length_lt_fuel
    simp only [List.length_append, List.length_cons, List.length_nil] at this
    omega)
  have hm := Heap.modify_of_cell hc1 (fun n => { n with next := some h.length })
  have hframe : ∀ a, a < h.length → a ≠ c.1 →
      ((h.alloc (Node.mk1 v)).1.set c.1 (some { c.2 with next := some h.length }))[a]?
        = h[a]? := by
    intro a ha hac
    rw [List.getElem?_set_ne (Ne.symm hac)]
    exact Heap.cell_alloc_frame h _ ha
  refine ⟨(h.alloc (Node.mk1 v)).1.set c.1 (some { c.2 with next := some h.length }),
    ?_, ?_, ?_, ?_, ?_⟩
  · simp only [insertAtEnd, hz, if_false, Heap.load_of_cell hold, hwalk, h2', hm, bind,
      Except.bind, pure, Except.pure]
  · have := @Chain.append_frame _ Node.next h ((h.alloc (Node.mk1 v)).1.set c.1
        (some { c.2 with next := some h.length })) c []
      [(c.1, { c.2 with next := some h.length }), (h.length, Node.mk1 v)] _ _ hc' ?_ ?_
    · simpa using this
    · intro x hx
      exact hframe x.1 (Chain.addr_lt_of_mem hc' (List.mem_append_left _ hx)) (hnd x hx)
    · simp only [Chain]
      refine ⟨trivial, Heap.cell_set_self _ hc1, trivial, ?_, rfl⟩
      rw [List.getElem?_set_ne (Ne.symm hne)]
      exact hnew
  · simp [Heap.alloc]
  · intro a ha hna
    refine hframe a ha ?_
    intro he
    exact hna (by simp [he])
  · intro a ha
    simp only [List.map_append, List.map_cons, List.map_nil, List.mem_append, List.mem_cons,
      List.mem_singleton, List.not_mem_nil, or_false] at ha ⊢
    rcases ha with ha | ha | ha | ha
    · left; left; exact ha
    · left; right; left; exact ha
    · left; right; right; exact ha
    · right; omega

end LListWithDummyNode

/-! ### Contracts of the insertions and deletions at the ends -/

namespace DoublyLinkedList

variable {α : Type}

theorem WellFormed.linked {h : Heap (DNode α)} {l : DoublyLinkedList} {xs : List α}
    (hw : WellFormed h l xs) : Linked h l xs := by
  obtain ⟨cells, hc, hx, _⟩ := hw
  exact ⟨cells, hc, hx⟩

theorem Linked.dll_holds {h : Heap (DNode α)} {l : DoublyLinkedList} {xs : List α}
    (hw : Linked h l xs) : Holds h l xs := by
  obtain ⟨cells, hc, hx⟩ := hw
  exact ⟨cells, hc.toChain, hx⟩

theorem Linked.isEmpty_iff {h : Heap (DNode α)} {l : DoublyLinkedList} {xs : List α}
    (hw : Linked h l xs) : l.isEmpty = true ↔ xs = [] := by
  obtain ⟨cells, hc, rfl⟩ := hw
  cases cells with
  | nil =>
    simp only [DChain] at hc
    simp [isEmpty, hc]
  | cons c rest =>
    simp only [DChain] at hc
    simp [isEmpty, hc.1]

/-- The value `search` returns on a chain with elements `xs`. -/
theorem dll_search_eq [BEq α] (h : Heap (DNode α)) (l : DoublyLinkedList)
    (xs : List α) (v : α) (hx : Holds h l xs) :
    search h l v = .ok
        (match xs.findIdx? (fun x => x == v) with
          | some i => (i : Int)
          | none => -1) := by
  obtain ⟨cells, hc, rfl⟩ := hx
  cases cells with
  | nil =>
    simp only [Chain] at hc
    simp [search, isEmpty, hc]
  | cons cell rest =>
    have hc2 := hc
    simp only [Chain] at hc
    obtain ⟨hp, hcell, ht⟩ := hc
    have hload : h.load (some cell.1) = .ok cell.2 := Heap.load_some_iff.mpr hcell
    by_cases hm : (cell.2.data == v) = true
    · simp [search, isEmpty, hp, hload, hm, bind, Except.bind, pure, Except.pure]
    · have hl := dll_searchLoop_chain v (cell :: rest) l.myFirst h.fuel 0 hc2 hc2.length_lt_fuel
      simp only [search, isEmpty, hp, hload, hm, bind, Except.bind]
      rw [hp] at hl
      simp only [hl]
      cases (List.findIdx? (fun x => x == v) (List.map (fun c => c.2.data) (cell :: rest)))
        <;> simp

end DoublyLinkedList

/-- C22: for both container kinds, on every list with elements `xs` (a chain with consistent
links) and for every value `v`, `insertAtBegin(v)` returns true, increments the size by one,
and leaves the list with the elements `v` followed by `xs`. -/
theorem insertAtBegin_prepends {α : Type}
    (hd : Heap (DNode α)) (ld : DoublyLinkedList) (xs : List α)
    (hs : Heap (Node α)) (ls : LListWithDummyNode) (ys : List α) (v w : α)
    (hxd : DoublyLinkedList.Linked hd ld xs) (hxs : LListWithDummyNode.Holds hs ls ys) :
    (∃ h1 l1, DoublyLinkedList.insertAtBegin hd ld v = .ok (h1, l1, true)
        ∧ l1.getSize = ld.getSize + 1
        ∧ DoublyLinkedList.Linked h1 l1 (v :: xs))
    ∧ (∃ h1 l1, LListWithDummyNode.insertAtBegin hs ls w = .ok (h1, l1, true)
        ∧ l1.getSize = ls.getSize + 1
        ∧ LListWithDummyNode.Holds h1 l1 (w :: ys)) := by
  constructor
  · obtain ⟨cells, hc, rfl⟩ := hxd
    obtain ⟨h1, cells1, hop, hch, hdata, _⟩ :=
      DoublyLinkedList.dll_insertAtBegin_exact hd ld v cells hc
    exact ⟨h1, _, hop, rfl, cells1, hch, hdata⟩
  · obtain ⟨dummy, cells, hc, rfl⟩ := hxs
    obtain ⟨h1, dummy1, cells1, hop, hch, hdata, _⟩ :=
      LListWithDummyNode.sll_insertAtBegin_exact hs ls w dummy cells hc
    exact ⟨h1, _, hop, rfl, dummy1, cells1, hch, hdata⟩

/-- Witness of C22: inserting 9 at the front of the sample lists 5, 7, 5 and 5, 7. -/
theorem insertAtBegin_prepends_witness :
    DoublyLinkedList.Linked DoublyLinkedList.sampleHeap DoublyLinkedList.sampleList [5, 7, 5]
      ∧ LListWithDummyNode.Holds LListWithDummyNode.sampleHeap LListWithDummyNode.sampleList
          [5, 7]
      ∧ ((∃ h1 l1, DoublyLinkedList.insertAtBegin DoublyLinkedList.sampleHeap
              DoublyLinkedList.sampleList 9 = .ok (h1, l1, true)
            ∧ l1.getSize = DoublyLinkedList.sampleList.getSize + 1
            ∧ DoublyLinkedList.Linked h1 l1 (9 :: [5, 7, 5]))
        ∧ (∃ h1 l1, LListWithDummyNode.insertAtBegin LListWithDummyNode.sampleHeap
              LListWithDummyNode.sampleList 9 = .ok (h1, l1, true)
            ∧ l1.getSize = LListWithDummyNode.sampleList.getSize + 1
            ∧ LListWithDummyNode.Holds h1 l1 (9 :: [5, 7]))) :=
  ⟨DoublyLinkedList.dll_sample_wellFormed.linked, LListWithDummyNode.sll_sample_wellFormed.1,
    insertAtBegin_prepends DoublyLinkedList.sampleHeap DoublyLinkedList.sampleList [5, 7, 5]
      LListWithDummyNode.sampleHeap LListWithDummyNode.sampleList [5, 7] 9 9
      DoublyLinkedList.dll_sample_wellFormed.linked LListWithDummyNode.sll_sample_wellFormed.1⟩

/-- C23: for both container kinds, on every well-formed list with elements `xs` and for every
value `v`, `insertAtEnd(v)` returns, increments the size by one, and leaves a well-formed list
with the elements `xs` followed by `v`; on a DoublyLinkedList, when no element of `xs` equals
`v` (and `v` equals itself), `search(v)` afterwards returns the old size. -/
theorem insertAtEnd_appends {α : Type} [BEq α]
    (hd : Heap (DNode α)) (ld : DoublyLinkedList) (xs : List α)
    (hs : Heap (Node α)) (ls : LListWithDummyNode) (ys : List α) (v w : α)
    (hwd : DoublyLinkedList.WellFormed hd ld xs)
    (hws : LListWithDummyNode.WellFormed hs ls ys) :
    (∃ h1 l1 r, DoublyLinkedList.insertAtEnd hd ld v = .ok (h1, l1, r)
        ∧ l1.getSize = ld.getSize + 1
        ∧ DoublyLinkedList.WellFormed h1 l1 (xs ++ [v])
        ∧ ((∀ x ∈ xs, (x == v) = false) → (v == v) = true →
            DoublyLinkedList.search h1 l1 v = .ok ld.getSize))
    ∧ (∃ h1 l1 r, LListWithDummyNode.insertAtEnd hs ls w = .ok (h1, l1, r)
        ∧ l1.getSize = ls.getSize + 1
        ∧ LListWithDummyNode.WellFormed h1 l1 (ys ++ [w])) := by
  constructor
  · obtain ⟨cells, hc, rfl, hsz⟩ := hwd
    obtain ⟨h1, l1, cells1, hop, hsz1, hch, hdata, _⟩ :=
      DoublyLinkedList.dll_insertAtEnd_exact hd ld v cells hc
    have hw1 : DoublyLinkedList.WellFormed h1 l1 (cells.map (fun c => c.2.data) ++ [v]) := by
      refine ⟨cells1, hch, hdata, ?_⟩
      rw [hsz1, hsz]
      simp
    refine ⟨h1, l1, _, hop, hsz1, hw1, ?_⟩
    intro hno hv
    rw [DoublyLinkedList.dll_search_eq h1 l1 _ v hw1.holds]
    have hf : (cells.map (fun c => c.2.data) ++ [v]).findIdx? (fun x => x == v)
        = some (cells.map (fun c => c.2.data)).length := by
      rw [List.findIdx?_append, List.findIdx?_eq_none_iff.mpr hno]
      simp [hv]
    rw [hf]
    simp only [DoublyLinkedList.getSize, hsz]
  · obtain ⟨⟨dummy, cells, hc, rfl⟩, hsz⟩ := hws
    by_cases hnil : cells = []
    · subst hnil
      have hz : ls.mySize = 0 := by simpa using hsz
      obtain ⟨h1, dummy1, hop, hch, _⟩ :=
        LListWithDummyNode.sll_insertAtEnd_size_zero hs ls w dummy [] hc hz
      refine ⟨h1, _, true, hop, rfl, ⟨dummy1, [(hs.length, Node.mk1 w)], hch, rfl⟩, ?_⟩
      show ls.mySize + 1 = _
      rw [hz]
      simp
    · obtain ⟨pre, c, rfl⟩ := exists_last cells hnil
      have hz : ls.mySize ≠ 0 := by
        rw [hsz]
        simp only [List.length_map, List.length_append, List.length_cons, List.length_nil]
        omega
      obtain ⟨h1, hop, hch, _⟩ :=
        LListWithDummyNode.sll_insertAtEnd_exact hs ls w dummy c pre hc hz
      refine ⟨h1, _, true, hop, rfl, ⟨dummy, _, hch, ?_⟩, ?_⟩
      · simp [Node.mk1]
      · show ls.mySize + 1 = _
        rw [hsz]
        simp only [List.length_map, List.length_append, List.length_cons, List.length_nil,
          List.map_append, List.map_cons, List.map_nil]
        omega

/-- Witness of C23: appending 9 to the sample lists 5, 7, 5 and 5, 7. -/
theorem insertAtEnd_appends_witness :
    DoublyLinkedList.WellFormed DoublyLinkedList.sampleHeap DoublyLinkedList.sampleList
        [5, 7, 5]
      ∧ LListWithDummyNode.WellFormed LListWithDummyNode.sampleHeap
          LListWithDummyNode.sampleList [5, 7]
      ∧ ((∃ h1 l1 r, DoublyLinkedList.insertAtEnd DoublyLinkedList.sampleHeap
              DoublyLinkedList.sampleList 9 = .ok (h1, l1, r)
            ∧ l1.getSize = DoublyLinkedList.sampleList.getSize + 1
            ∧ DoublyLinkedList.WellFormed h1 l1 ([5, 7, 5] ++ [9])
            ∧ ((∀ x ∈ ([5, 7, 5] : List Nat), (x == 9) = false) → ((9 : Nat) == 9) = true →
                DoublyLinkedList.search h1 l1 9 = .ok DoublyLinkedList.sampleList.getSize))
        ∧ (∃ h1 l1 r, LListWithDummyNode.insertAtEnd LListWithDummyNode.sampleHeap
              LListWithDummyNode.sampleList 9 = .ok (h1, l1, r)
            ∧ l1.getSize = LListWithDummyNode.sampleList.getSize + 1
            ∧ LListWithDummyNode.WellFormed h1 l1 ([5, 7] ++ [9]))) :=
  ⟨DoublyLinkedList.dll_sample_wellFormed, LListWithDummyNode.sll_sample_wellFormed,
    insertAtEnd_appends DoublyLinkedList.sampleHeap DoublyLinkedList.sampleList [5, 7, 5]
      LListWithDummyNode.sampleHeap LListWithDummyNode.sampleList [5, 7] 9 9
      DoublyLinkedList.dll_sample_wellFormed LListWithDummyNode.sll_sample_wellFormed⟩

namespace DoublyLinkedList

variable {α : Type}

/-- C24, as the code has it: on every DoublyLinkedList whose nodes form a chain with the
elements `xs`, whatever its size counter, and for every value `v`, `insertAtEnd(v)` returns
false exactly when the list was empty before the call and true on every non-empty list.  In
both cases the element is inserted at the end and the size grows by one; on an empty list the
element is the only one afterwards, and the size becomes 1 when it was 0, the list then being
well-formed. -/
theorem dll_insertAtEnd_return_value (h : Heap (DNode α)) (l : DoublyLinkedList)
    (xs : List α) (v : α) (hx : Linked h l xs) :
    ∃ h1 l1 r, insertAtEnd h l v = .ok (h1, l1, r)
      ∧ (r = false ↔ l.isEmpty = true)
      ∧ (l.isEmpty = false → r = true)
      ∧ Linked h1 l1 (xs ++ [v])
      ∧ l1.getSize = l.getSize + 1
      ∧ (l.isEmpty = true →
          Linked h1 l1 [v] ∧ (l.getSize = 0 → l1.getSize = 1 ∧ WellFormed h1 l1 [v])) := by
  have hemp := hx.isEmpty_iff
  obtain ⟨cells, hc, rfl⟩ := hx
  obtain ⟨h1, l1, cells1, hop, hsz1, hch, hdata, _⟩ := dll_insertAtEnd_exact h l v cells hc
  have hce : cells.isEmpty = true ↔ l.isEmpty = true := by
    rw [hemp]
    cases cells <;> simp
  refine ⟨h1, l1, _, hop, ?_, ?_, ⟨cells1, hch, hdata⟩, hsz1, ?_⟩
  · rw [← hce]
    cases cells.isEmpty <;> simp
  · intro he
    have : cells.isEmpty = false := by
      cases hci : cells.isEmpty with
      | false => rfl
      | true => rw [hce.mp hci] at he; cases he
    rw [this]
    rfl
  · intro he
    have hx := hemp.mp he
    rw [hx] at hdata
    have hd : cells1.map (fun c => c.2.data) = [v] := by simpa using hdata
    refine ⟨⟨cells1, hch, hd⟩, ?_⟩
    intro h0
    have h0' : l.mySize = 0 := h0
    refine ⟨?_, cells1, hch, hd, ?_⟩
    · show l1.mySize = 1
      rw [hsz1, h0']
      simp
    · rw [hsz1, h0']
      simp

/-- Witness of C24: an empty list whose size is -1, in a store with one live node and two
deleted ones (the state of a copy of the list 7 after two calls `deleteFromBegin()`), and the
sample list 5, 7, 5. -/
theorem dll_insertAtEnd_return_value_witness :
    (Linked ([some ⟨7, none, none⟩, none, none] : Heap (DNode Nat)) ⟨none, -1⟩ []
      ∧ ∃ h1 l1 r, insertAtEnd ([some ⟨7, none, none⟩, none, none] : Heap (DNode Nat))
            ⟨none, -1⟩ 9 = .ok (h1, l1, r)
          ∧ (r = false ↔ (⟨none, -1⟩ : DoublyLinkedList).isEmpty = true)
          ∧ ((⟨none, -1⟩ : DoublyLinkedList).isEmpty = false → r = true)
          ∧ Linked h1 l1 ([] ++ [9])
          ∧ l1.getSize = (⟨none, -1⟩ : DoublyLinkedList).getSize + 1
          ∧ ((⟨none, -1⟩ : DoublyLinkedList).isEmpty = true →
              Linked h1 l1 [9]
                ∧ ((⟨none, -1⟩ : DoublyLinkedList).getSize = 0 →
                    l1.getSize = 1 ∧ WellFormed h1 l1 [9])))
    ∧ (Linked sampleHeap sampleList [5, 7, 5]
      ∧ ∃ h1 l1 r, insertAtEnd sampleHeap sampleList 9 = .ok (h1, l1, r)
          ∧ (r = false ↔ sampleList.isEmpty = true)
          ∧ (sampleList.isEmpty = false → r = true)
          ∧ Linked h1 l1 ([5, 7, 5] ++ [9])
          ∧ l1.getSize = sampleList.getSize + 1
          ∧ (sampleList.isEmpty = true →
              Linked h1 l1 [9]
                ∧ (sampleList.getSize = 0 → l1.getSize = 1 ∧ WellFormed h1 l1 [9]))) :=
  ⟨⟨⟨[], rfl, rfl⟩,
      dll_insertAtEnd_return_value _ _ [] 9 ⟨[], rfl, rfl⟩⟩,
    ⟨dll_sample_wellFormed.linked,
      dll_insertAtEnd_return_value sampleHeap sampleList [5, 7, 5] 9
        dll_sample_wellFormed.linked⟩⟩

/-- C24, the claim at a failing input.  The list A holds 7, B is copy constructed from A, and
two calls `B.deleteFromBegin()` leave B empty (no node, `isEmpty()` true) with the size -1.
The call `B.insertAtEnd(9)` then returns false and inserts 9 as the only element, and the
size becomes 0, not 1. -/
theorem dll_insertAtEnd_size_after_copy :
    (do
      let (h1, a, _) ← insertAtEnd ([] : Heap (DNode Nat)) new 7
      let (h2, b) ← copy h1 a
      let (h3, b1, _) ← deleteFromBegin h2 b
      let (h4, b2, _) ← deleteFromBegin h3 b1
      let (h5, b3, r) ← insertAtEnd h4 b2 9
      let xs ← toList h5 b3
      pure (h4, b2, b2.isEmpty, r, xs, b3.getSize))
      = .ok ([some ⟨7, none, none⟩, none, none], ⟨none, -1⟩, true, false, [9], 0) := by
  rfl

/-- C26: on every non-empty well-formed DoublyLinkedList with elements `xs`, `deleteFromEnd()`
returns true, decrements the size by one, and leaves a well-formed list (the `next` link of
its last node is null) with the elements `xs` without the last one; the head pointer is null
when `xs` had one element. -/
theorem dll_deleteFromEnd_removes_last (h : Heap (DNode α)) (l : DoublyLinkedList)
    (xs : List α) (hw : WellFormed h l xs) (hne : xs ≠ []) :
    ∃ h1 l1, deleteFromEnd h l = .ok (h1, l1, true)
      ∧ l1.getSize = l.getSize - 1
      ∧ WellFormed h1 l1 xs.dropLast
      ∧ (xs.dropLast = [] → l1.myFirst = none) := by
  obtain ⟨cells, hc, rfl, hsz⟩ := hw
  have hcne : cells ≠ [] := by
    intro he
    exact hne (by rw [he]; rfl)
  obtain ⟨h1, l1, cells1, hop, hsz1, hch, hdata, _⟩ := dll_deleteFromEnd_exact h l cells hcne hc
  refine ⟨h1, l1, hop, hsz1, ⟨cells1, hch, hdata, ?_⟩, ?_⟩
  · rw [hsz1, hsz]
    have hpos : 0 < cells.length := List.length_pos.mpr hcne
    simp only [List.length_dropLast, List.length_map]
    omega
  · intro hd
    rw [hd] at hdata
    have : cells1 = [] := by simpa using hdata
    rw [this] at hch
    simpa [DChain] using hch

/-- Witness of C26: the sample list 5, 7, 5. -/
theorem dll_deleteFromEnd_removes_last_witness :
    WellFormed sampleHeap sampleList [5, 7, 5]
      ∧ ([5, 7, 5] : List Nat) ≠ []
      ∧ ∃ h1 l1, deleteFromEnd sampleHeap sampleList = .ok (h1, l1, true)
          ∧ l1.getSize = sampleList.getSize - 1
          ∧ WellFormed h1 l1 ([5, 7, 5] : List Nat).dropLast
          ∧ (([5, 7, 5] : List Nat).dropLast = [] → l1.myFirst = none) :=
  ⟨dll_sample_wellFormed, by decide,
    dll_deleteFromEnd_removes_last sampleHeap sampleList [5, 7, 5] dll_sample_wellFormed
      (by decide)⟩

end DoublyLinkedList

/-- C25: for both container kinds, on every well-formed list with elements `x` followed by
`rest`, `deleteFromBegin()` returns true, decrements the size by one, and leaves a well-formed
list with the elements `rest`; when `rest` is empty, `isEmpty()` holds afterwards. -/
theorem deleteFromBegin_removes_first {α : Type}
    (hd : Heap (DNode α)) (ld : DoublyLinkedList) (x : α) (rest : List α)
    (hs : Heap (Node α)) (ls : LListWithDummyNode) (y : α) (more : List α)
    (hwd : DoublyLinkedList.WellFormed hd ld (x :: rest))
    (hws : LListWithDummyNode.WellFormed hs ls (y :: more)) :
    (∃ h1 l1, DoublyLinkedList.deleteFromBegin hd ld = .ok (h1, l1, true)
        ∧ l1.getSize = ld.getSize - 1
        ∧ DoublyLinkedList.WellFormed h1 l1 rest
        ∧ (rest = [] → l1.isEmpty = true))
    ∧ (∃ h1 l1, LListWithDummyNode.deleteFromBegin hs ls = .ok (h1, l1, true)
        ∧ l1.getSize = ls.getSize - 1
        ∧ LListWithDummyNode.WellFormed h1 l1 more
        ∧ (more = [] → LListWithDummyNode.isEmpty h1 l1 = .ok true)) := by
  constructor
  · obtain ⟨cells, hc, hx, hsz⟩ := hwd
    cases cells with
    | nil => simp at hx
    | cons c r =>
      simp only [List.map_cons, List.cons.injEq] at hx
      obtain ⟨h1, l1, cells1, hop, hsz1, hch, hdata, _⟩ :=
        DoublyLinkedList.dll_deleteFromBegin_exact hd ld c r hc
      have hw1 : DoublyLinkedList.WellFormed h1 l1 rest := by
        refine ⟨cells1, hch, by rw [hdata]; exact hx.2, ?_⟩
        rw [hsz1, hsz]
        simp
      refine ⟨h1, l1, hop, hsz1, hw1, ?_⟩
      intro hr
      exact hw1.linked.isEmpty_iff.mpr hr
  · obtain ⟨⟨dummy, cells, hc, hx⟩, hsz⟩ := hws
    cases cells with
    | nil => simp at hx
    | cons c r =>
      simp only [List.map_cons, List.cons.injEq] at hx
      obtain ⟨h1, dummy1, hop, hch, _⟩ :=
        LListWithDummyNode.sll_deleteFromBegin_exact hs ls dummy c r hc
      refine ⟨h1, _, hop, rfl, ⟨⟨dummy1, r, hch, hx.2⟩, ?_⟩, ?_⟩
      · show ls.mySize - 1 = _
        rw [hsz]
        simp
      · intro hr
        rw [hr] at hx
        have hrn : r = [] := by simpa using hx.2
        rw [hrn] at hch
        simp only [Chain] at hch
        simp only [LListWithDummyNode.isEmpty, hch.1, Heap.load_of_cell hch.2.1, hch.2.2, bind,
          Except.bind, pure, Except.pure]
        rfl

/-- Witness of C25: the sample lists 5, 7, 5 and 5, 7. -/
theorem deleteFromBegin_removes_first_witness :
    DoublyLinkedList.WellFormed DoublyLinkedList.sampleHeap DoublyLinkedList.sampleList
        (5 :: [7, 5])
      ∧ LListWithDummyNode.WellFormed LListWithDummyNode.sampleHeap
          LListWithDummyNode.sampleList (5 :: [7])
      ∧ ((∃ h1 l1, DoublyLinkedList.deleteFromBegin DoublyLinkedList.sampleHeap
              DoublyLinkedList.sampleList = .ok (h1, l1, true)
            ∧ l1.getSize = DoublyLinkedList.sampleList.getSize - 1
            ∧ DoublyLinkedList.WellFormed h1 l1 [7, 5]
            ∧ (([7, 5] : List Nat) = [] → l1.isEmpty = true))
        ∧ (∃ h1 l1, LListWithDummyNode.deleteFromBegin LListWithDummyNode.sampleHeap
              LListWithDummyNode.sampleList = .ok (h1, l1, true)
            ∧ l1.getSize = LListWithDummyNode.sampleList.getSize - 1
            ∧ LListWithDummyNode.WellFormed h1 l1 [7]
            ∧ (([7] : List Nat) = [] → LListWithDummyNode.isEmpty h1 l1 = .ok true))) :=
  ⟨DoublyLinkedList.dll_sample_wellFormed, LListWithDummyNode.sll_sample_wellFormed,
    deleteFromBegin_removes_first DoublyLinkedList.sampleHeap DoublyLinkedList.sampleList 5
      [7, 5] LListWithDummyNode.sampleHeap LListWithDummyNode.sampleList 5 [7]
      DoublyLinkedList.dll_sample_wellFormed LListWithDummyNode.sll_sample_wellFormed⟩

/-! ### searchAndRetreivePtr -/

theorem findIdx_split {β γ : Type} (f : β → γ) (p : γ → Bool) :
    ∀ (cells : List β) (i : Nat), (cells.map f).findIdx? p = some i →
      ∃ pre c post, cells = pre ++ c :: post ∧ pre.length = i ∧ p (f c) = true
        ∧ ∀ x ∈ pre, p (f x) = false
  | [], _, hf => by simp at hf
  | x :: r, i, hf => by
    simp only [List.map_cons, List.findIdx?_cons] at hf
    by_cases hx : p (f x) = true
    · simp only [hx, if_true, Option.some.injEq] at hf
      exact ⟨[], x, r, rfl, by simpa using hf, hx, by simp⟩
    · simp only [hx, Bool.false_eq_true, if_false, List.findIdx?_succ] at hf
      cases hr : (r.map f).findIdx? p with
      | none => rw [hr] at hf; simp at hf
      | some j =>
        rw [hr] at hf
        simp only [Option.map_some', Option.some.injEq] at hf
        obtain ⟨pre, c, post, hs, hl, hc, hpre⟩ := findIdx_split f p r j hr
        refine ⟨x :: pre, c, post, by rw [hs]; rfl, by simp [hl, hf], hc, ?_⟩
        intro y hy
        rcases List.mem_cons.mp hy with hy | hy
        · rw [hy]; simpa using hx
        · exact hpre y hy

/-- Writing the data member of the cell `c` of a chain changes the element at its position
and nothing else of the chain. -/
theorem Chain.write_data {ν : Type} {next : ν → Ptr} {h : Heap ν} {p : Ptr}
    {pre post : List (Nat × ν)} {c : Nat × ν} (n : ν) (hn : next n = next c.2)
    (hc : Chain next h p (pre ++ c :: post)) :
    Chain next (h.set c.1 (some n)) p (pre ++ (c.1, n) :: post) := by
  have hnd := hc.nodup
  have hcell : h[c.1]? = some (some c.2) :=
    Chain.cell_of_mem hc c (by simp)
  refine Chain.append_frame hc ?_ ?_
  · intro x hx
    have hne : c.1 ≠ x.1 := by
      intro he
      simp only [List.map_append, List.map_cons, List.nodup_append, List.Disjoint] at hnd
      exact hnd.2.2 (List.mem_map.mpr ⟨x, hx, rfl⟩) (by simp [he])
    rw [List.getElem?_set_ne hne]
  · simp only [Chain]
    refine ⟨trivial, Heap.cell_set_self _ hcell, ?_⟩
    rw [hn]
    have htail : ∃ q, Chain next h q (c :: post) := by
      clear hnd hcell
      induction pre generalizing p with
      | nil => exact ⟨p, hc⟩
      | cons x r ih =>
        simp only [List.cons_append, Chain] at hc
        exact ih hc.2.2
    obtain ⟨q, hq⟩ := htail
    simp only [Chain] at hq
    refine Chain.frame hq.2.2 ?_
    intro x hx
    have hne : c.1 ≠ x.1 := by
      intro he
      simp only [List.map_append, List.map_cons, List.nodup_append, List.nodup_cons] at hnd
      exact hnd.2.1.1 (by rw [he]; exact List.mem_map.mpr ⟨x, hx, rfl⟩)
    rw [List.getElem?_set_ne hne]

namespace DoublyLinkedList

variable {α : Type}

theorem dll_searchPtrLoop_chain [BEq α] {h : Heap (DNode α)} (e : α) :
    ∀ (rest : List (Nat × DNode α)) (b : Nat × DNode α) (k : Nat),
      h[b.1]? = some (some b.2) → Chain DNode.next h b.2.next rest → rest.length < k →
      searchPtrLoop h e k (some b.1)
        = .ok ((rest.find? (fun c => c.2.data == e)).map Prod.fst)
  | [], b, k, hb, hc, hk => by
    obtain ⟨k, rfl⟩ : ∃ j, k = j + 1 := ⟨k - 1, by simp at hk; omega⟩
    simp only [Chain] at hc
    simp only [searchPtrLoop, Heap.load_of_cell hb, hc, bind, Except.bind, pure, Except.pure]
    rfl
  | c :: r, b, k, hb, hc, hk => by
    obtain ⟨k, rfl⟩ : ∃ j, k = j + 1 := ⟨k - 1, by simp at hk; omega⟩
    simp only [Chain] at hc
    obtain ⟨hbn, hcc, ht⟩ := hc
    have ih := dll_searchPtrLoop_chain e r c k hcc ht
      (by simp only [List.length_cons] at hk; omega)
    by_cases hm : (c.2.data == e) = true
    · simp only [searchPtrLoop, Heap.load_of_cell hb, hbn, Heap.load_of_cell hcc, hm, bind,
        Except.bind, pure, Except.pure, if_true]
      simp [hm]
    · simp only [searchPtrLoop, Heap.load_of_cell hb, hbn, Heap.load_of_cell hcc, hm, bind,
        Except.bind, ih]
      simp [hm]

theorem dll_searchPtr_exact [BEq α] (h : Heap (DNode α)) (l : DoublyLinkedList) (v : α)
    (cells : List (Nat × DNode α)) (hc : Chain DNode.next h l.myFirst cells) :
    searchAndRetreivePtr h l v
      = .ok ((cells.find? (fun c => c.2.data == v)).map Prod.fst) := by
  cases cells with
  | nil =>
    simp only [Chain] at hc
    simp [searchAndRetreivePtr, isEmpty, hc]
  | cons c rest =>
    have hfuel := hc.length_lt_fuel
    simp only [Chain] at hc
    obtain ⟨hp, hcell, ht⟩ := hc
    by_cases hm : (c.2.data == v) = true
    · simp only [searchAndRetreivePtr, isEmpty, hp, Heap.load_of_cell hcell, hm, bind,
        Except.bind, pure, Except.pure]
      simp [hm]
    · have hl := dll_searchPtrLoop_chain v rest c h.fuel hcell ht
        (by simp only [List.length_cons] at hfuel; omega)
      simp only [searchAndRetreivePtr, isEmpty, hp, Heap.load_of_cell hcell, hm, bind,
        Except.bind, hl]
      simp [hm]

end DoublyLinkedList

namespace LListWithDummyNode

variable {α : Type}

theorem sll_searchPtrLoop_chain [BEq α] {h : Heap (Node α)} (e : α) :
    ∀ (rest : List (Nat × Node α)) (b : Nat × Node α) (k : Nat),
      h[b.1]? = some (some b.2) → Chain Node.next h b.2.next rest → rest.length < k →
      searchPtrLoop h e k (some b.1)
        = .ok ((rest.find? (fun c => c.2.data == e)).map Prod.fst)
  | [], b, k, hb, hc, hk => by
    obtain ⟨k, rfl⟩ : ∃ j, k = j + 1 := ⟨k - 1, by simp at hk; omega⟩
    simp only [Chain] at hc
    simp only [searchPtrLoop, Heap.load_of_cell hb, hc, bind, Except.bind, pure, Except.pure]
    rfl
  | c :: r, b, k, hb, hc, hk => by
    obtain ⟨k, rfl⟩ : ∃ j, k = j + 1 := ⟨k - 1, by simp at hk; omega⟩
    simp only [Chain] at hc
    obtain ⟨hbn, hcc, ht⟩ := hc
    have ih := sll_searchPtrLoop_chain e r c k hcc ht
      (by simp only [List.length_cons] at hk; omega)
    by_cases hm : (c.2.data == e) = true
    · simp only [searchPtrLoop, Heap.load_of_cell hb, hbn, Heap.load_of_cell hcc, hm, bind,
        Except.bind, pure, Except.pure, if_true]
      simp [hm]
    · simp only [searchPtrLoop, Heap.load_of_cell hb, hbn, Heap.load_of_cell hcc, hm, bind,
        Except.bind, ih]
      simp [hm]

theorem sll_searchPtr_exact [BEq α] (h : Heap (Node α)) (l : LListWithDummyNode) (v : α)
    (dummy : Nat × Node α) (cells : List (Nat × Node α))
    (hc : Chain Node.next h l.myFirst (dummy :: cells)) :
    searchAndRetreivePtr h l v
      = .ok ((cells.find? (fun c => c.2.data == v)).map Prod.fst) := by
  have hfuel := hc.length_lt_fuel
  simp only [Chain] at hc
  obtain ⟨hp, hdummy, ht⟩ := hc
  cases cells with
  | nil =>
    simp only [Chain] at ht
    simp only [searchAndRetreivePtr, isEmpty, hp, Heap.load_of_cell hdummy, ht, bind,
      Except.bind, pure, Except.pure]
    rfl
  | cons c rest =>
    simp only [Chain] at ht
    obtain ⟨hdn, hcell, ht2⟩ := ht
    by_cases hm : (c.2.data == v) = true
    · simp only [searchAndRetreivePtr, isEmpty, hp, Heap.load_of_cell hdummy, hdn,
        Heap.load_of_cell hcell, hm, bind, Except.bind, pure, Except.pure]
      simp [hm]
    · have hl := sll_searchPtrLoop_chain v rest c h.fuel hcell ht2
        (by simp only [List.length_cons] at hfuel; omega)
      simp only [searchAndRetreivePtr, isEmpty, hp, Heap.load_of_cell hdummy, hdn,
        Heap.load_of_cell hcell, hm, bind, Except.bind, pure, Except.pure, hl]
      simp [hm]

end LListWithDummyNode

/-- The pointer to the first cell of `cells` whose element equals `v`: it is null exactly when
no element matches, and otherwise it designates the cell at the index of the first match,
where a write to the data member changes that position of the chain only. -/
theorem Chain.first_match {ν α : Type} [BEq α] {next : ν → Ptr} (data : ν → α) {h : Heap ν}
    {p : Ptr} (pfx cells : List (Nat × ν)) (v : α)
    (hc : Chain next h p (pfx ++ cells)) :
    (((cells.find? (fun c => data c.2 == v)).map Prod.fst = none
        ↔ ∀ x ∈ cells.map (fun c => data c.2), (x == v) = false)
      ∧ ∀ i, (cells.map (fun c => data c.2)).findIdx? (fun x => x == v) = some i →
        ∃ c : Nat × ν, (cells.find? (fun c => data c.2 == v)).map Prod.fst = some c.1
          ∧ h[c.1]? = some (some c.2)
          ∧ (cells.map (fun c => data c.2))[i]? = some (data c.2)
          ∧ ∀ (n : ν) (u : α), next n = next c.2 → data n = u →
            ∃ cells1, Chain next (h.set c.1 (some n)) p (pfx ++ cells1)
              ∧ cells1.map (fun c => data c.2) = (cells.map (fun c => data c.2)).set i u) := by
  constructor
  · simp only [Option.map_eq_none', List.find?_eq_none, List.mem_map, forall_exists_index,
      and_imp, forall_apply_eq_imp_iff₂, Bool.not_eq_true]
  · intro i hi
    obtain ⟨pre, c, post, rfl, hl, hcm, hpre⟩ :=
      findIdx_split (fun c : Nat × ν => data c.2) (fun x => x == v) cells i hi
    have hc' : Chain next h p ((pfx ++ pre) ++ c :: post) := by simpa using hc
    refine ⟨c, ?_, Chain.cell_of_mem hc' c (by simp), ?_, ?_⟩
    · have hnone : pre.find? (fun c => data c.2 == v) = none := by
        rw [List.find?_eq_none]
        intro x hx
        simpa using hpre x hx
      simp [List.find?_append, hnone, hcm]
    · rw [← hl]
      simp only [List.map_append, List.map_cons]
      rw [List.getElem?_append_right (by simp)]
      simp
    · intro n u hn hu
      refine ⟨pre ++ (c.1, n) :: post, ?_, ?_⟩
      · have := Chain.write_data n hn hc'
        simpa using this
      · rw [← hl]
        simp [hu]

/-- C21: for both container kinds, on every list whose nodes form a chain with elements `xs`
and for every value `v`, `searchAndRetreivePtr(v)` returns the null pointer exactly when no
element of `xs` equals `v`; otherwise it returns a pointer to the node at the index `i` of the
first element equal to `v`, and a write of `u` through that pointer leaves the list with the
elements `xs` where position `i` holds `u` and every other position is as before. -/
theorem searchAndRetreivePtr_first_match {α : Type} [BEq α]
    (hd : Heap (DNode α)) (ld : DoublyLinkedList) (xs : List α)
    (hs : Heap (Node α)) (ls : LListWithDummyNode) (ys : List α) (v w : α)
    (hxd : DoublyLinkedList.Holds hd ld xs) (hxs : LListWithDummyNode.Holds hs ls ys) :
    ((DoublyLinkedList.searchAndRetreivePtr hd ld v = .ok none
          ↔ ∀ x ∈ xs, (x == v) = false)
      ∧ ∀ i, xs.findIdx? (fun x => x == v) = some i →
          ∃ a n, DoublyLinkedList.searchAndRetreivePtr hd ld v = .ok (some a)
            ∧ hd.load (some a) = .ok n ∧ xs[i]? = some n.data
            ∧ ∀ u : α, ∃ h1, hd.modify (some a) (fun n => { n with data := u }) = .ok h1
                ∧ DoublyLinkedList.Holds h1 ld (xs.set i u))
    ∧ ((LListWithDummyNode.searchAndRetreivePtr hs ls w = .ok none
          ↔ ∀ y ∈ ys, (y == w) = false)
      ∧ ∀ i, ys.findIdx? (fun y => y == w) = some i →
          ∃ a n, LListWithDummyNode.searchAndRetreivePtr hs ls w = .ok (some a)
            ∧ hs.load (some a) = .ok n ∧ ys[i]? = some n.data
            ∧ ∀ u : α, ∃ h1, hs.modify (some a) (fun n => { n with data := u }) = .ok h1
                ∧ LListWithDummyNode.Holds h1 ls (ys.set i u)) := by
  constructor
  · obtain ⟨cells, hc, rfl⟩ := hxd
    have hres := DoublyLinkedList.dll_searchPtr_exact hd ld v cells hc
    obtain ⟨hnone, hsome⟩ := Chain.first_match DNode.data [] cells v (by simpa using hc)
    rw [hres]
    refine ⟨?_, ?_⟩
    · rw [← hnone]
      simp only [Except.ok.injEq]
    · intro i hi
      obtain ⟨c, hr, hcell, hidx, hwr⟩ := hsome i hi
      refine ⟨c.1, c.2, by rw [hr], Heap.load_of_cell hcell, hidx, ?_⟩
      intro u
      refine ⟨_, Heap.modify_of_cell hcell (fun n => { n with data := u }), ?_⟩
      obtain ⟨cells1, hch, hdata⟩ := hwr { c.2 with data := u } u rfl rfl
      exact ⟨cells1, by simpa using hch, hdata⟩
  · obtain ⟨dummy, cells, hc, rfl⟩ := hxs
    have hres := LListWithDummyNode.sll_searchPtr_exact hs ls w dummy cells hc
    obtain ⟨hnone, hsome⟩ := Chain.first_match Node.data [dummy] cells w (by simpa using hc)
    rw [hres]
    refine ⟨?_, ?_⟩
    · rw [← hnone]
      simp only [Except.ok.injEq]
    · intro i hi
      obtain ⟨c, hr, hcell, hidx, hwr⟩ := hsome i hi
      refine ⟨c.1, c.2, by rw [hr], Heap.load_of_cell hcell, hidx, ?_⟩
      intro u
      refine ⟨_, Heap.modify_of_cell hcell (fun n => { n with data := u }), ?_⟩
      obtain ⟨cells1, hch, hdata⟩ := hwr { c.2 with data := u } u rfl rfl
      exact ⟨dummy, cells1, by simpa using hch, hdata⟩

/-- Witness of C21: the value 7 in the sample lists 5, 7, 5 and 5, 7. -/
theorem searchAndRetreivePtr_first_match_witness :
    DoublyLinkedList.Holds DoublyLinkedList.sampleHeap DoublyLinkedList.sampleList [5, 7, 5]
      ∧ LListWithDummyNode.Holds LListWithDummyNode.sampleHeap LListWithDummyNode.sampleList
          [5, 7]
      ∧ (((DoublyLinkedList.searchAndRetreivePtr DoublyLinkedList.sampleHeap
              DoublyLinkedList.sampleList 7 = .ok none
            ↔ ∀ x ∈ ([5, 7, 5] : List Nat), (x == 7) = false)
        ∧ ∀ i, ([5, 7, 5] : List Nat).findIdx? (fun x => x == 7) = some i →
            ∃ a n, DoublyLinkedList.searchAndRetreivePtr DoublyLinkedList.sampleHeap
                DoublyLinkedList.sampleList 7 = .ok (some a)
              ∧ DoublyLinkedList.sampleHeap.load (some a) = .ok n
              ∧ ([5, 7, 5] : List Nat)[i]? = some n.data
              ∧ ∀ u : Nat, ∃ h1, DoublyLinkedList.sampleHeap.modify (some a)
                    (fun n => { n with data := u }) = .ok h1
                  ∧ DoublyLinkedList.Holds h1 DoublyLinkedList.sampleList
                      (([5, 7, 5] : List Nat).set i u))
      ∧ ((LListWithDummyNode.searchAndRetreivePtr LListWithDummyNode.sampleHeap
              LListWithDummyNode.sampleList 7 = .ok none
            ↔ ∀ y ∈ ([5, 7] : List Nat), (y == 7) = false)
        ∧ ∀ i, ([5, 7] : List Nat).findIdx? (fun y => y == 7) = some i →
            ∃ a n, LListWithDummyNode.searchAndRetreivePtr LListWithDummyNode.sampleHeap
                LListWithDummyNode.sampleList 7 = .ok (some a)
              ∧ LListWithDummyNode.sampleHeap.load (some a) = .ok n
              ∧ ([5, 7] : List Nat)[i]? = some n.data
              ∧ ∀ u : Nat, ∃ h1, LListWithDummyNode.sampleHeap.modify (some a)
                    (fun n => { n with data := u }) = .ok h1
                  ∧ LListWithDummyNode.Holds h1 LListWithDummyNode.sampleList
                      (([5, 7] : List Nat).set i u))) :=
  ⟨DoublyLinkedList.dll_sample_wellFormed.holds, LListWithDummyNode.sll_sample_wellFormed.1,
    searchAndRetreivePtr_first_match DoublyLinkedList.sampleHeap DoublyLinkedList.sampleList
      [5, 7, 5] LListWithDummyNode.sampleHeap LListWithDummyNode.sampleList [5, 7] 7 7
      DoublyLinkedList.dll_sample_wellFormed.holds LListWithDummyNode.sll_sample_wellFormed.1⟩

/-! ### Self-assignment and displayList -/

/-- C28: for both container kinds and every list object (in any heap), the self-assignment
`A = A`, in which the test `this != &comparisonList` fails, returns with the heap and the data
members of `A`, hence its size and element sequence, as they were. -/
theorem self_assignment_noop {α : Type}
    (hd : Heap (DNode α)) (ld : DoublyLinkedList)
    (hs : Heap (Node α)) (ls : LListWithDummyNode) :
    DoublyLinkedList.assign hd ld true ld = .ok (hd, ld)
      ∧ LListWithDummyNode.assign hs ls true ls = .ok (hs, ls) :=
  ⟨rfl, rfl⟩

namespace DoublyLinkedList

variable {α : Type}

theorem dll_displayLoop_chain {h : Heap (DNode α)} (show1 : α → String) :
    ∀ (cells : List (Nat × DNode α)) (p : Ptr) (k : Nat) (out : List String),
      Chain DNode.next h p cells → cells.length < k →
      displayLoop h show1 k p out
        = .ok (out ++ (cells.map (fun c => c.2.data)).flatMap (fun x => [show1 x, "\n"]))
  | [], p, k, out, hc, hk => by
    obtain ⟨k, rfl⟩ : ∃ j, k = j + 1 := ⟨k - 1, by simp at hk; omega⟩
    simp only [Chain] at hc
    subst hc
    simp [displayLoop]
  | c :: rest, p, k, out, hc, hk => by
    obtain ⟨k, rfl⟩ : ∃ j, k = j + 1 := ⟨k - 1, by simp at hk; omega⟩
    simp only [Chain] at hc
    obtain ⟨hp, hcell, ht⟩ := hc
    subst hp
    have ih := dll_displayLoop_chain show1 rest c.2.next k (out ++ [show1 c.2.data, "\n"]) ht
      (by simp only [List.length_cons] at hk; omega)
    simp only [displayLoop, Heap.load_of_cell hcell, bind, Except.bind, ih]
    simp

/-- C30: on every DoublyLinkedList whose nodes form a chain with elements `xs`, `displayList`
appends to the stream exactly the text "Empty List" when the list is empty, and otherwise, in
head-to-tail order, the textual form of each element followed by one line break and nothing
else.  `displayList` is a `const` member: it reads the heap and returns the stream only, so
the list is unchanged. -/
theorem dll_displayList_output (h : Heap (DNode α)) (l : DoublyLinkedList) (xs : List α)
    (show1 : α → String) (out : List String) (hx : Holds h l xs) :
    (xs = [] → l.isEmpty = true ∧ displayList h l show1 out = .ok (out ++ ["Empty List"]))
      ∧ (xs ≠ [] → l.isEmpty = false
          ∧ displayList h l show1 out
            = .ok (out ++ xs.flatMap (fun x => [show1 x, "\n"]))) := by
  obtain ⟨cells, hc, rfl⟩ := hx
  cases cells with
  | nil =>
    simp only [Chain] at hc
    simp [displayList, isEmpty, hc]
  | cons c rest =>
    have hl := dll_displayLoop_chain show1 (c :: rest) l.myFirst h.fuel out hc
      hc.length_lt_fuel
    simp only [Chain] at hc
    have he : l.isEmpty = false := by simp [isEmpty, hc.1]
    refine ⟨by simp, fun _ => ⟨he, ?_⟩⟩
    simp only [displayList, he, Bool.false_eq_true, if_false, hl]

/-- Witness of C30: the sample list 5, 7, 5 written with the decimal form of the elements. -/
theorem dll_displayList_output_witness :
    Holds sampleHeap sampleList [5, 7, 5]
      ∧ ((([5, 7, 5] : List Nat) = [] → sampleList.isEmpty = true
            ∧ displayList sampleHeap sampleList (fun n => toString n) []
              = .ok ([] ++ ["Empty List"]))
        ∧ (([5, 7, 5] : List Nat) ≠ [] → sampleList.isEmpty = false
            ∧ displayList sampleHeap sampleList (fun n => toString n) []
              = .ok ([] ++ ([5, 7, 5] : List Nat).flatMap
                  (fun x => [(fun n => toString n) x, "\n"])))) :=
  ⟨dll_sample_wellFormed.holds,
    dll_displayList_output sampleHeap sampleList [5, 7, 5] (fun n => toString n) []
      dll_sample_wellFormed.holds⟩

end DoublyLinkedList

/-! ### Closed sets of addresses -/

theorem bind_eq_ok {ε β γ : Type} (x : Except ε β) (f : β → Except ε γ) (c : γ) :
    (x >>= f) = .ok c ↔ ∃ b, x = .ok b ∧ f b = .ok c := by
  cases x <;> simp [bind, Except.bind]

theorem PtrIn.none (S : Nat → Prop) : PtrIn S none := by
  intro a ha
  cases ha

theorem PtrIn.some {S : Nat → Prop} {a : Nat} (ha : S a) : PtrIn S (some a) := by
  intro b hb
  cases hb
  exact ha

theorem Same.refl {ν : Type} (S : Nat → Prop) (h : Heap ν) : Same S h h :=
  fun _ _ => rfl

theorem Same.trans {ν : Type} {S : Nat → Prop} {h h1 h2 : Heap ν}
    (h01 : Same S h h1) (h12 : Same S h1 h2) : Same S h h2 :=
  fun a ha => (h12 a ha).trans (h01 a ha)

theorem Closed.load {ν : Type} {links : ν → List Ptr} {S : Nat → Prop} {h : Heap ν}
    (hc : Closed links S h) {p : Ptr} {n : ν} (hp : PtrIn S p) (hl : h.load p = .ok n) :
    ∀ q ∈ links n, PtrIn S q := by
  obtain ⟨a, rfl, hcell⟩ := Heap.cell_of_load hl
  exact hc.2 a n (hp a rfl) hcell

theorem Closed.modify {ν : Type} {links : ν → List Ptr} {S : Nat → Prop} {h h1 : Heap ν}
    (hc : Closed links S h) {p : Ptr} {f : ν → ν} (hp : PtrIn S p)
    (hm : h.modify p f = .ok h1)
    (hf : ∀ n, (∀ q ∈ links n, PtrIn S q) → ∀ q ∈ links (f n), PtrIn S q) :
    Closed links S h1 ∧ Same S h h1 := by
  cases hl : h.load p with
  | error e => simp [Heap.modify, hl] at hm
  | ok n =>
    obtain ⟨a, rfl, hcell⟩ := Heap.cell_of_load hl
    rw [Heap.modify_of_cell hcell] at hm
    cases hm
    have hSa : S a := hp a rfl
    refine ⟨⟨fun b hb => hc.1 b (by simpa using hb), ?_⟩, ?_⟩
    · intro b m hb hbm
      by_cases hba : b = a
      · subst hba
        rw [Heap.cell_set_self _ hcell] at hbm
        cases hbm
        exact hf n (hc.2 b n hSa hcell)
      · rw [List.getElem?_set_ne (Ne.symm hba)] at hbm
        exact hc.2 b m hb hbm
    · intro b hb
      have hba : b ≠ a := fun he => hb (he ▸ hSa)
      exact List.getElem?_set_ne (Ne.symm hba)

theorem Closed.free {ν : Type} {links : ν → List Ptr} {S : Nat → Prop} {h h1 : Heap ν}
    (hc : Closed links S h) {p : Ptr} (hp : PtrIn S p) (hm : h.free p = .ok h1) :
    Closed links S h1 ∧ Same S h h1 := by
  cases p with
  | none =>
    cases hm
    exact ⟨hc, Same.refl S h⟩
  | some a =>
    have hSa : S a := hp a rfl
    simp only [Heap.free] at hm
    split at hm
    · cases hm
      refine ⟨⟨fun b hb => hc.1 b (by simpa using hb), ?_⟩, ?_⟩
      · intro b m hb hbm
        by_cases hba : b = a
        · subst hba
          have hlt : b < h.length := by
            by_contra hge
            rw [List.getElem?_eq_none (by simpa using hge)] at hbm
            cases hbm
          rw [List.getElem?_set_eq_of_lt _ hlt] at hbm
          cases hbm
        · rw [List.getElem?_set_ne (Ne.symm hba)] at hbm
          exact hc.2 b m hb hbm
      · intro b hb
        have hba : b ≠ a := fun he => hb (he ▸ hSa)
        exact List.getElem?_set_ne (Ne.symm hba)
    · cases hm

theorem Closed.alloc {ν : Type} {links : ν → List Ptr} {S : Nat → Prop} {h : Heap ν}
    (hc : Closed links S h) (n : ν) (hn : ∀ q ∈ links n, PtrIn S q) :
    Closed links S (h.alloc n).1 ∧ Same S h (h.alloc n).1 ∧ S (h.alloc n).2 := by
  have hS : S h.length := hc.1 _ (le_refl _)
  refine ⟨⟨fun b hb => hc.1 b ?_, ?_⟩, ?_, hS⟩
  · simp only [Heap.alloc, List.length_append, List.length_singleton] at hb
    omega
  · intro b m hb hbm
    by_cases hlt : b < h.length
    · rw [Heap.cell_alloc_frame h n hlt] at hbm
      exact hc.2 b m hb hbm
    · by_cases hbe : b = h.length
      · subst hbe
        have := Heap.cell_alloc_new h n
        simp only [Heap.alloc] at this hbm
        rw [this] at hbm
        cases hbm
        exact hn
      · rw [List.getElem?_eq_none] at hbm
        · cases hbm
        · simp only [Heap.alloc, List.length_append, List.length_singleton]
          omega
  · intro b hb
    have hlt : b < h.length := by
      by_contra hge
      exact hb (hc.1 b (by omega))
    exact Heap.cell_alloc_frame h n hlt

/-! ### The mutators stay inside a closed set of addresses -/

namespace DoublyLinkedList

variable {α : Type}

theorem dll_links_iff {S : Nat → Prop} (n : DNode α) :
    (∀ q ∈ DNode.links n, PtrIn S q) ↔ PtrIn S n.next ∧ PtrIn S n.prev := by
  simp [DNode.links]

theorem dll_walkToLast_closed {S : Nat → Prop} {h : Heap (DNode α)}
    (hc : Closed DNode.links S h) :
    ∀ (k : Nat) (p q : Ptr), PtrIn S p → walkToLast k h p = .ok q → PtrIn S q
  | 0, p, q, _, hw => by simp [walkToLast] at hw
  | k + 1, p, q, hp, hw => by
    simp only [walkToLast, bind_eq_ok] at hw
    obtain ⟨n, hl, hw⟩ := hw
    have hn := (dll_links_iff n).1 (hc.load hp hl)
    split at hw
    · simp only [pure, Except.pure, Except.ok.injEq] at hw
      subst hw
      exact hp
    · rename_i b hb
      exact dll_walkToLast_closed hc k _ _ (hb ▸ hn.1) hw

theorem dll_advance_closed {S : Nat → Prop} {h : Heap (DNode α)}
    (hc : Closed DNode.links S h) :
    ∀ (k : Nat) (p q : Ptr), PtrIn S p → advance h k p = .ok q → PtrIn S q
  | 0, p, q, hp, hw => by
    simp only [advance, Except.ok.injEq] at hw
    subst hw
    exact hp
  | k + 1, p, q, hp, hw => by
    simp only [advance, bind_eq_ok] at hw
    obtain ⟨n, hl, hw⟩ := hw
    have hn := (dll_links_iff n).1 (hc.load hp hl)
    exact dll_advance_closed hc k _ _ hn.1 hw

theorem dll_insertAtBegin_closed {S : Nat → Prop} {h h1 : Heap (DNode α)}
    {l l1 : DoublyLinkedList} {v : α} {r : Bool}
    (hc : Closed DNode.links S h) (hp : PtrIn S l.myFirst)
    (hr : insertAtBegin h l v = .ok (h1, l1, r)) :
    Closed DNode.links S h1 ∧ PtrIn S l1.myFirst ∧ Same S h h1 := by
  obtain ⟨hc1, hs1, hS⟩ := hc.alloc (DNode.mk1 v)
    ((dll_links_iff _).2 ⟨PtrIn.none S, PtrIn.none S⟩)
  simp only [insertAtBegin] at hr
  split at hr
  · simp only [Except.ok.injEq, Prod.mk.injEq] at hr
    obtain ⟨rfl, rfl, rfl⟩ := hr
    exact ⟨hc1, PtrIn.some hS, hs1⟩
  · simp only [bind_eq_ok] at hr
    obtain ⟨h2, hm2, h3, hm3, hr⟩ := hr
    simp only [pure, Except.pure, Except.ok.injEq, Prod.mk.injEq] at hr
    obtain ⟨rfl, rfl, rfl⟩ := hr
    obtain ⟨hc2, hs2⟩ := hc1.modify (PtrIn.some hS) hm2
      (fun n hn => (dll_links_iff _).2 ⟨hp, ((dll_links_iff n).1 hn).2⟩)
    obtain ⟨hc3, hs3⟩ := hc2.modify hp hm3
      (fun n hn => (dll_links_iff _).2 ⟨((dll_links_iff n).1 hn).1, PtrIn.some hS⟩)
    exact ⟨hc3, PtrIn.some hS, (hs1.trans hs2).trans hs3⟩

theorem dll_insertAtEnd_closed {S : Nat → Prop} {h h1 : Heap (DNode α)}
    {l l1 : DoublyLinkedList} {v : α} {r : Bool}
    (hc : Closed DNode.links S h) (hp : PtrIn S l.myFirst)
    (hr : insertAtEnd h l v = .ok (h1, l1, r)) :
    Closed DNode.links S h1 ∧ PtrIn S l1.myFirst ∧ Same S h h1 := by
  obtain ⟨hc1, hs1, hS⟩ := hc.alloc (DNode.mk1 v)
    ((dll_links_iff _).2 ⟨PtrIn.none S, PtrIn.none S⟩)
  simp only [insertAtEnd] at hr
  split at hr
  · simp only [Except.ok.injEq, Prod.mk.injEq] at hr
    obtain ⟨rfl, rfl, rfl⟩ := hr
    exact ⟨hc1, PtrIn.some hS, hs1⟩
  · simp only [bind_eq_ok] at hr
    obtain ⟨t, hw, h2, hm2, h3, hm3, hr⟩ := hr
    simp only [pure, Except.pure, Except.ok.injEq, Prod.mk.injEq] at hr
    obtain ⟨rfl, rfl, rfl⟩ := hr
    have ht := dll_walkToLast_closed hc1 _ _ _ hp hw
    obtain ⟨hc2, hs2⟩ := hc1.modify ht hm2
      (fun n hn => (dll_links_iff _).2 ⟨PtrIn.some hS, ((dll_links_iff n).1 hn).2⟩)
    obtain ⟨hc3, hs3⟩ := hc2.modify (PtrIn.some hS) hm3
      (fun n hn => (dll_links_iff _).2 ⟨((dll_links_iff n).1 hn).1, ht⟩)
    exact ⟨hc3, hp, (hs1.trans hs2).trans hs3⟩

theorem dll_deleteFromBegin_closed {S : Nat → Prop} {h h1 : Heap (DNode α)}
    {l l1 : DoublyLinkedList} {r : Bool}
    (hc : Closed DNode.links S h) (hp : PtrIn S l.myFirst)
    (hr : deleteFromBegin h l = .ok (h1, l1, r)) :
    Closed DNode.links S h1 ∧ PtrIn S l1.myFirst ∧ Same S h h1 := by
  simp only [deleteFromBegin] at hr
  split at hr
  · simp only [Except.ok.injEq, Prod.mk.injEq] at hr
    obtain ⟨rfl, rfl, rfl⟩ := hr
    exact ⟨hc, hp, Same.refl S h⟩
  · simp only [bind_eq_ok] at hr
    obtain ⟨first, hl, hr⟩ := hr
    have hn := (dll_links_iff first).1 (hc.load hp hl)
    split at hr
    · simp only [bind_eq_ok] at hr
      obtain ⟨h2, hf, hr⟩ := hr
      simp only [pure, Except.pure, Except.ok.injEq, Prod.mk.injEq] at hr
      obtain ⟨rfl, rfl, rfl⟩ := hr
      obtain ⟨hc2, hs2⟩ := hc.free hp hf
      exact ⟨hc2, PtrIn.none S, hs2⟩
    · rename_i b hb
      simp only [bind_eq_ok] at hr
      obtain ⟨h2, hm, h3, hf, hr⟩ := hr
      simp only [pure, Except.pure, Except.ok.injEq, Prod.mk.injEq] at hr
      obtain ⟨rfl, rfl, rfl⟩ := hr
      have hb' : PtrIn S (some b) := hb ▸ hn.1
      obtain ⟨hc2, hs2⟩ := hc.modify hb' hm
        (fun n hn => (dll_links_iff _).2 ⟨((dll_links_iff n).1 hn).1, PtrIn.none S⟩)
      obtain ⟨hc3, hs3⟩ := hc2.free hp hf
      exact ⟨hc3, hb', hs2.trans hs3⟩

theorem dll_deleteFromEnd_closed {S : Nat → Prop} {h h1 : Heap (DNode α)}
    {l l1 : DoublyLinkedList} {r : Bool}
    (hc : Closed DNode.links S h) (hp : PtrIn S l.myFirst)
    (hr : deleteFromEnd h l = .ok (h1, l1, r)) :
    Closed DNode.links S h1 ∧ PtrIn S l1.myFirst ∧ Same S h h1 := by
  simp only [deleteFromEnd] at hr
  split at hr
  · simp only [Except.ok.injEq, Prod.mk.injEq] at hr
    obtain ⟨rfl, rfl, rfl⟩ := hr
    exact ⟨hc, hp, Same.refl S h⟩
  · simp only [bind_eq_ok] at hr
    obtain ⟨first, hl, hr⟩ := hr
    split at hr
    · simp only [bind_eq_ok] at hr
      obtain ⟨h2, hf, hr⟩ := hr
      simp only [pure, Except.pure, Except.ok.injEq, Prod.mk.injEq] at hr
      obtain ⟨rfl, rfl, rfl⟩ := hr
      obtain ⟨hc2, hs2⟩ := hc.free hp hf
      exact ⟨hc2, PtrIn.none S, hs2⟩
    · simp only [bind_eq_ok] at hr
      obtain ⟨t, hw, last, hll, h2, hm, h3, hf, hr⟩ := hr
      simp only [pure, Except.pure, Except.ok.injEq, Prod.mk.injEq] at hr
      obtain ⟨rfl, rfl, rfl⟩ := hr
      have ht := dll_walkToLast_closed hc _ _ _ hp hw
      have hlast := (dll_links_iff last).1 (hc.load ht hll)
      obtain ⟨hc2, hs2⟩ := hc.modify hlast.2 hm
        (fun n hn => (dll_links_iff _).2 ⟨PtrIn.none S, ((dll_links_iff n).1 hn).2⟩)
      obtain ⟨hc3, hs3⟩ := hc2.free ht hf
      exact ⟨hc3, hp, hs2.trans hs3⟩

theorem dll_deleteAtElementLoop_closed [BEq α] {S : Nat → Prop} (e : α) :
    ∀ (k : Nat) (h h1 : Heap (DNode α)) (p : Ptr) (b : Bool),
      Closed DNode.links S h → PtrIn S p → deleteAtElementLoop e k h p = .ok (h1, b) →
      Closed DNode.links S h1 ∧ Same S h h1
  | 0, h, h1, p, b, _, _, hr => by simp [deleteAtElementLoop] at hr
  | k + 1, h, h1, none, b, hc, _, hr => by
    simp only [deleteAtElementLoop, Except.ok.injEq, Prod.mk.injEq] at hr
    obtain ⟨rfl, rfl⟩ := hr
    exact ⟨hc, Same.refl S h⟩
  | k + 1, h, h1, some a, b, hc, hp, hr => by
    simp only [deleteAtElementLoop, bind_eq_ok] at hr
    obtain ⟨t, hl, hr⟩ := hr
    have ht := (dll_links_iff t).1 (hc.load hp hl)
    split at hr
    · simp only [bind_eq_ok] at hr
      obtain ⟨h2, hm2, t1, hl1, h3, hm3, h4, hf, hr⟩ := hr
      simp only [pure, Except.pure, Except.ok.injEq, Prod.mk.injEq] at hr
      obtain ⟨rfl, rfl⟩ := hr
      obtain ⟨hc2, hs2⟩ := hc.modify ht.2 hm2
        (fun n hn => (dll_links_iff _).2 ⟨ht.1, ((dll_links_iff n).1 hn).2⟩)
      have ht1 := (dll_links_iff t1).1 (hc2.load hp hl1)
      obtain ⟨hc3, hs3⟩ := hc2.modify ht1.1 hm3
        (fun n hn => (dll_links_iff _).2 ⟨((dll_links_iff n).1 hn).1, ht1.2⟩)
      obtain ⟨hc4, hs4⟩ := hc3.free hp hf
      exact ⟨hc4, (hs2.trans hs3).trans hs4⟩
    · exact dll_deleteAtElementLoop_closed e k h h1 _ b hc ht.1 hr

theorem dll_deleteAtElement_closed [BEq α] {S : Nat → Prop} {h h1 : Heap (DNode α)}
    {l l1 : DoublyLinkedList} {e : α} {r : Bool}
    (hc : Closed DNode.links S h) (hp : PtrIn S l.myFirst)
    (hr : deleteAtElement h l e = .ok (h1, l1, r)) :
    Closed DNode.links S h1 ∧ PtrIn S l1.myFirst ∧ Same S h h1 := by
  simp only [deleteAtElement] at hr
  split at hr
  · simp only [Except.ok.injEq, Prod.mk.injEq] at hr
    obtain ⟨rfl, rfl, rfl⟩ := hr
    exact ⟨hc, hp, Same.refl S h⟩
  · simp only [bind_eq_ok] at hr
    obtain ⟨temp, hl, hr⟩ := hr
    split at hr
    · exact dll_deleteFromBegin_closed hc hp hr
    · simp only [bind_eq_ok] at hr
      obtain ⟨⟨h2, found⟩, hloop, hr⟩ := hr
      obtain ⟨hc2, hs2⟩ := dll_deleteAtElementLoop_closed e _ _ _ _ _ hc hp hloop
      split at hr
      · simp only [pure, Except.pure, Except.ok.injEq, Prod.mk.injEq] at hr
        obtain ⟨rfl, rfl, rfl⟩ := hr
        exact ⟨hc2, hp, hs2⟩
      · simp only [pure, Except.pure, Except.ok.injEq, Prod.mk.injEq] at hr
        obtain ⟨rfl, rfl, rfl⟩ := hr
        exact ⟨hc2, hp, hs2⟩

theorem dll_deleteAtIndex_closed {S : Nat → Prop} {h h1 : Heap (DNode α)}
    {l l1 : DoublyLinkedList} {index : Nat} {r : Bool}
    (hc : Closed DNode.links S h) (hp : PtrIn S l.myFirst)
    (hr : deleteAtIndex h l index = .ok (h1, l1, r)) :
    Closed DNode.links S h1 ∧ PtrIn S l1.myFirst ∧ Same S h h1 := by
  simp only [deleteAtIndex] at hr
  split at hr
  · simp only [Except.ok.injEq, Prod.mk.injEq] at hr
    obtain ⟨rfl, rfl, rfl⟩ := hr
    exact ⟨hc, hp, Same.refl S h⟩
  split at hr
  · simp only [Except.ok.injEq, Prod.mk.injEq] at hr
    obtain ⟨rfl, rfl, rfl⟩ := hr
    exact ⟨hc, hp, Same.refl S h⟩
  split at hr
  · simp only [bind_eq_ok] at hr
    obtain ⟨t, hl, hr⟩ := hr
    have ht := (dll_links_iff t).1 (hc.load hp hl)
    split at hr
    · rename_i b hb
      simp only [bind_eq_ok] at hr
      obtain ⟨h2, hm, h3, hf, hr⟩ := hr
      simp only [pure, Except.pure, Except.ok.injEq, Prod.mk.injEq] at hr
      obtain ⟨rfl, rfl, rfl⟩ := hr
      obtain ⟨hc2, hs2⟩ := hc.modify (PtrIn.some (ht.1 b hb)) hm
        (fun n hn => (dll_links_iff _).2 ⟨((dll_links_iff n).1 hn).1, PtrIn.none S⟩)
      obtain ⟨hc3, hs3⟩ := hc2.free hp hf
      exact ⟨hc3, ht.1, hs2.trans hs3⟩
    · simp only [bind_eq_ok] at hr
      obtain ⟨h2, hm, h3, hf, hr⟩ := hr
      simp only [pure, Except.pure, Except.ok.injEq, Prod.mk.injEq] at hr hm
      obtain ⟨rfl, rfl, rfl⟩ := hr
      subst hm
      obtain ⟨hc3, hs3⟩ := hc.free hp hf
      exact ⟨hc3, ht.1, hs3⟩
  · simp only [bind_eq_ok] at hr
    obtain ⟨temp, ha, t, hl, h2, hm2, t1, hl1, hr⟩ := hr
    have htemp := dll_advance_closed hc _ _ _ hp ha
    have ht := (dll_links_iff t).1 (hc.load htemp hl)
    obtain ⟨hc2, hs2⟩ := hc.modify ht.2 hm2
      (fun n hn => (dll_links_iff _).2 ⟨ht.1, ((dll_links_iff n).1 hn).2⟩)
    have ht1 := (dll_links_iff t1).1 (hc2.load htemp hl1)
    split at hr
    · rename_i b hb
      simp only [bind_eq_ok] at hr
      obtain ⟨h3, hm3, h4, hf, hr⟩ := hr
      simp only [pure, Except.pure, Except.ok.injEq, Prod.mk.injEq] at hr
      obtain ⟨rfl, rfl, rfl⟩ := hr
      obtain ⟨hc3, hs3⟩ := hc2.modify (PtrIn.some (ht1.1 b hb)) hm3
        (fun n hn => (dll_links_iff _).2 ⟨((dll_links_iff n).1 hn).1, ht1.2⟩)
      obtain ⟨hc4, hs4⟩ := hc3.free htemp hf
      exact ⟨hc4, hp, (hs2.trans hs3).trans hs4⟩
    · simp only [bind_eq_ok] at hr
      obtain ⟨h3, hm3, h4, hf, hr⟩ := hr
      simp only [pure, Except.pure, Except.ok.injEq, Prod.mk.injEq] at hr hm3
      obtain ⟨rfl, rfl, rfl⟩ := hr
      subst hm3
      obtain ⟨hc4, hs4⟩ := hc2.free htemp hf
      exact ⟨hc4, hp, hs2.trans hs4⟩

theorem dll_run_closed [BEq α] {S : Nat → Prop} {h h1 : Heap (DNode α)}
    {l l1 : DoublyLinkedList} {c : Call α} {r : Bool}
    (hc : Closed DNode.links S h) (hp : PtrIn S l.myFirst)
    (hr : run h l c = .ok (h1, l1, r)) :
    Closed DNode.links S h1 ∧ PtrIn S l1.myFirst ∧ Same S h h1 := by
  cases c with
  | insertAtBegin v => exact dll_insertAtBegin_closed hc hp hr
  | insertAtEnd v => exact dll_insertAtEnd_closed hc hp hr
  | deleteFromBegin => exact dll_deleteFromBegin_closed hc hp hr
  | deleteFromEnd => exact dll_deleteFromEnd_closed hc hp hr
  | deleteAtElement e => exact dll_deleteAtElement_closed hc hp hr
  | deleteAtIndex i => exact dll_deleteAtIndex_closed hc hp hr

theorem dll_runAll_closed [BEq α] {S : Nat → Prop} :
    ∀ (cs : List (Call α)) (h h1 : Heap (DNode α)) (l l1 : DoublyLinkedList),
      Closed DNode.links S h → PtrIn S l.myFirst → runAll h l cs = .ok (h1, l1) →
      Closed DNode.links S h1 ∧ PtrIn S l1.myFirst ∧ Same S h h1
  | [], h, h1, l, l1, hc, hp, hr => by
    simp only [runAll, Except.ok.injEq, Prod.mk.injEq] at hr
    obtain ⟨rfl, rfl⟩ := hr
    exact ⟨hc, hp, Same.refl S h⟩
  | c :: cs, h, h1, l, l1, hc, hp, hr => by
    simp only [runAll, bind_eq_ok] at hr
    obtain ⟨⟨h2, l2, r⟩, hrun, hr⟩ := hr
    obtain ⟨hc2, hp2, hs2⟩ := dll_run_closed hc hp hrun
    obtain ⟨hc3, hp3, hs3⟩ := dll_runAll_closed cs h2 h1 l2 l1 hc2 hp2 hr
    exact ⟨hc3, hp3, hs2.trans hs3⟩

end DoublyLinkedList

namespace LListWithDummyNode

variable {α : Type}

theorem sll_links_iff {S : Nat → Prop} (n : Node α) :
    (∀ q ∈ Node.links n, PtrIn S q) ↔ PtrIn S n.next := by
  simp [Node.links]

theorem sll_walkToLast_closed {S : Nat → Prop} {h : Heap (Node α)}
    (hc : Closed Node.links S h) :
    ∀ (k : Nat) (p q : Ptr), PtrIn S p → walkToLast k h p = .ok q → PtrIn S q
  | 0, p, q, _, hw => by simp [walkToLast] at hw
  | k + 1, p, q, hp, hw => by
    simp only [walkToLast, bind_eq_ok] at hw
    obtain ⟨n, hl, hw⟩ := hw
    have hn := (sll_links_iff n).1 (hc.load hp hl)
    split at hw
    · simp only [pure, Except.pure, Except.ok.injEq] at hw
      subst hw
      exact hp
    · rename_i b hb
      exact sll_walkToLast_closed hc k _ _ (hb ▸ hn) hw

theorem sll_advance_closed {S : Nat → Prop} {h : Heap (Node α)}
    (hc : Closed Node.links S h) :
    ∀ (k : Nat) (p q : Ptr), PtrIn S p → advance h k p = .ok q → PtrIn S q
  | 0, p, q, hp, hw => by
    simp only [advance, Except.ok.injEq] at hw
    subst hw
    exact hp
  | k + 1, p, q, hp, hw => by
    simp only [advance, bind_eq_ok] at hw
    obtain ⟨n, hl, hw⟩ := hw
    have hn := (sll_links_iff n).1 (hc.load hp hl)
    exact sll_advance_closed hc k _ _ hn hw

theorem sll_insertAtBegin_closed {S : Nat → Prop} {h h1 : Heap (Node α)}
    {l l1 : LListWithDummyNode} {v : α} {r : Bool}
    (hc : Closed Node.links S h) (hp : PtrIn S l.myFirst)
    (hr : insertAtBegin h l v = .ok (h1, l1, r)) :
    Closed Node.links S h1 ∧ PtrIn S l1.myFirst ∧ Same S h h1 := by
  obtain ⟨hc1, hs1, hS⟩ := hc.alloc (Node.mk1 v) ((sll_links_iff _).2 (PtrIn.none S))
  simp only [insertAtBegin, isEmpty, bind_eq_ok] at hr
  obtain ⟨e, ⟨d0, hd0, he⟩, hr⟩ := hr
  split at hr
  · simp only [bind_eq_ok] at hr
    obtain ⟨h2, hm2, hr⟩ := hr
    simp only [pure, Except.pure, Except.ok.injEq, Prod.mk.injEq] at hr
    obtain ⟨rfl, rfl, rfl⟩ := hr
    obtain ⟨hc2, hs2⟩ := hc1.modify hp hm2 (fun n _ => (sll_links_iff _).2 (PtrIn.some hS))
    exact ⟨hc2, hp, hs1.trans hs2⟩
  · simp only [bind_eq_ok] at hr
    obtain ⟨d, hd, h2, hm2, h3, hm3, hr⟩ := hr
    simp only [pure, Except.pure, Except.ok.injEq, Prod.mk.injEq] at hr
    obtain ⟨rfl, rfl, rfl⟩ := hr
    have hdn := (sll_links_iff d).1 (hc1.load hp hd)
    obtain ⟨hc2, hs2⟩ := hc1.modify (PtrIn.some hS) hm2 (fun n _ => (sll_links_iff _).2 hdn)
    obtain ⟨hc3, hs3⟩ := hc2.modify hp hm3 (fun n _ => (sll_links_iff _).2 (PtrIn.some hS))
    exact ⟨hc3, hp, (hs1.trans hs2).trans hs3⟩

theorem sll_insertAtEnd_closed {S : Nat → Prop} {h h1 : Heap (Node α)}
    {l l1 : LListWithDummyNode} {v : α} {r : Bool}
    (hc : Closed Node.links S h) (hp : PtrIn S l.myFirst)
    (hr : insertAtEnd h l v = .ok (h1, l1, r)) :
    Closed Node.links S h1 ∧ PtrIn S l1.myFirst ∧ Same S h h1 := by
  obtain ⟨hc1, hs1, hS⟩ := hc.alloc (Node.mk1 v) ((sll_links_iff _).2 (PtrIn.none S))
  simp only [insertAtEnd] at hr
  split at hr
  · simp only [bind_eq_ok] at hr
    obtain ⟨h2, hm2, hr⟩ := hr
    simp only [pure, Except.pure, Except.ok.injEq, Prod.mk.injEq] at hr
    obtain ⟨rfl, rfl, rfl⟩ := hr
    obtain ⟨hc2, hs2⟩ := hc1.modify hp hm2 (fun n _ => (sll_links_iff _).2 (PtrIn.some hS))
    exact ⟨hc2, hp, hs1.trans hs2⟩
  · simp only [bind_eq_ok] at hr
    obtain ⟨d, hd, w, hw, h2, hm2, hr⟩ := hr
    simp only [pure, Except.pure, Except.ok.injEq, Prod.mk.injEq] at hr
    obtain ⟨rfl, rfl, rfl⟩ := hr
    have hdn := (sll_links_iff d).1 (hc1.load hp hd)
    have hwS := sll_walkToLast_closed hc1 _ _ _ hdn hw
    obtain ⟨hc2, hs2⟩ := hc1.modify hwS hm2 (fun n _ => (sll_links_iff _).2 (PtrIn.some hS))
    exact ⟨hc2, hp, hs1.trans hs2⟩

theorem sll_deleteFromBegin_closed {S : Nat → Prop} {h h1 : Heap (Node α)}
    {l l1 : LListWithDummyNode} {r : Bool}
    (hc : Closed Node.links S h) (hp : PtrIn S l.myFirst)
    (hr : deleteFromBegin h l = .ok (h1, l1, r)) :
    Closed Node.links S h1 ∧ PtrIn S l1.myFirst ∧ Same S h h1 := by
  simp only [deleteFromBegin, isEmpty, bind_eq_ok] at hr
  obtain ⟨e, ⟨d0, hd0, he⟩, hr⟩ := hr
  split at hr
  · simp only [pure, Except.pure, Except.ok.injEq, Prod.mk.injEq] at hr
    obtain ⟨rfl, rfl, rfl⟩ := hr
    exact ⟨hc, hp, Same.refl S h⟩
  · simp only [bind_eq_ok] at hr
    obtain ⟨d, hd, first, hfirst, h2, hm2, h3, hf, hr⟩ := hr
    simp only [pure, Except.pure, Except.ok.injEq, Prod.mk.injEq] at hr
    obtain ⟨rfl, rfl, rfl⟩ := hr
    have hdn := (sll_links_iff d).1 (hc.load hp hd)
    have hfn := (sll_links_iff first).1 (hc.load hdn hfirst)
    obtain ⟨hc2, hs2⟩ := hc.modify hp hm2 (fun n _ => (sll_links_iff _).2 hfn)
    obtain ⟨hc3, hs3⟩ := hc2.free hdn hf
    exact ⟨hc3, hp, hs2.trans hs3⟩

theorem sll_deleteFromEnd_closed {S : Nat → Prop} {h h1 : Heap (Node α)}
    {l l1 : LListWithDummyNode} {r : Bool}
    (hc : Closed Node.links S h) (hp : PtrIn S l.myFirst)
    (hr : deleteFromEnd h l = .ok (h1, l1, r)) :
    Closed Node.links S h1 ∧ PtrIn S l1.myFirst ∧ Same S h h1 := by
  simp only [deleteFromEnd, bind_eq_ok] at hr
  obtain ⟨d, hd, hr⟩ := hr
  have hdn := (sll_links_iff d).1 (hc.load hp hd)
  split at hr
  · simp only [pure, Except.pure, Except.ok.injEq, Prod.mk.injEq] at hr
    obtain ⟨rfl, rfl, rfl⟩ := hr
    exact ⟨hc, hp, Same.refl S h⟩
  · rename_i b hb
    simp only [bind_eq_ok] at hr
    obtain ⟨w, hw, h2, hf, hr⟩ := hr
    simp only [pure, Except.pure, Except.ok.injEq, Prod.mk.injEq] at hr
    obtain ⟨rfl, rfl, rfl⟩ := hr
    have hwS := sll_walkToLast_closed hc _ _ _ (PtrIn.some (hdn b hb)) hw
    obtain ⟨hc2, hs2⟩ := hc.free hwS hf
    exact ⟨hc2, hp, hs2⟩

theorem sll_deleteAtIndex_closed {S : Nat → Prop} {h h1 : Heap (Node α)}
    {l l1 : LListWithDummyNode} {index : Nat} {r : Bool}
    (hc : Closed Node.links S h) (hp : PtrIn S l.myFirst)
    (hr : deleteAtIndex h l index = .ok (h1, l1, r)) :
    Closed Node.links S h1 ∧ PtrIn S l1.myFirst ∧ Same S h h1 := by
  simp only [deleteAtIndex, isEmpty, bind_eq_ok] at hr
  obtain ⟨e, ⟨d0, hd0, he⟩, hr⟩ := hr
  split at hr
  · simp only [pure, Except.pure, Except.ok.injEq, Prod.mk.injEq] at hr
    obtain ⟨rfl, rfl, rfl⟩ := hr
    exact ⟨hc, hp, Same.refl S h⟩
  split at hr
  · simp only [pure, Except.pure, Except.ok.injEq, Prod.mk.injEq] at hr
    obtain ⟨rfl, rfl, rfl⟩ := hr
    exact ⟨hc, hp, Same.refl S h⟩
  split at hr
  · exact sll_deleteFromBegin_closed hc hp hr
  split at hr
  · exact sll_deleteFromEnd_closed hc hp hr
  · simp only [bind_eq_ok] at hr
    obtain ⟨d, hd, prev, ha, p, hpl, del, hdel, h2, hm2, h3, hf, hr⟩ := hr
    simp only [pure, Except.pure, Except.ok.injEq, Prod.mk.injEq] at hr
    obtain ⟨rfl, rfl, rfl⟩ := hr
    have hdn := (sll_links_iff d).1 (hc.load hp hd)
    have hprev := sll_advance_closed hc _ _ _ hdn ha
    have hpn := (sll_links_iff p).1 (hc.load hprev hpl)
    have hdeln := (sll_links_iff del).1 (hc.load hpn hdel)
    obtain ⟨hc2, hs2⟩ := hc.modify hprev hm2 (fun n _ => (sll_links_iff _).2 hdeln)
    obtain ⟨hc3, hs3⟩ := hc2.free hpn hf
    exact ⟨hc3, hp, hs2.trans hs3⟩

theorem sll_deleteAtElementLoop_closed [BEq α] {S : Nat → Prop} (e : α) :
    ∀ (k : Nat) (h h1 : Heap (Node α)) (p prev : Ptr) (b : Bool),
      Closed Node.links S h → PtrIn S p → PtrIn S prev →
      deleteAtElementLoop e k h p prev = .ok (h1, b) →
      Closed Node.links S h1 ∧ Same S h h1
  | 0, h, h1, p, prev, b, _, _, _, hr => by simp [deleteAtElementLoop] at hr
  | k + 1, h, h1, none, prev, b, hc, _, _, hr => by
    simp only [deleteAtElementLoop, Except.ok.injEq, Prod.mk.injEq] at hr
    obtain ⟨rfl, rfl⟩ := hr
    exact ⟨hc, Same.refl S h⟩
  | k + 1, h, h1, some a, prev, b, hc, hp, hprev, hr => by
    simp only [deleteAtElementLoop, bind_eq_ok] at hr
    obtain ⟨t, hl, hr⟩ := hr
    have ht := (sll_links_iff t).1 (hc.load hp hl)
    split at hr
    · simp only [bind_eq_ok] at hr
      obtain ⟨h2, hm2, h3, hf, hr⟩ := hr
      simp only [pure, Except.pure, Except.ok.injEq, Prod.mk.injEq] at hr
      obtain ⟨rfl, rfl⟩ := hr
      obtain ⟨hc2, hs2⟩ := hc.modify hprev hm2 (fun n _ => (sll_links_iff _).2 ht)
      obtain ⟨hc3, hs3⟩ := hc2.free hp hf
      exact ⟨hc3, hs2.trans hs3⟩
    · simp only [bind_eq_ok] at hr
      obtain ⟨pn, hpl, hr⟩ := hr
      have hpn := (sll_links_iff pn).1 (hc.load hprev hpl)
      exact sll_deleteAtElementLoop_closed e k h h1 _ _ b hc ht hpn hr

theorem sll_deleteAtElement_closed [BEq α] {S : Nat → Prop} {h h1 : Heap (Node α)}
    {l l1 : LListWithDummyNode} {e : α} {r : Bool}
    (hc : Closed Node.links S h) (hp : PtrIn S l.myFirst)
    (hr : deleteAtElement h l e = .ok (h1, l1, r)) :
    Closed Node.links S h1 ∧ PtrIn S l1.myFirst ∧ Same S h h1 := by
  simp only [deleteAtElement, isEmpty, bind_eq_ok] at hr
  obtain ⟨em, ⟨d0, hd0, he⟩, hr⟩ := hr
  split at hr
  · simp only [pure, Except.pure, Except.ok.injEq, Prod.mk.injEq] at hr
    obtain ⟨rfl, rfl, rfl⟩ := hr
    exact ⟨hc, hp, Same.refl S h⟩
  · simp only [bind_eq_ok] at hr
    obtain ⟨d, hd, temp, hl, hr⟩ := hr
    have hdn := (sll_links_iff d).1 (hc.load hp hd)
    split at hr
    · exact sll_deleteFromBegin_closed hc hp hr
    · simp only [bind_eq_ok] at hr
      obtain ⟨⟨h2, found⟩, hloop, hr⟩ := hr
      obtain ⟨hc2, hs2⟩ := sll_deleteAtElementLoop_closed e _ _ _ _ _ _ hc hdn hp hloop
      split at hr
      · simp only [pure, Except.pure, Except.ok.injEq, Prod.mk.injEq] at hr
        obtain ⟨rfl, rfl, rfl⟩ := hr
        exact ⟨hc2, hp, hs2⟩
      · simp only [pure, Except.pure, Except.ok.injEq, Prod.mk.injEq] at hr
        obtain ⟨rfl, rfl, rfl⟩ := hr
        exact ⟨hc2, hp, hs2⟩

theorem sll_run_closed [BEq α] {S : Nat → Prop} {h h1 : Heap (Node α)}
    {l l1 : LListWithDummyNode} {c : Call α} {r : Bool}
    (hc : Closed Node.links S h) (hp : PtrIn S l.myFirst)
    (hr : run h l c = .ok (h1, l1, r)) :
    Closed Node.links S h1 ∧ PtrIn S l1.myFirst ∧ Same S h h1 := by
  cases c with
  | insertAtBegin v => exact sll_insertAtBegin_closed hc hp hr
  | insertAtEnd v => exact sll_insertAtEnd_closed hc hp hr
  | deleteFromBegin => exact sll_deleteFromBegin_closed hc hp hr
  | deleteFromEnd => exact sll_deleteFromEnd_closed hc hp hr
  | deleteAtElement e => exact sll_deleteAtElement_closed hc hp hr
  | deleteAtIndex i => exact sll_deleteAtIndex_closed hc hp hr

theorem sll_runAll_closed [BEq α] {S : Nat → Prop} :
    ∀ (cs : List (Call α)) (h h1 : Heap (Node α)) (l l1 : LListWithDummyNode),
      Closed Node.links S h → PtrIn S l.myFirst → runAll h l cs = .ok (h1, l1) →
      Closed Node.links S h1 ∧ PtrIn S l1.myFirst ∧ Same S h h1
  | [], h, h1, l, l1, hc, hp, hr => by
    simp only [runAll, Except.ok.injEq, Prod.mk.injEq] at hr
    obtain ⟨rfl, rfl⟩ := hr
    exact ⟨hc, hp, Same.refl S h⟩
  | c :: cs, h, h1, l, l1, hc, hp, hr => by
    simp only [runAll, bind_eq_ok] at hr
    obtain ⟨⟨h2, l2, r⟩, hrun, hr⟩ := hr
    obtain ⟨hc2, hp2, hs2⟩ := sll_run_closed hc hp hrun
    obtain ⟨hc3, hp3, hs3⟩ := sll_runAll_closed cs h2 h1 l2 l1 hc2 hp2 hr
    exact ⟨hc3, hp3, hs2.trans hs3⟩

end LListWithDummyNode

/-! ### Chains are closed; copy construction and assignment -/

/-! ### Heap operations, abstractly -/

theorem Heap.alloc_ok {ν : Type} (h : Heap ν) (n : ν) :
    ∃ h1, h.alloc n = (h1, h.length) ∧ h1[h.length]? = some (some n) ∧
      (∀ b, b < h.length → h1[b]? = h[b]?) ∧ h1.length = h.length + 1 :=
  ⟨h ++ [some n], rfl, by simp, fun b hb => by simp [List.getElem?_append_left hb], by simp⟩

theorem Heap.modify_ok {ν : Type} {h : Heap ν} {a : Nat} {n : ν}
    (hl : h[a]? = some (some n)) (f : ν → ν) :
    ∃ h1, h.modify (some a) f = .ok h1 ∧ h1[a]? = some (some (f n)) ∧
      (∀ b, b ≠ a → h1[b]? = h[b]?) ∧ h1.length = h.length :=
  ⟨h.set a (some (f n)), Heap.modify_of_cell hl f, Heap.cell_set_self _ hl,
    fun _ hb => List.getElem?_set_ne (Ne.symm hb), by simp⟩

theorem Heap.free_ok {ν : Type} {h : Heap ν} {a : Nat} {n : ν}
    (hl : h[a]? = some (some n)) :
    ∃ h1, h.free (some a) = .ok h1 ∧ h1[a]? = some none ∧
      (∀ b, b ≠ a → h1[b]? = h[b]?) ∧ h1.length = h.length :=
  ⟨h.set a none, Heap.free_of_cell hl, Heap.cell_set_self _ hl,
    fun _ hb => List.getElem?_set_ne (Ne.symm hb), by simp⟩

theorem Chain.next_mem {ν : Type} {next : ν → Ptr} {h : Heap ν} :
    ∀ {cells : List (Nat × ν)} {p : Ptr}, Chain next h p cells →
      ∀ c ∈ cells, ∀ b, next c.2 = some b → b ∈ cells.map Prod.fst
  | [], _, _, c, hm, _, _ => by simp at hm
  | c0 :: rest, p, hc, c, hm, b, hb => by
    simp only [Chain] at hc
    rcases List.mem_cons.mp hm with rfl | hm
    · cases rest with
      | nil =>
        have := hc.2.2
        simp only [Chain] at this
        rw [this] at hb
        cases hb
      | cons d r =>
        have := hc.2.2
        simp only [Chain] at this
        rw [this.1] at hb
        cases hb
        simp
    · exact List.mem_cons_of_mem _ (Chain.next_mem hc.2.2 c hm b hb)

theorem Closed.chain_in {ν : Type} {links : ν → List Ptr} {next : ν → Ptr} {S : Nat → Prop}
    {h : Heap ν} (hc : Closed links S h) (hnext : ∀ n, next n ∈ links n) :
    ∀ {cells : List (Nat × ν)} {p : Ptr}, PtrIn S p → Chain next h p cells →
      ∀ c ∈ cells, S c.1
  | [], _, _, _, c, hm => by simp at hm
  | c0 :: rest, p, hp, hch, c, hm => by
    simp only [Chain] at hch
    have h0 : S c0.1 := hp c0.1 hch.1
    rcases List.mem_cons.mp hm with rfl | hm
    · exact h0
    · exact Closed.chain_in hc hnext (hc.2 c0.1 c0.2 h0 hch.2.1 _ (hnext c0.2)) hch.2.2 c hm

theorem Chain.closed {ν : Type} {next : ν → Ptr} {h : Heap ν} {p : Ptr}
    {cells : List (Nat × ν)} (hc : Chain next h p cells) :
    Closed (fun n => [next n]) (fun a => a ∈ cells.map Prod.fst ∨ h.length ≤ a) h
      ∧ PtrIn (fun a => a ∈ cells.map Prod.fst ∨ h.length ≤ a) p := by
  refine ⟨⟨fun a ha => Or.inr ha, ?_⟩, ?_⟩
  · intro a n ha hcell q hq b hb
    simp only [List.mem_singleton] at hq
    subst hq
    have hlt := Heap.lt_of_cell hcell
    rcases ha with ha | ha
    · obtain ⟨c, hcm, rfl⟩ := List.mem_map.mp ha
      have := Chain.cell_of_mem hc c hcm
      rw [this] at hcell
      cases hcell
      exact Or.inl (Chain.next_mem hc c hcm b hb)
    · omega
  · intro a ha
    cases cells with
    | nil =>
      simp only [Chain] at hc
      rw [hc] at ha
      cases ha
    | cons c rest =>
      simp only [Chain] at hc
      rw [hc.1] at ha
      cases ha
      exact Or.inl (by simp)

namespace DoublyLinkedList

variable {α : Type}

theorem DChain.dll_prev_mem {h : Heap (DNode α)} :
    ∀ {cells : List (Nat × DNode α)} {p q : Ptr}, DChain h p q cells →
      ∀ c ∈ cells, ∀ b, c.2.prev = some b → q = some b ∨ b ∈ cells.map Prod.fst
  | [], _, _, _, c, hm, _, _ => by simp at hm
  | c0 :: rest, p, q, hc, c, hm, b, hb => by
    simp only [DChain] at hc
    rcases List.mem_cons.mp hm with rfl | hm
    · left
      rw [← hc.2.2.1, hb]
    · right
      rcases DChain.dll_prev_mem hc.2.2.2 c hm b hb with he | hmem
      · cases he
        simp
      · exact List.mem_cons_of_mem _ hmem

theorem DChain.dll_closed {h : Heap (DNode α)} {p : Ptr}
    {cells : List (Nat × DNode α)} (hc : DChain h p none cells) :
    Closed DNode.links (fun a => a ∈ cells.map Prod.fst ∨ h.length ≤ a) h
      ∧ PtrIn (fun a => a ∈ cells.map Prod.fst ∨ h.length ≤ a) p := by
  have hch := hc.toChain
  refine ⟨⟨fun a ha => Or.inr ha, ?_⟩, hch.closed.2⟩
  intro a n ha hcell
  rw [dll_links_iff]
  have hlt := Heap.lt_of_cell hcell
  rcases ha with ha | ha
  · obtain ⟨c, hcm, rfl⟩ := List.mem_map.mp ha
    have := Chain.cell_of_mem hch c hcm
    rw [this] at hcell
    cases hcell
    refine ⟨fun b hb => Or.inl (Chain.next_mem hch c hcm b hb), fun b hb => ?_⟩
    rcases DChain.dll_prev_mem hc c hcm b hb with he | hmem
    · cases he
    · exact Or.inl hmem
  · omega

end DoublyLinkedList

namespace DoublyLinkedList

variable {α : Type}

theorem dll_copyLoop_exact :
    ∀ (rest : List (Nat × DNode α)) (h : Heap (DNode α)) (src : Ptr) (k i : Nat)
      (ni : DNode α),
      Chain DNode.next h src rest → (∀ c ∈ rest, c.1 ≠ i) → h[i]? = some (some ni) →
      ni.next = none → rest.length < k →
      ∃ h1 n1 tail, copyLoop k h src (some i) = .ok h1 ∧ h.length ≤ h1.length ∧
        (∀ a, a < h.length → a ≠ i → h1[a]? = h[a]?) ∧
        DChain h1 (some i) ni.prev ((i, n1) :: tail) ∧ n1.data = ni.data ∧
        tail.map (fun c => c.2.data) = rest.map (fun c => c.2.data) ∧
        ∀ c ∈ tail, h.length ≤ c.1
  | [], h, src, k, i, ni, hc, _, hi, hn, hk => by
    obtain ⟨k, rfl⟩ : ∃ j, k = j + 1 := ⟨k - 1, by simp at hk; omega⟩
    simp only [Chain] at hc
    subst hc
    refine ⟨h, ni, [], by simp [copyLoop], le_refl _, fun _ _ _ => rfl, ?_, rfl, rfl,
      by simp⟩
    simp only [DChain]
    exact ⟨trivial, hi, trivial, hn⟩
  | c :: rest, h, src, k, i, ni, hc, hne, hi, hn, hk => by
    obtain ⟨k, rfl⟩ : ∃ j, k = j + 1 := ⟨k - 1, by simp at hk; omega⟩
    have hrlt : ∀ x ∈ rest, x.1 < h.length := fun x hx =>
      Chain.addr_lt_of_mem hc (List.mem_cons_of_mem _ hx)
    simp only [Chain] at hc
    obtain ⟨hsrc, hcell, ht⟩ := hc
    subst hsrc
    have hilt := Heap.lt_of_cell hi
    have hclt := Heap.lt_of_cell hcell
    have hci : c.1 ≠ i := hne c (List.mem_cons_self _ _)
    obtain ⟨h1, ha1, h1f, h1o, h1l⟩ := Heap.alloc_ok h (DNode.mk1 c.2.data)
    have h1i : h1[i]? = some (some ni) := (h1o i hilt).trans hi
    obtain ⟨h2, hm2, h2i, h2o, h2l⟩ :=
      Heap.modify_ok h1i (fun n => { n with next := some h.length })
    have h2f : h2[h.length]? = some (some (DNode.mk1 c.2.data)) :=
      (h2o _ (by omega)).trans h1f
    obtain ⟨h3, hm3, h3f, h3o, h3l⟩ :=
      Heap.modify_ok h2f (fun n => { n with prev := some i })
    have h3i : h3[i]? = some (some { ni with next := some h.length }) :=
      (h3o _ (by omega)).trans h2i
    have h3old : ∀ a, a < h.length → a ≠ i → h3[a]? = h[a]? := fun a ha hai =>
      ((h3o a (by omega)).trans (h2o a hai)).trans (h1o a ha)
    have h3c : h3[c.1]? = some (some c.2) := (h3old c.1 hclt hci).trans hcell
    have ht3 : Chain DNode.next h3 c.2.next rest :=
      Chain.frame ht (fun x hx =>
        h3old x.1 (hrlt x hx) (hne x (List.mem_cons_of_mem _ hx)))
    obtain ⟨h4, n1, tail, hloop, hlen, hframe, hd, hdata1, hdata, hge⟩ :=
      dll_copyLoop_exact rest h3 c.2.next k h.length
        { DNode.mk1 c.2.data with prev := some i } ht3
        (fun x hx => Nat.ne_of_lt (hrlt x hx)) h3f rfl
        (by simp only [List.length_cons] at hk; omega)
    have hl3 : h3.length = h.length + 1 := by omega
    refine ⟨h4, { ni with next := some h.length }, (h.length, n1) :: tail, ?_, by omega, ?_,
      ?_, rfl, ?_, ?_⟩
    · simp only [copyLoop, Heap.load_of_cell hcell, ha1, hm2, Heap.load_of_cell h2i, hm3,
        Heap.load_of_cell h3i, Heap.load_of_cell h3c, hloop, bind, Except.bind]
    · intro a ha hai
      rw [hframe a (by omega) (by omega)]
      exact h3old a ha hai
    · simp only [DChain]
      simp only [DChain] at hd
      refine ⟨trivial, ?_, trivial, trivial, hd.2.1, hd.2.2.1, hd.2.2.2⟩
      rw [hframe i (by omega) (by omega)]
      exact h3i
    · simp only [List.map_cons, hdata, hdata1]
      rfl
    · intro x hx
      rcases List.mem_cons.mp hx with rfl | hx
      · exact le_refl _
      · have := hge x hx
        omega

theorem dll_copy_exact (h : Heap (DNode α)) (orig : DoublyLinkedList)
    (cells : List (Nat × DNode α)) (hc : Chain DNode.next h orig.myFirst cells) :
    ∃ h1 l1 cells1, copy h orig = .ok (h1, l1) ∧ l1.mySize = orig.mySize ∧
      h.length ≤ h1.length ∧ (∀ a, a < h.length → h1[a]? = h[a]?) ∧
      DChain h1 l1.myFirst none cells1 ∧
      cells1.map (fun c => c.2.data)
        = (cells.head?.map (fun c => c.2.data)).toList ++ cells.map (fun c => c.2.data) ∧
      ∀ c ∈ cells1, h.length ≤ c.1 := by
  cases cells with
  | nil =>
    simp only [Chain] at hc
    refine ⟨h, { myFirst := none, mySize := orig.mySize }, [], ?_, rfl, le_refl _,
      fun _ _ => rfl, ?_, rfl, by simp⟩
    · simp only [copy, hc]
    · simp only [DChain]
  | cons c rest =>
    have hlen := hc.length_lt_fuel
    have hlt : ∀ x ∈ c :: rest, x.1 < h.length := fun x hx => Chain.addr_lt_of_mem hc hx
    have hc0 := hc
    simp only [Chain] at hc
    obtain ⟨hp, hcell, _⟩ := hc
    obtain ⟨h1, ha1, h1f, h1o, h1l⟩ := Heap.alloc_ok h (DNode.mk1 c.2.data)
    have hc1 : Chain DNode.next h1 (some c.1) (c :: rest) := by
      rw [← hp]
      exact Chain.frame hc0 (fun x hx => h1o x.1 (hlt x hx))
    obtain ⟨h2, n1, tail, hloop, hlen2, hframe, hd, hdata1, hdata, hge⟩ :=
      dll_copyLoop_exact (c :: rest) h1 (some c.1) h1.fuel h.length (DNode.mk1 c.2.data) hc1
        (fun x hx => Nat.ne_of_lt (hlt x hx)) h1f rfl
        (by simp only [Heap.fuel, h1l] at hlen ⊢; omega)
    refine ⟨h2, { myFirst := some h.length, mySize := orig.mySize }, (h.length, n1) :: tail,
      ?_, rfl, by omega, ?_, hd, ?_, ?_⟩
    · simp only [copy, hp, Heap.load_of_cell hcell, ha1, hloop, bind, Except.bind, pure,
        Except.pure]
    · intro a ha
      rw [hframe a (by omega) (by omega)]
      exact h1o a ha
    · simp only [List.map_cons, hdata, hdata1, List.head?_cons, Option.map_some',
        Option.toList_some, List.singleton_append]
      rfl
    · intro x hx
      rcases List.mem_cons.mp hx with rfl | hx
      · exact le_refl _
      · have := hge x hx
        omega

theorem dll_freeLoop_exact :
    ∀ (cells : List (Nat × DNode α)) (h : Heap (DNode α)) (p : Ptr) (k : Nat),
      Chain DNode.next h p cells → cells.length < k →
      ∃ h1, freeLoop k h p = .ok h1 ∧ h1.length = h.length ∧
        ∀ a, a ∉ cells.map Prod.fst → h1[a]? = h[a]?
  | [], h, p, k, hc, hk => by
    obtain ⟨k, rfl⟩ : ∃ j, k = j + 1 := ⟨k - 1, by simp at hk; omega⟩
    simp only [Chain] at hc
    subst hc
    exact ⟨h, by simp [freeLoop], rfl, fun _ _ => rfl⟩
  | c :: rest, h, p, k, hc, hk => by
    obtain ⟨k, rfl⟩ : ∃ j, k = j + 1 := ⟨k - 1, by simp at hk; omega⟩
    have hnd := hc.nodup
    simp only [List.map_cons, List.nodup_cons] at hnd
    simp only [Chain] at hc
    obtain ⟨hp, hcell, ht⟩ := hc
    subst hp
    obtain ⟨h1, hf1, _, h1o, h1l⟩ := Heap.free_ok hcell
    have ht1 : Chain DNode.next h1 c.2.next rest :=
      Chain.frame ht (fun x hx =>
        h1o x.1 (fun he => hnd.1 (he ▸ List.mem_map.mpr ⟨x, hx, rfl⟩)))
    obtain ⟨h2, hloop, h2l, h2o⟩ := dll_freeLoop_exact rest h1 c.2.next k ht1
      (by simp only [List.length_cons] at hk; omega)
    refine ⟨h2, ?_, by omega, ?_⟩
    · simp only [freeLoop, Heap.load_of_cell hcell, hf1, hloop, bind, Except.bind]
    · intro a ha
      simp only [List.map_cons, List.mem_cons, not_or] at ha
      rw [h2o a ha.2]
      exact h1o a ha.1

theorem dll_assign_eq (h : Heap (DNode α)) (l c : DoublyLinkedList) :
    assign h l false c = (freeLoop h.fuel h l.myFirst >>= fun h0 => copy h0 c) := by
  simp only [assign, copy, Bool.false_eq_true, if_false]
  cases freeLoop h.fuel h l.myFirst with
  | error e => rfl
  | ok h0 =>
    simp only [bind, Except.bind]
    cases c.myFirst <;> rfl

theorem dll_assign_exact (h : Heap (DNode α)) (l orig : DoublyLinkedList)
    (cells ocells : List (Nat × DNode α))
    (hl : Chain DNode.next h l.myFirst cells)
    (hc : Chain DNode.next h orig.myFirst ocells)
    (hdis : ∀ x ∈ ocells, x.1 ∉ cells.map Prod.fst) :
    ∃ h1 l1 cells1, assign h l false orig = .ok (h1, l1) ∧ l1.mySize = orig.mySize ∧
      h.length ≤ h1.length ∧
      (∀ a, a < h.length → a ∉ cells.map Prod.fst → h1[a]? = h[a]?) ∧
      DChain h1 l1.myFirst none cells1 ∧
      cells1.map (fun c => c.2.data)
        = (ocells.head?.map (fun c => c.2.data)).toList ++ ocells.map (fun c => c.2.data) ∧
      ∀ c ∈ cells1, h.length ≤ c.1 := by
  obtain ⟨h0, hfree, h0l, h0o⟩ := dll_freeLoop_exact cells h l.myFirst h.fuel hl
    hl.length_lt_fuel
  have hc0 : Chain DNode.next h0 orig.myFirst ocells :=
    Chain.frame hc (fun x hx => h0o x.1 (hdis x hx))
  obtain ⟨h1, l1, cells1, hcopy, hsz, hlen, hframe, hd, hdata, hge⟩ :=
    dll_copy_exact h0 orig ocells hc0
  refine ⟨h1, l1, cells1, ?_, hsz, by omega, ?_, hd, hdata, ?_⟩
  · rw [dll_assign_eq, hfree]
    exact hcopy
  · intro a ha ham
    rw [hframe a (by omega)]
    exact h0o a ham
  · intro x hx
    have := hge x hx
    omega

end DoublyLinkedList

namespace LListWithDummyNode

variable {α : Type}

theorem sll_copyLoop_exact :
    ∀ (rest : List (Nat × Node α)) (h : Heap (Node α)) (src q : Ptr) (k : Nat),
      Chain Node.next h src rest → rest.length < k →
      ∃ h1, copyLoop k h src q = .ok h1 ∧ h.length ≤ h1.length ∧
        ∀ a, a < h.length → h1[a]? = h[a]?
  | [], h, src, q, k, hc, hk => by
    obtain ⟨k, rfl⟩ : ∃ j, k = j + 1 := ⟨k - 1, by simp at hk; omega⟩
    simp only [Chain] at hc
    subst hc
    exact ⟨h, by simp [copyLoop], le_refl _, fun _ _ => rfl⟩
  | c :: rest, h, src, q, k, hc, hk => by
    obtain ⟨k, rfl⟩ : ∃ j, k = j + 1 := ⟨k - 1, by simp at hk; omega⟩
    have hrlt : ∀ x ∈ rest, x.1 < h.length := fun x hx =>
      Chain.addr_lt_of_mem hc (List.mem_cons_of_mem _ hx)
    simp only [Chain] at hc
    obtain ⟨hsrc, hcell, ht⟩ := hc
    subst hsrc
    have hclt := Heap.lt_of_cell hcell
    obtain ⟨h1, ha1, h1f, h1o, h1l⟩ := Heap.alloc_ok h (Node.mk1 c.2.data)
    have h1c : h1[c.1]? = some (some c.2) := (h1o c.1 hclt).trans hcell
    have ht1 : Chain Node.next h1 c.2.next rest :=
      Chain.frame ht (fun x hx => h1o x.1 (hrlt x hx))
    obtain ⟨h2, hloop, hlen, hframe⟩ :=
      sll_copyLoop_exact rest h1 c.2.next (Node.mk1 c.2.data).next k ht1
        (by simp only [List.length_cons] at hk; omega)
    refine ⟨h2, ?_, by omega, ?_⟩
    · simp only [copyLoop, Heap.load_of_cell hcell, ha1, Heap.load_of_cell h1f,
        Heap.load_of_cell h1c, hloop, bind, Except.bind]
    · intro a ha
      rw [hframe a (by omega)]
      exact h1o a ha

theorem sll_copy_exact (h : Heap (Node α)) (orig : LListWithDummyNode) (dummy : α)
    (d : Nat × Node α) (cells : List (Nat × Node α))
    (hc : Chain Node.next h orig.myFirst (d :: cells)) :
    ∃ h1 n1, copy h orig dummy = .ok (h1, { myFirst := some h.length, mySize := orig.mySize })
      ∧ h.length < h1.length ∧ (∀ a, a < h.length → h1[a]? = h[a]?) ∧
      Chain Node.next h1 (some h.length) [(h.length, n1)] ∧ n1.data = dummy := by
  have hlen := hc.length_lt_fuel
  have hlt : ∀ x ∈ d :: cells, x.1 < h.length := fun x hx => Chain.addr_lt_of_mem hc hx
  simp only [Chain] at hc
  obtain ⟨hp, hcell, ht⟩ := hc
  obtain ⟨h1, ha1, h1f, h1o, h1l⟩ := Heap.alloc_ok h (Node.mk1 dummy)
  have h1d : h1[d.1]? = some (some d.2) :=
    (h1o d.1 (hlt d (List.mem_cons_self _ _))).trans hcell
  cases cells with
  | nil =>
    simp only [Chain] at ht
    obtain ⟨h2, hm2, h2f, h2o, h2l⟩ := Heap.modify_ok h1f (fun n => { n with next := none })
    refine ⟨h2, { Node.mk1 dummy with next := none }, ?_, by omega, ?_, ?_, rfl⟩
    · simp only [copy, ha1, hp, Heap.load_of_cell h1d, ht, hm2, bind, Except.bind, pure,
        Except.pure]
    · intro a ha
      rw [h2o a (by omega)]
      exact h1o a ha
    · simp only [Chain]
      exact ⟨trivial, h2f, trivial⟩
  | cons c rest =>
    simp only [Chain] at ht
    obtain ⟨hdn, hccell, ht2⟩ := ht
    have hc1 : Chain Node.next h1 (some c.1) (c :: rest) := by
      simp only [Chain]
      refine ⟨trivial, (h1o c.1 (hlt c (by simp))).trans hccell, ?_⟩
      exact Chain.frame ht2 (fun x hx => h1o x.1 (hlt x (by simp [hx])))
    obtain ⟨h2, hloop, hlen2, hframe⟩ :=
      sll_copyLoop_exact (c :: rest) h1 (some c.1) (Node.mk1 dummy).next h1.fuel hc1
        (by simp only [Heap.fuel, h1l, List.length_cons] at hlen ⊢; omega)
    refine ⟨h2, Node.mk1 dummy, ?_, by omega, ?_, ?_, rfl⟩
    · simp only [copy, ha1, hp, Heap.load_of_cell h1d, hdn, Heap.load_of_cell h1f, hloop,
        bind, Except.bind, pure, Except.pure]
    · intro a ha
      rw [hframe a (by omega)]
      exact h1o a ha
    · simp only [Chain]
      refine ⟨trivial, ?_, rfl⟩
      rw [hframe _ (by omega)]
      exact h1f

theorem sll_clearLoop_exact :
    ∀ (cells : List (Nat × Node α)) (h : Heap (Node α)) (a : Nat) (n : Node α) (k : Nat),
      Chain Node.next h (some a) ((a, n) :: cells) → cells.length < k →
      ∃ h1, clearLoop k h (some a) = .ok h1 ∧ h1.length = h.length ∧
        h1[a]? = some (some { n with next := none }) ∧
        ∀ b, b ≠ a → b ∉ cells.map Prod.fst → h1[b]? = h[b]?
  | [], h, a, n, k, hc, hk => by
    obtain ⟨k, rfl⟩ : ∃ j, k = j + 1 := ⟨k - 1, by simp at hk; omega⟩
    simp only [Chain] at hc
    obtain ⟨_, hcell, hn⟩ := hc
    refine ⟨h, ?_, rfl, ?_, fun _ _ _ => rfl⟩
    · simp only [clearLoop, Heap.load_of_cell hcell, hn, bind, Except.bind, pure,
        Except.pure]
    · rw [hcell]
      cases n
      simp only at hn
      simp [hn]
  | c :: rest, h, a, n, k, hc, hk => by
    obtain ⟨k, rfl⟩ : ∃ j, k = j + 1 := ⟨k - 1, by simp at hk; omega⟩
    have hnd := hc.nodup
    simp only [List.map_cons, List.nodup_cons, List.mem_cons, not_or] at hnd
    obtain ⟨⟨hac, har⟩, hcr, _⟩ := hnd
    simp only [Chain] at hc
    obtain ⟨_, hcell, hn, hccell, ht⟩ := hc
    obtain ⟨h1, hm1, h1a, h1o, h1l⟩ :=
      Heap.modify_ok hcell (fun m => { m with next := c.2.next })
    have h1c : h1[c.1]? = some (some c.2) := (h1o c.1 (Ne.symm hac)).trans hccell
    obtain ⟨h2, hf2, _, h2o, h2l⟩ := Heap.free_ok h1c
    have h2a : h2[a]? = some (some { n with next := c.2.next }) := (h2o a hac).trans h1a
    have hc2 : Chain Node.next h2 (some a) ((a, { n with next := c.2.next }) :: rest) := by
      simp only [Chain]
      refine ⟨trivial, h2a, ?_⟩
      refine Chain.frame ht (fun x hx => ?_)
      have hxm : x.1 ∈ rest.map Prod.fst := List.mem_map.mpr ⟨x, hx, rfl⟩
      rw [h2o x.1 (fun he => hcr (he ▸ hxm)), h1o x.1 (fun he => har (he ▸ hxm))]
    obtain ⟨h3, hloop, h3l, h3a, h3o⟩ :=
      sll_clearLoop_exact rest h2 a { n with next := c.2.next } k hc2
        (by simp only [List.length_cons] at hk; omega)
    refine ⟨h3, ?_, by omega, h3a, ?_⟩
    · simp only [clearLoop, Heap.load_of_cell hcell, hn, Heap.load_of_cell hccell, hm1, hf2,
        hloop, bind, Except.bind]
    · intro b hba hbm
      simp only [List.map_cons, List.mem_cons, not_or] at hbm
      rw [h3o b hba hbm.2, h2o b hbm.1, h1o b hba]

theorem sll_assignLoop_exact :
    ∀ (rest : List (Nat × Node α)) (h : Heap (Node α)) (src : Ptr) (k i : Nat)
      (ni : Node α),
      Chain Node.next h src rest → (∀ c ∈ rest, c.1 ≠ i) → h[i]? = some (some ni) →
      ni.next = none → rest.length < k →
      ∃ h1 n1 tail, assignLoop k h src (some i) = .ok h1 ∧ h.length ≤ h1.length ∧
        (∀ a, a < h.length → a ≠ i → h1[a]? = h[a]?) ∧
        Chain Node.next h1 (some i) ((i, n1) :: tail) ∧ n1.data = ni.data ∧
        tail.map (fun c => c.2.data) = rest.map (fun c => c.2.data) ∧
        ∀ c ∈ tail, h.length ≤ c.1
  | [], h, src, k, i, ni, hc, _, hi, hn, hk => by
    obtain ⟨k, rfl⟩ : ∃ j, k = j + 1 := ⟨k - 1, by simp at hk; omega⟩
    simp only [Chain] at hc
    subst hc
    refine ⟨h, ni, [], by simp [assignLoop], le_refl _, fun _ _ _ => rfl, ?_, rfl, rfl,
      by simp⟩
    simp only [Chain]
    exact ⟨trivial, hi, hn⟩
  | c :: rest, h, src, k, i, ni, hc, hne, hi, hn, hk => by
    obtain ⟨k, rfl⟩ : ∃ j, k = j + 1 := ⟨k - 1, by simp at hk; omega⟩
    have hrlt : ∀ x ∈ rest, x.1 < h.length := fun x hx =>
      Chain.addr_lt_of_mem hc (List.mem_cons_of_mem _ hx)
    simp only [Chain] at hc
    obtain ⟨hsrc, hcell, ht⟩ := hc
    subst hsrc
    have hilt := Heap.lt_of_cell hi
    have hclt := Heap.lt_of_cell hcell
    have hci : c.1 ≠ i := hne c (List.mem_cons_self _ _)
    obtain ⟨h1, ha1, h1f, h1o, h1l⟩ := Heap.alloc_ok h (Node.mk1 c.2.data)
    have h1i : h1[i]? = some (some ni) := (h1o i hilt).trans hi
    obtain ⟨h2, hm2, h2i, h2o, h2l⟩ :=
      Heap.modify_ok h1i (fun n => { n with next := some h.length })
    have h2f : h2[h.length]? = some (some (Node.mk1 c.2.data)) :=
      (h2o _ (by omega)).trans h1f
    have h2old : ∀ a, a < h.length → a ≠ i → h2[a]? = h[a]? := fun a ha hai =>
      (h2o a hai).trans (h1o a ha)
    have h2c : h2[c.1]? = some (some c.2) := (h2old c.1 hclt hci).trans hcell
    have ht2 : Chain Node.next h2 c.2.next rest :=
      Chain.frame ht (fun x hx =>
        h2old x.1 (hrlt x hx) (hne x (List.mem_cons_of_mem _ hx)))
    obtain ⟨h3, n1, tail, hloop, hlen, hframe, hd, hdata1, hdata, hge⟩ :=
      sll_assignLoop_exact rest h2 c.2.next k h.length (Node.mk1 c.2.data) ht2
        (fun x hx => Nat.ne_of_lt (hrlt x hx)) h2f rfl
        (by simp only [List.length_cons] at hk; omega)
    have hl2 : h2.length = h.length + 1 := by omega
    refine ⟨h3, { ni with next := some h.length }, (h.length, n1) :: tail, ?_, by omega, ?_,
      ?_, rfl, ?_, ?_⟩
    · simp only [assignLoop, Heap.load_of_cell hcell, ha1, hm2, Heap.load_of_cell h2i,
        Heap.load_of_cell h2c, hloop, bind, Except.bind]
    · intro a ha hai
      rw [hframe a (by omega) (by omega)]
      exact h2old a ha hai
    · simp only [Chain]
      simp only [Chain] at hd
      refine ⟨trivial, ?_, trivial, hd.2.1, hd.2.2⟩
      rw [hframe i (by omega) (by omega)]
      exact h2i
    · simp only [List.map_cons, hdata, hdata1]
      rfl
    · intro x hx
      rcases List.mem_cons.mp hx with rfl | hx
      · exact le_refl _
      · have := hge x hx
        omega

theorem sll_assign_exact (h : Heap (Node α)) (l orig : LListWithDummyNode)
    (d : Nat × Node α) (cells ocells : List (Nat × Node α))
    (hl : Chain Node.next h l.myFirst (d :: cells))
    (hc : Chain Node.next h orig.myFirst ocells)
    (hdis : ∀ x ∈ ocells, x.1 ∉ (d :: cells).map Prod.fst) :
    ∃ h1 n1 tail, assign h l false orig = .ok (h1, { l with mySize := orig.mySize }) ∧
      h.length ≤ h1.length ∧
      (∀ a, a < h.length → a ∉ (d :: cells).map Prod.fst → h1[a]? = h[a]?) ∧
      Chain Node.next h1 l.myFirst ((d.1, n1) :: tail) ∧ n1.data = d.2.data ∧
      tail.map (fun c => c.2.data) = ocells.map (fun c => c.2.data) ∧
      ∀ c ∈ tail, h.length ≤ c.1 := by
  have hlen := hl.length_lt_fuel
  have hp : l.myFirst = some d.1 := by
    simp only [Chain] at hl
    exact hl.1
  rw [hp] at hl
  obtain ⟨h1, hclear, h1l, h1d, h1o⟩ := sll_clearLoop_exact cells h d.1 d.2 h.fuel hl
    (by simp only [List.length_cons] at hlen; omega)
  have hdis' : ∀ x ∈ ocells, x.1 ≠ d.1 ∧ x.1 ∉ cells.map Prod.fst := by
    intro x hx
    have := hdis x hx
    simp only [List.map_cons, List.mem_cons, not_or] at this
    exact this
  have hc1 : Chain Node.next h1 orig.myFirst ocells :=
    Chain.frame hc (fun x hx => h1o x.1 (hdis' x hx).1 (hdis' x hx).2)
  obtain ⟨h2, n1, tail, hloop, hlen2, hframe, hch, hdata1, hdata, hge⟩ :=
    sll_assignLoop_exact ocells h1 orig.myFirst h1.fuel d.1 { d.2 with next := none } hc1
      (fun x hx => (hdis' x hx).1) h1d rfl hc1.length_lt_fuel
  refine ⟨h2, n1, tail, ?_, by omega, ?_, ?_, hdata1, hdata, ?_⟩
  · simp only [assign, Bool.false_eq_true, if_false, hp, hclear, hloop, bind, Except.bind,
      pure, Except.pure]
  · intro a ha ham
    simp only [List.map_cons, List.mem_cons, not_or] at ham
    rw [hframe a (by omega) ham.1]
    exact h1o a ham.1 ham.2
  · rw [hp]
    exact hch
  · intro x hx
    have := hge x hx
    omega

end LListWithDummyNode

/-! ### Deep-copy independence -/

theorem DoublyLinkedList.dll_runAll_frame {α : Type} [BEq α] {h h2 : Heap (DNode α)}
    {B B2 : DoublyLinkedList} {cB : List (Nat × DNode α)} {cs : List (Call α)}
    (hB : DoublyLinkedList.DChain h B.myFirst none cB)
    (hr : DoublyLinkedList.runAll h B cs = .ok (h2, B2)) :
    ∀ a, a < h.length → a ∉ cB.map Prod.fst → h2[a]? = h[a]? := by
  obtain ⟨hcl, hp⟩ := hB.dll_closed
  obtain ⟨_, _, hsame⟩ := DoublyLinkedList.dll_runAll_closed cs h h2 B B2 hcl hp hr
  intro a ha ham
  exact hsame a (fun hS => hS.elim ham (fun hge => absurd ha (by omega)))

theorem LListWithDummyNode.sll_runAll_frame {α : Type} [BEq α] {h h2 : Heap (Node α)}
    {B B2 : LListWithDummyNode} {cB : List (Nat × Node α)} {cs : List (Call α)}
    (hB : Chain Node.next h B.myFirst cB)
    (hr : LListWithDummyNode.runAll h B cs = .ok (h2, B2)) :
    ∀ a, a < h.length → a ∉ cB.map Prod.fst → h2[a]? = h[a]? := by
  obtain ⟨hcl, hp⟩ := hB.closed
  obtain ⟨_, _, hsame⟩ := LListWithDummyNode.sll_runAll_closed cs h h2 B B2 hcl hp hr
  intro a ha ham
  exact hsame a (fun hS => hS.elim ham (fun hge => absurd ha (by omega)))

/-- C29: deep-copy independence, for both container kinds.  Let the nodes of a list `A` form
a chain in the heap, and for the assignment let the nodes of the assigned list form a chain
that has no node in common with `A`.  Then copy construction from `A` and assignment of `A`
return a list `B` whose nodes form a chain that has no node in common with the chain of `A`,
the chain of `A` is as before, and after every sequence of mutator calls on `B` that returns,
the nodes of `A` are still met from `A.myFirst` exactly as before, with the same data and
links.  The object `A` is not passed to the mutators of `B`, so its data members, `mySize`
among them, are the same throughout. -/
theorem deep_copy_independence {α : Type} [BEq α]
    (hd : Heap (DNode α)) (Ad Bd : DoublyLinkedList) (cAd cBd : List (Nat × DNode α))
    (hs : Heap (Node α)) (As Bs : LListWithDummyNode) (dummy : α)
    (cAs cBs : List (Nat × Node α))
    (hAd : Chain DNode.next hd Ad.myFirst cAd) (hBd : Chain DNode.next hd Bd.myFirst cBd)
    (hdd : ∀ x ∈ cAd, x.1 ∉ cBd.map Prod.fst)
    (hAs : Chain Node.next hs As.myFirst cAs) (hBs : Chain Node.next hs Bs.myFirst cBs)
    (hAne : cAs ≠ []) (hBne : cBs ≠ [])
    (hds : ∀ x ∈ cAs, x.1 ∉ cBs.map Prod.fst) :
    (∃ h1 B c1, DoublyLinkedList.copy hd Ad = .ok (h1, B)
        ∧ Chain DNode.next h1 B.myFirst c1 ∧ (∀ x ∈ c1, x.1 ∉ cAd.map Prod.fst)
        ∧ Chain DNode.next h1 Ad.myFirst cAd
        ∧ ∀ cs h2 B2, DoublyLinkedList.runAll h1 B cs = .ok (h2, B2) →
            Chain DNode.next h2 Ad.myFirst cAd)
    ∧ (∃ h1 B c1, DoublyLinkedList.assign hd Bd false Ad = .ok (h1, B)
        ∧ Chain DNode.next h1 B.myFirst c1 ∧ (∀ x ∈ c1, x.1 ∉ cAd.map Prod.fst)
        ∧ Chain DNode.next h1 Ad.myFirst cAd
        ∧ ∀ cs h2 B2, DoublyLinkedList.runAll h1 B cs = .ok (h2, B2) →
            Chain DNode.next h2 Ad.myFirst cAd)
    ∧ (∃ h1 B c1, LListWithDummyNode.copy hs As dummy = .ok (h1, B)
        ∧ Chain Node.next h1 B.myFirst c1 ∧ (∀ x ∈ c1, x.1 ∉ cAs.map Prod.fst)
        ∧ Chain Node.next h1 As.myFirst cAs
        ∧ ∀ cs h2 B2, LListWithDummyNode.runAll h1 B cs = .ok (h2, B2) →
            Chain Node.next h2 As.myFirst cAs)
    ∧ (∃ h1 B c1, LListWithDummyNode.assign hs Bs false As = .ok (h1, B)
        ∧ Chain Node.next h1 B.myFirst c1 ∧ (∀ x ∈ c1, x.1 ∉ cAs.map Prod.fst)
        ∧ Chain Node.next h1 As.myFirst cAs
        ∧ ∀ cs h2 B2, LListWithDummyNode.runAll h1 B cs = .ok (h2, B2) →
            Chain Node.next h2 As.myFirst cAs) := by
  have hAdlt : ∀ x ∈ cAd, x.1 < hd.length := fun x hx => Chain.addr_lt_of_mem hAd hx
  have hAslt : ∀ x ∈ cAs, x.1 < hs.length := fun x hx => Chain.addr_lt_of_mem hAs hx
  refine ⟨?_, ?_, ?_, ?_⟩
  · obtain ⟨h1, B, c1, hcopy, _, hlen, hframe, hch, _, hge⟩ :=
      DoublyLinkedList.dll_copy_exact hd Ad cAd hAd
    have hdis : ∀ x ∈ c1, x.1 ∉ cAd.map Prod.fst := by
      intro x hx hm
      obtain ⟨y, hy, hxy⟩ := List.mem_map.mp hm
      have := hge x hx
      have := hAdlt y hy
      omega
    have hA1 : Chain DNode.next h1 Ad.myFirst cAd :=
      Chain.frame hAd (fun x hx => hframe x.1 (hAdlt x hx))
    refine ⟨h1, B, c1, hcopy, hch.toChain, hdis, hA1, ?_⟩
    intro cs h2 B2 hr
    refine Chain.frame hA1 (fun x hx => ?_)
    exact DoublyLinkedList.dll_runAll_frame hch hr x.1 (Chain.addr_lt_of_mem hA1 hx)
      (fun hm => by
        obtain ⟨y, hy, hxy⟩ := List.mem_map.mp hm
        exact hdis y hy (hxy ▸ List.mem_map.mpr ⟨x, hx, rfl⟩))
  · obtain ⟨h1, B, c1, hasg, _, hlen, hframe, hch, _, hge⟩ :=
      DoublyLinkedList.dll_assign_exact hd Bd Ad cBd cAd hBd hAd hdd
    have hdis : ∀ x ∈ c1, x.1 ∉ cAd.map Prod.fst := by
      intro x hx hm
      obtain ⟨y, hy, hxy⟩ := List.mem_map.mp hm
      have := hge x hx
      have := hAdlt y hy
      omega
    have hA1 : Chain DNode.next h1 Ad.myFirst cAd :=
      Chain.frame hAd (fun x hx => hframe x.1 (hAdlt x hx) (hdd x hx))
    refine ⟨h1, B, c1, hasg, hch.toChain, hdis, hA1, ?_⟩
    intro cs h2 B2 hr
    refine Chain.frame hA1 (fun x hx => ?_)
    exact DoublyLinkedList.dll_runAll_frame hch hr x.1 (Chain.addr_lt_of_mem hA1 hx)
      (fun hm => by
        obtain ⟨y, hy, hxy⟩ := List.mem_map.mp hm
        exact hdis y hy (hxy ▸ List.mem_map.mpr ⟨x, hx, rfl⟩))
  · obtain ⟨dA, rA, rfl⟩ := List.exists_cons_of_ne_nil hAne
    obtain ⟨h1, n1, hcopy, hlen, hframe, hch, _⟩ :=
      LListWithDummyNode.sll_copy_exact hs As dummy dA rA hAs
    have hdis : ∀ x ∈ [(hs.length, n1)], x.1 ∉ (dA :: rA).map Prod.fst := by
      intro x hx hm
      obtain ⟨y, hy, hxy⟩ := List.mem_map.mp hm
      simp only [List.mem_singleton] at hx
      subst hx
      have := hAslt y hy
      simp only at hxy
      omega
    have hA1 : Chain Node.next h1 As.myFirst (dA :: rA) :=
      Chain.frame hAs (fun x hx => hframe x.1 (hAslt x hx))
    refine ⟨h1, _, [(hs.length, n1)], hcopy, hch, hdis, hA1, ?_⟩
    intro cs h2 B2 hr
    refine Chain.frame hA1 (fun x hx => ?_)
    exact LListWithDummyNode.sll_runAll_frame hch hr x.1 (Chain.addr_lt_of_mem hA1 hx)
      (fun hm => by
        obtain ⟨y, hy, hxy⟩ := List.mem_map.mp hm
        exact hdis y hy (hxy ▸ List.mem_map.mpr ⟨x, hx, rfl⟩))
  · obtain ⟨dB, rB, rfl⟩ := List.exists_cons_of_ne_nil hBne
    obtain ⟨h1, n1, tail, hasg, hlen, hframe, hch, _, _, hge⟩ :=
      LListWithDummyNode.sll_assign_exact hs Bs As dB rB cAs hBs hAs hds
    have hdis : ∀ x ∈ (dB.1, n1) :: tail, x.1 ∉ cAs.map Prod.fst := by
      intro x hx hm
      obtain ⟨y, hy, hxy⟩ := List.mem_map.mp hm
      rcases List.mem_cons.mp hx with rfl | hx
      · exact hds y hy (by simp [hxy])
      · have := hge x hx
        have := hAslt y hy
        omega
    have hA1 : Chain Node.next h1 As.myFirst cAs :=
      Chain.frame hAs (fun x hx => hframe x.1 (hAslt x hx) (hds x hx))
    refine ⟨h1, _, (dB.1, n1) :: tail, hasg, hch, hdis, hA1, ?_⟩
    intro cs h2 B2 hr
    have hch1 : Chain Node.next h1
        ({ Bs with mySize := As.mySize } : LListWithDummyNode).myFirst
        ((dB.1, n1) :: tail) := hch
    refine Chain.frame hA1 (fun x hx => ?_)
    exact LListWithDummyNode.sll_runAll_frame hch1 hr x.1 (Chain.addr_lt_of_mem hA1 hx)
      (fun hm => by
        obtain ⟨y, hy, hxy⟩ := List.mem_map.mp hm
        exact hdis y hy (hxy ▸ List.mem_map.mpr ⟨x, hx, rfl⟩))

/-- Witness of C29: the sample lists 5, 7, 5 and 5, 7 as `A`; the assigned lists are an empty
DoublyLinkedList and an empty LListWithDummyNode whose dummy node is at address 3.  The last
part shows a sequence of mutator calls on the copy that returns. -/
theorem deep_copy_independence_witness :
    (Chain DNode.next DoublyLinkedList.sampleHeap DoublyLinkedList.sampleList.myFirst
        [(0, ⟨5, some 1, none⟩), (1, ⟨7, some 2, some 0⟩), (2, ⟨5, none, some 1⟩)]
      ∧ Chain Node.next (LListWithDummyNode.sampleHeap ++ [some ⟨0, none⟩])
          LListWithDummyNode.sampleList.myFirst
          [(0, ⟨0, some 1⟩), (1, ⟨5, some 2⟩), (2, ⟨7, none⟩)]
      ∧ Chain Node.next (LListWithDummyNode.sampleHeap ++ [some ⟨0, none⟩]) (some 3)
          [(3, ⟨0, none⟩)])
    ∧ ((∃ h1 B c1, DoublyLinkedList.copy DoublyLinkedList.sampleHeap
            DoublyLinkedList.sampleList = .ok (h1, B)
          ∧ Chain DNode.next h1 B.myFirst c1 ∧ (∀ x ∈ c1, x.1 ∉ [0, 1, 2])
          ∧ Chain DNode.next h1 DoublyLinkedList.sampleList.myFirst
              [(0, ⟨5, some 1, none⟩), (1, ⟨7, some 2, some 0⟩), (2, ⟨5, none, some 1⟩)]
          ∧ ∀ cs h2 B2, DoublyLinkedList.runAll h1 B cs = .ok (h2, B2) →
              Chain DNode.next h2 DoublyLinkedList.sampleList.myFirst
                [(0, ⟨5, some 1, none⟩), (1, ⟨7, some 2, some 0⟩), (2, ⟨5, none, some 1⟩)])
      ∧ (∃ h1 B c1, LListWithDummyNode.assign
            (LListWithDummyNode.sampleHeap ++ [some ⟨0, none⟩])
            { myFirst := some 3, mySize := 0 } false LListWithDummyNode.sampleList
              = .ok (h1, B)
          ∧ Chain Node.next h1 B.myFirst c1 ∧ (∀ x ∈ c1, x.1 ∉ [0, 1, 2])
          ∧ Chain Node.next h1 LListWithDummyNode.sampleList.myFirst
              [(0, ⟨0, some 1⟩), (1, ⟨5, some 2⟩), (2, ⟨7, none⟩)]
          ∧ ∀ cs h2 B2, LListWithDummyNode.runAll h1 B cs = .ok (h2, B2) →
              Chain Node.next h2 LListWithDummyNode.sampleList.myFirst
                [(0, ⟨0, some 1⟩), (1, ⟨5, some 2⟩), (2, ⟨7, none⟩)]))
    ∧ (∃ h1 B h2 B2, DoublyLinkedList.copy DoublyLinkedList.sampleHeap
          DoublyLinkedList.sampleList = .ok (h1, B)
        ∧ DoublyLinkedList.runAll h1 B [Call.deleteFromBegin, Call.insertAtEnd 9,
            Call.deleteAtElement 7] = .ok (h2, B2)) :=
  have hA : Chain DNode.next DoublyLinkedList.sampleHeap DoublyLinkedList.sampleList.myFirst
      [(0, ⟨5, some 1, none⟩), (1, ⟨7, some 2, some 0⟩), (2, ⟨5, none, some 1⟩)] :=
    ⟨rfl, rfl, rfl, rfl, rfl, rfl, rfl⟩
  have hAs : Chain Node.next (LListWithDummyNode.sampleHeap ++ [some ⟨0, none⟩])
      LListWithDummyNode.sampleList.myFirst
      [(0, ⟨0, some 1⟩), (1, ⟨5, some 2⟩), (2, ⟨7, none⟩)] :=
    ⟨rfl, rfl, rfl, rfl, rfl, rfl, rfl⟩
  have hBs : Chain Node.next (LListWithDummyNode.sampleHeap ++ [some ⟨0, none⟩]) (some 3)
      [(3, ⟨0, none⟩)] := ⟨rfl, rfl, rfl⟩
  have key := deep_copy_independence DoublyLinkedList.sampleHeap DoublyLinkedList.sampleList
    DoublyLinkedList.new
    [(0, ⟨5, some 1, none⟩), (1, ⟨7, some 2, some 0⟩), (2, ⟨5, none, some 1⟩)] []
    (LListWithDummyNode.sampleHeap ++ [some ⟨0, none⟩]) LListWithDummyNode.sampleList
    { myFirst := some 3, mySize := 0 } 0
    [(0, ⟨0, some 1⟩), (1, ⟨5, some 2⟩), (2, ⟨7, none⟩)] [(3, ⟨0, none⟩)]
    hA rfl (by simp) hAs hBs (by simp) (by simp) (by decide)
  ⟨⟨hA, hAs, hBs⟩, ⟨key.1, key.2.2.2⟩, ⟨_, _, _, _, rfl, rfl⟩⟩

/-! ### The link invariant of DoublyLinkedList -/

namespace DoublyLinkedList

variable {α : Type}

theorem dll_unlink_last {h : Heap (DNode α)} {b c : Nat × DNode α}
    {pre : List (Nat × DNode α)} {p q : Ptr} (hc : DChain h p q (pre ++ [b, c])) :
    ∃ h1 h2, h.modify (some b.1) (fun n => { n with next := none }) = .ok h1 ∧
      h1.load (some c.1) = .ok c.2 ∧ h1.free (some c.1) = .ok h2 ∧
      DChain h2 p q (pre ++ [(b.1, { b.2 with next := none })]) := by
  obtain ⟨hbc, hpre, _, _⟩ := nodup_mid hc.toChain.nodup
  obtain ⟨hb, _, hcc, _, _⟩ := DChain.mid hc
  have hm1 := Heap.modify_of_cell hb (fun n => { n with next := none })
  have hc1 : (h.set b.1 (some { b.2 with next := none }))[c.1]? = some (some c.2) := by
    rw [List.getElem?_set_ne hbc]; exact hcc
  refine ⟨_, _, hm1, Heap.load_of_cell hc1, Heap.free_of_cell hc1, ?_⟩
  refine DChain.dll_append_frame hc ?_ ?_
  · intro x hx
    obtain ⟨hxb, hxc, _⟩ := hpre x hx
    rw [List.getElem?_set_ne (Ne.symm hxc), List.getElem?_set_ne (Ne.symm hxb)]
  · simp only [DChain]
    refine ⟨trivial, ?_, trivial, trivial⟩
    rw [List.getElem?_set_ne (Ne.symm hbc)]
    exact Heap.cell_set_self _ hb

theorem dll_unlink_mid {h : Heap (DNode α)} {b c d : Nat × DNode α}
    {pre r : List (Nat × DNode α)} {p q : Ptr}
    (hc : DChain h p q (pre ++ b :: c :: d :: r)) :
    ∃ h1 h2 h3, h.modify (some b.1) (fun n => { n with next := some d.1 }) = .ok h1 ∧
      h1.load (some c.1) = .ok c.2 ∧
      h1.modify (some d.1) (fun n => { n with prev := some b.1 }) = .ok h2 ∧
      h2.free (some c.1) = .ok h3 ∧
      DChain h3 p q
        (pre ++ (b.1, { b.2 with next := some d.1 }) :: (d.1, { d.2 with prev := some b.1 })
          :: r) := by
  obtain ⟨hbc, hpre, hpost, hpn⟩ := nodup_mid hc.toChain.nodup
  obtain ⟨hb, _, hcc, _, ht⟩ := DChain.mid hc
  simp only [DChain] at ht
  obtain ⟨_, hdc, _, hr2⟩ := ht
  obtain ⟨hdb, hdcne⟩ := hpost d (List.mem_cons_self _ _)
  simp only [List.map_cons, List.nodup_cons] at hpn
  have hm1 := Heap.modify_of_cell hb (fun n => { n with next := some d.1 })
  have hc1 : (h.set b.1 (some { b.2 with next := some d.1 }))[c.1]? = some (some c.2) := by
    rw [List.getElem?_set_ne hbc]; exact hcc
  have hd1 : (h.set b.1 (some { b.2 with next := some d.1 }))[d.1]? = some (some d.2) := by
    rw [List.getElem?_set_ne (Ne.symm hdb)]; exact hdc
  have hm2 := Heap.modify_of_cell hd1 (fun n => { n with prev := some b.1 })
  have hc2 : ((h.set b.1 (some { b.2 with next := some d.1 })).set d.1
      (some { d.2 with prev := some b.1 }))[c.1]? = some (some c.2) := by
    rw [List.getElem?_set_ne hdcne]; exact hc1
  refine ⟨_, _, _, hm1, Heap.load_of_cell hc1, hm2, Heap.free_of_cell hc2, ?_⟩
  refine DChain.dll_append_frame hc ?_ ?_
  · intro x hx
    obtain ⟨hxb, hxc, hxp⟩ := hpre x hx
    rw [List.getElem?_set_ne (Ne.symm hxc),
      List.getElem?_set_ne (Ne.symm (hxp d (List.mem_cons_self _ _))),
      List.getElem?_set_ne (Ne.symm hxb)]
  · simp only [DChain]
    refine ⟨trivial, ?_, trivial, trivial, ?_, trivial, ?_⟩
    · rw [List.getElem?_set_ne (Ne.symm hbc), List.getElem?_set_ne hdb]
      exact Heap.cell_set_self _ hb
    · rw [List.getElem?_set_ne (Ne.symm hdcne)]
      exact Heap.cell_set_self _ hd1
    · refine DChain.dll_frame hr2 ?_
      intro x hx
      have hxm : x.1 ∈ r.map Prod.fst := List.mem_map.mpr ⟨x, hx, rfl⟩
      obtain ⟨hxb, hxc⟩ := hpost x (List.mem_cons_of_mem _ hx)
      rw [List.getElem?_set_ne (Ne.symm hxc),
        List.getElem?_set_ne (fun he => hpn.1 (by rw [he]; exact hxm)),
        List.getElem?_set_ne (Ne.symm hxb)]

theorem dll_advance_past {h : Heap (DNode α)} :
    ∀ (cells : List (Nat × DNode α)) (p q : Ptr) (i : Nat), cells.length ≤ i →
      Chain DNode.next h p cells → advance h i p = .ok q → q = none
  | [], p, q, 0, _, hc, ha => by
    simp only [Chain] at hc
    simp only [advance, Except.ok.injEq] at ha
    rw [← ha, hc]
  | [], p, q, i + 1, _, hc, ha => by
    simp only [Chain] at hc
    subst hc
    simp [advance, Heap.load, bind, Except.bind] at ha
  | c :: rest, p, q, 0, hi, _, _ => by simp at hi
  | c :: rest, p, q, i + 1, hi, hc, ha => by
    simp only [Chain] at hc
    obtain ⟨hp, hcell, ht⟩ := hc
    simp only [advance, hp, Heap.load_of_cell hcell, bind, Except.bind] at ha
    exact dll_advance_past rest c.2.next q i (by simpa using hi) ht ha

theorem dll_deleteAtIndex_zero (h : Heap (DNode α)) (l : DoublyLinkedList)
    (he : l.isEmpty = false) (hs : ¬ 0 ≥ toUnsigned l.mySize) :
    deleteAtIndex h l 0 = deleteFromBegin h l := by
  simp only [deleteAtIndex, deleteFromBegin, he, Bool.false_eq_true, if_false, if_neg hs,
    if_true]
  cases h.load l.myFirst with
  | error e => rfl
  | ok t =>
    simp only [bind, Except.bind]
    cases ht : t.next with
    | none => rfl
    | some b => rfl

end DoublyLinkedList

namespace DoublyLinkedList

variable {α : Type}

theorem dll_deleteFromBegin_chain {h h1 : Heap (DNode α)} {l l1 : DoublyLinkedList}
    {r : Bool} {cells : List (Nat × DNode α)} (hc : DChain h l.myFirst none cells)
    (hr : deleteFromBegin h l = .ok (h1, l1, r)) :
    ∃ cells1, DChain h1 l1.myFirst none cells1 := by
  cases cells with
  | nil =>
    rw [dll_deleteFromBegin_nil h l hc] at hr
    simp only [Except.ok.injEq, Prod.mk.injEq] at hr
    obtain ⟨rfl, rfl, rfl⟩ := hr
    exact ⟨[], hc⟩
  | cons c rest =>
    obtain ⟨h2, l2, cells1, hop, _, hch, _⟩ := dll_deleteFromBegin_exact h l c rest hc
    rw [hop] at hr
    simp only [Except.ok.injEq, Prod.mk.injEq] at hr
    obtain ⟨rfl, rfl, rfl⟩ := hr
    exact ⟨cells1, hch⟩

theorem dll_deleteAtIndex_chain {h h1 : Heap (DNode α)} {l l1 : DoublyLinkedList}
    {i : Nat} {r : Bool} {cells : List (Nat × DNode α)}
    (hc : DChain h l.myFirst none cells)
    (hr : deleteAtIndex h l i = .ok (h1, l1, r)) :
    ∃ cells1, DChain h1 l1.myFirst none cells1 := by
  by_cases he : l.isEmpty = true
  · simp only [deleteAtIndex, he, if_true, Except.ok.injEq, Prod.mk.injEq] at hr
    obtain ⟨rfl, rfl, rfl⟩ := hr
    exact ⟨cells, hc⟩
  have he' : l.isEmpty = false := by simpa using he
  by_cases hs : i ≥ toUnsigned l.mySize
  · simp only [deleteAtIndex, he', Bool.false_eq_true, if_false, if_pos hs, Except.ok.injEq,
      Prod.mk.injEq] at hr
    obtain ⟨rfl, rfl, rfl⟩ := hr
    exact ⟨cells, hc⟩
  cases i with
  | zero =>
    rw [dll_deleteAtIndex_zero h l he' hs] at hr
    exact dll_deleteFromBegin_chain hc hr
  | succ j =>
    have hne : ¬ j + 1 = 0 := by omega
    simp only [deleteAtIndex, he', Bool.false_eq_true, if_false, if_neg hs, if_neg hne] at hr
    by_cases hj : j + 1 < cells.length
    · obtain ⟨pre, b, c, post, rfl, hl⟩ := exists_split_at cells j hj
      subst hl
      have hadv : advance h (pre.length + 1) l.myFirst = .ok (some c.1) := by
        have hch : Chain DNode.next h l.myFirst ((pre ++ [b]) ++ c :: post) := by
          simpa using hc.toChain
        simpa using dll_advance_prefix (pre ++ [b]) l.myFirst hch
      obtain ⟨_, _, hcc, hcp, ht⟩ := DChain.mid hc
      cases post with
      | nil =>
        simp only [DChain] at ht
        obtain ⟨h2, h3, hm1, hl1, hf, hch⟩ := dll_unlink_last hc
        simp only [hadv, Heap.load_of_cell hcc, hcp, ht, hm1, hl1, hf, bind, Except.bind,
          pure, Except.pure, Except.ok.injEq, Prod.mk.injEq] at hr
        obtain ⟨rfl, rfl, rfl⟩ := hr
        exact ⟨_, hch⟩
      | cons d post =>
        simp only [DChain] at ht
        obtain ⟨h2, h3, h4, hm1, hl1, hm2, hf, hch⟩ := dll_unlink_mid hc
        simp only [hadv, Heap.load_of_cell hcc, hcp, ht.1, hm1, hl1, hm2, hf, bind,
          Except.bind, pure, Except.pure, Except.ok.injEq, Prod.mk.injEq] at hr
        obtain ⟨rfl, rfl, rfl⟩ := hr
        exact ⟨_, hch⟩
    · cases hadv : advance h (j + 1) l.myFirst with
      | error err => simp [hadv, bind, Except.bind] at hr
      | ok temp =>
        have hnone := dll_advance_past cells l.myFirst temp (j + 1) (by omega) hc.toChain hadv
        subst hnone
        simp [hadv, Heap.load, bind, Except.bind] at hr

theorem dll_deleteAtElementLoop_chain [BEq α] {h1 : Heap (DNode α)} {found : Bool} (e : α) :
    ∀ (post pre : List (Nat × DNode α)) (b : Nat × DNode α) (h : Heap (DNode α)) (p q : Ptr)
      (k : Nat),
      DChain h p q (pre ++ b :: post) → post.length < k →
      deleteAtElementLoop e k h b.2.next = .ok (h1, found) →
      ∃ cells1, DChain h1 p q cells1
  | [], pre, b, h, p, q, k, hc, hk, hr => by
    obtain ⟨k, rfl⟩ : ∃ j, k = j + 1 := ⟨k - 1, by simp at hk; omega⟩
    have hbn := (DChain.dll_last hc).2
    simp only [hbn, deleteAtElementLoop, Except.ok.injEq, Prod.mk.injEq] at hr
    obtain ⟨rfl, rfl⟩ := hr
    exact ⟨_, hc⟩
  | c :: post, pre, b, h, p, q, k, hc, hk, hr => by
    obtain ⟨k, rfl⟩ : ∃ j, k = j + 1 := ⟨k - 1, by simp at hk; omega⟩
    obtain ⟨_, hbn, hcc, hcp, ht⟩ := DChain.mid hc
    simp only [hbn, deleteAtElementLoop, Heap.load_of_cell hcc, bind, Except.bind] at hr
    by_cases hm : (c.2.data == e) = true
    · simp only [hm, if_true] at hr
      cases post with
      | nil =>
        simp only [DChain] at ht
        obtain ⟨h2, h3, hm1, hl1, hf, hch⟩ := dll_unlink_last hc
        simp only [hcp, ht, hm1, hl1] at hr
        simp [Heap.modify, Heap.load] at hr
      | cons d post =>
        simp only [DChain] at ht
        obtain ⟨h2, h3, h4, hm1, hl1, hm2, hf, hch⟩ := dll_unlink_mid hc
        simp only [hcp, ht.1, hm1, hl1, hm2, hf, pure, Except.pure,
          Except.ok.injEq, Prod.mk.injEq] at hr
        obtain ⟨rfl, rfl⟩ := hr
        exact ⟨_, hch⟩
    · simp only [hm, Bool.false_eq_true, if_false] at hr
      have hc' : DChain h p q ((pre ++ [b]) ++ c :: post) := by simpa using hc
      exact dll_deleteAtElementLoop_chain e post (pre ++ [b]) c h p q k hc'
        (by simp only [List.length_cons] at hk; omega) hr

theorem dll_deleteAtElement_chain [BEq α] {h h1 : Heap (DNode α)} {l l1 : DoublyLinkedList}
    {e : α} {r : Bool} {cells : List (Nat × DNode α)}
    (hc : DChain h l.myFirst none cells)
    (hr : deleteAtElement h l e = .ok (h1, l1, r)) :
    ∃ cells1, DChain h1 l1.myFirst none cells1 := by
  cases cells with
  | nil =>
    have hp : l.myFirst = none := by simpa only [DChain] using hc
    simp only [deleteAtElement, isEmpty, hp, beq_self_eq_true, if_true, Except.ok.injEq,
      Prod.mk.injEq] at hr
    obtain ⟨rfl, rfl, rfl⟩ := hr
    exact ⟨[], hc⟩
  | cons c rest =>
    have hlen := hc.toChain.length_lt_fuel
    have hc0 := hc
    simp only [DChain] at hc
    obtain ⟨hp, hcell, _, _⟩ := hc
    have he : l.isEmpty = false := by simp [isEmpty, hp]
    simp only [deleteAtElement, he, Bool.false_eq_true, if_false, hp, Heap.load_of_cell hcell,
      bind, Except.bind] at hr
    by_cases hm : (c.2.data == e) = true
    · simp only [hm, if_true] at hr
      exact dll_deleteFromBegin_chain hc0 hr
    · simp only [hm, Bool.false_eq_true, if_false] at hr
      have hk : h.fuel = h.length + 1 := rfl
      simp only [hk, deleteAtElementLoop, Heap.load_of_cell hcell, hm, Bool.false_eq_true,
        if_false, bind, Except.bind] at hr
      cases hloop : deleteAtElementLoop e h.length h c.2.next with
      | error err => simp [hloop] at hr
      | ok res =>
        obtain ⟨h2, found⟩ := res
        have hc' : DChain h l.myFirst none ([] ++ c :: rest) := hc0
        obtain ⟨cells1, hch⟩ := dll_deleteAtElementLoop_chain e rest [] c h l.myFirst none
          h.length hc' (by simp only [List.length_cons, hk] at hlen; omega) hloop
        simp only [hloop] at hr
        cases found with
        | true =>
          simp only [if_true, pure, Except.pure, Except.ok.injEq, Prod.mk.injEq] at hr
          obtain ⟨rfl, rfl, rfl⟩ := hr
          exact ⟨cells1, by rw [← hp]; exact hch⟩
        | false =>
          simp only [Bool.false_eq_true, if_false, pure, Except.pure, Except.ok.injEq,
            Prod.mk.injEq] at hr
          obtain ⟨rfl, rfl, rfl⟩ := hr
          exact ⟨cells1, hch⟩

theorem dll_run_chain [BEq α] {h h1 : Heap (DNode α)} {l l1 : DoublyLinkedList}
    {c : Call α} {r : Bool} {cells : List (Nat × DNode α)}
    (hc : DChain h l.myFirst none cells) (hr : run h l c = .ok (h1, l1, r)) :
    ∃ cells1, DChain h1 l1.myFirst none cells1 := by
  cases c with
  | insertAtBegin v =>
    obtain ⟨h2, cells1, hop, hch, _⟩ := dll_insertAtBegin_exact h l v cells hc
    simp only [run, hop, Except.ok.injEq, Prod.mk.injEq] at hr
    obtain ⟨rfl, rfl, rfl⟩ := hr
    exact ⟨cells1, hch⟩
  | insertAtEnd v =>
    obtain ⟨h2, l2, cells1, hop, _, hch, _⟩ := dll_insertAtEnd_exact h l v cells hc
    simp only [run, hop, Except.ok.injEq, Prod.mk.injEq] at hr
    obtain ⟨rfl, rfl, rfl⟩ := hr
    exact ⟨cells1, hch⟩
  | deleteFromBegin => exact dll_deleteFromBegin_chain hc hr
  | deleteFromEnd =>
    by_cases hne : cells = []
    · subst hne
      simp only [run, dll_deleteFromEnd_nil h l hc, Except.ok.injEq, Prod.mk.injEq] at hr
      obtain ⟨rfl, rfl, rfl⟩ := hr
      exact ⟨[], hc⟩
    · obtain ⟨h2, l2, cells1, hop, _, hch, _⟩ := dll_deleteFromEnd_exact h l cells hne hc
      simp only [run, hop, Except.ok.injEq, Prod.mk.injEq] at hr
      obtain ⟨rfl, rfl, rfl⟩ := hr
      exact ⟨cells1, hch⟩
  | deleteAtElement e => exact dll_deleteAtElement_chain hc hr
  | deleteAtIndex i => exact dll_deleteAtIndex_chain hc hr

end DoublyLinkedList

namespace DoublyLinkedList

variable {α : Type}

theorem DChain.dll_links {h : Heap (DNode α)} :
    ∀ {cells : List (Nat × DNode α)} {p q : Ptr}, DChain h p q cells →
      (∀ c, cells.head? = some c → c.2.prev = q) ∧
      (∀ c, cells.getLast? = some c → c.2.next = none) ∧
      ∀ i c d, cells[i]? = some c → cells[i + 1]? = some d → d.2.prev = some c.1
  | [], _, _, _ => by simp
  | c0 :: rest, p, q, hc => by
    simp only [DChain] at hc
    obtain ⟨_, _, hprev, ht⟩ := hc
    obtain ⟨ih1, ih2, ih3⟩ := DChain.dll_links ht
    refine ⟨?_, ?_, ?_⟩
    · intro c hcc
      simp only [List.head?_cons, Option.some.injEq] at hcc
      subst hcc
      exact hprev
    · intro c hcc
      cases rest with
      | nil =>
        simp only [List.getLast?_singleton, Option.some.injEq] at hcc
        subst hcc
        simpa only [DChain] using ht
      | cons d r =>
        rw [List.getLast?_cons_cons] at hcc
        exact ih2 c hcc
    · intro i c d hi hd
      cases i with
      | zero =>
        simp only [List.getElem?_cons_zero, Option.some.injEq] at hi
        subst hi
        simp only [zero_add, List.getElem?_cons_succ] at hd
        apply ih1 d
        cases rest with
        | nil => simp at hd
        | cons x r => simpa using hd
      | succ j =>
        simp only [List.getElem?_cons_succ] at hi hd
        exact ih3 j c d hi hd

theorem Separated.dll_addr_lt {w : World α} {ch : Nat → List (Nat × DNode α)}
    (hs : Separated w ch) {i : Nat} (hi : i < w.objs.length) :
    ∀ x ∈ ch i, x.1 < w.heap.length := by
  intro x hx
  have hl : w.objs[i]? = some w.objs[i] := List.getElem?_eq_getElem hi
  exact Chain.addr_lt_of_mem (hs.1 i _ hl).toChain hx

theorem Separated.update {w : World α} {ch : Nat → List (Nat × DNode α)}
    (hs : Separated w ch) {i : Nat} {l l1 : DoublyLinkedList} {h1 : Heap (DNode α)}
    {cells1 : List (Nat × DNode α)}
    (hi : w.objs[i]? = some l) (hch : DChain h1 l1.myFirst none cells1)
    (hframe : ∀ a, a < w.heap.length → a ∉ (ch i).map Prod.fst → h1[a]? = w.heap[a]?)
    (hnew : ∀ x ∈ cells1, x.1 ∈ (ch i).map Prod.fst ∨ w.heap.length ≤ x.1) :
    Separated { heap := h1, objs := w.objs.set i l1 } (Function.update ch i cells1) := by
  have hilt : i < w.objs.length := by
    by_contra hge
    rw [List.getElem?_eq_none (by omega)] at hi
    cases hi
  refine ⟨?_, ?_⟩
  · intro k l' hk
    by_cases hki : k = i
    · subst hki
      simp only [List.getElem?_set_eq_of_lt _ hilt, Option.some.injEq] at hk
      subst hk
      simpa using hch
    · simp only [List.getElem?_set_ne (Ne.symm hki)] at hk
      have hklt : k < w.objs.length := by
        by_contra hge
        rw [List.getElem?_eq_none (by omega)] at hk
        cases hk
      rw [Function.update_noteq hki]
      refine DChain.dll_frame (hs.1 k l' hk) (fun x hx => ?_)
      exact hframe x.1 (hs.dll_addr_lt hklt x hx) (hs.2 k i hki hklt hilt x hx)
  · intro a b hab ha hb x hx hm
    simp only [List.length_set] at ha hb
    obtain ⟨y, hy, hxy⟩ := List.mem_map.mp hm
    by_cases hai : a = i
    · subst hai
      have hbi : b ≠ a := Ne.symm hab
      rw [Function.update_same] at hx
      rw [Function.update_noteq hbi] at hy
      have hylt := hs.dll_addr_lt hb y hy
      rcases hnew x hx with hin | hge
      · obtain ⟨z, hz, hzx⟩ := List.mem_map.mp hin
        exact hs.2 a b hab ha hb z hz (List.mem_map.mpr ⟨y, hy, by rw [hxy, hzx]⟩)
      · omega
    · rw [Function.update_noteq hai] at hx
      have hxlt := hs.dll_addr_lt ha x hx
      by_cases hbi : b = i
      · subst hbi
        rw [Function.update_same] at hy
        rcases hnew y hy with hin | hge
        · exact hs.2 a b hab ha hb x hx (by rw [← hxy]; exact hin)
        · omega
      · rw [Function.update_noteq hbi] at hy
        exact hs.2 a b hab ha hb x hx (List.mem_map.mpr ⟨y, hy, hxy⟩)

theorem Separated.push {w : World α} {ch : Nat → List (Nat × DNode α)}
    (hs : Separated w ch) {l1 : DoublyLinkedList} {h1 : Heap (DNode α)}
    {cells1 : List (Nat × DNode α)} (hch : DChain h1 l1.myFirst none cells1)
    (hframe : ∀ a, a < w.heap.length → h1[a]? = w.heap[a]?)
    (hnew : ∀ x ∈ cells1, w.heap.length ≤ x.1) :
    Separated { heap := h1, objs := w.objs ++ [l1] }
      (Function.update ch w.objs.length cells1) := by
  refine ⟨?_, ?_⟩
  · intro k l' hk
    by_cases hkn : k = w.objs.length
    · subst hkn
      simp only [List.getElem?_concat_length, Option.some.injEq] at hk
      subst hk
      simpa using hch
    · have hklt : k < w.objs.length := by
        by_contra hge
        rw [List.getElem?_eq_none (by simp; omega)] at hk
        cases hk
      simp only [List.getElem?_append_left hklt] at hk
      rw [Function.update_noteq hkn]
      refine DChain.dll_frame (hs.1 k l' hk) (fun x hx => ?_)
      exact hframe x.1 (hs.dll_addr_lt hklt x hx)
  · intro a b hab ha hb x hx hm
    simp only [List.length_append, List.length_singleton] at ha hb
    obtain ⟨y, hy, hxy⟩ := List.mem_map.mp hm
    by_cases han : a = w.objs.length
    · subst han
      have hbn : b ≠ w.objs.length := Ne.symm hab
      rw [Function.update_same] at hx
      rw [Function.update_noteq hbn] at hy
      have hylt := hs.dll_addr_lt (by omega) y hy
      have := hnew x hx
      omega
    · rw [Function.update_noteq han] at hx
      have hxlt := hs.dll_addr_lt (by omega) x hx
      by_cases hbn : b = w.objs.length
      · subst hbn
        rw [Function.update_same] at hy
        have := hnew y hy
        omega
      · rw [Function.update_noteq hbn] at hy
        exact hs.2 a b hab (by omega) (by omega) x hx (List.mem_map.mpr ⟨y, hy, hxy⟩)

end DoublyLinkedList

namespace DoublyLinkedList

variable {α : Type}

theorem dll_exec_separated [BEq α] {w w1 : World α} {ch : Nat → List (Nat × DNode α)}
    (hs : Separated w ch) {s : Stmt α} (hr : exec w s = .ok w1) :
    ∃ ch1, Separated w1 ch1 := by
  cases s with
  | construct =>
    simp only [exec, Except.ok.injEq] at hr
    subst hr
    have hnil : DChain w.heap DoublyLinkedList.new.myFirst none [] := by simp [DChain, new]
    exact ⟨_, hs.push hnil (fun _ _ => rfl) (by simp)⟩
  | copyConstruct i =>
    simp only [exec] at hr
    cases hi : w.objs[i]? with
    | none =>
      simp only [hi, Except.ok.injEq] at hr
      subst hr
      exact ⟨ch, hs⟩
    | some orig =>
      obtain ⟨h1, l1, cells1, hcopy, _, _, hframe, hch, _, hge⟩ :=
        dll_copy_exact w.heap orig (ch i) (hs.1 i orig hi).toChain
      simp only [hi, hcopy, bind, Except.bind, pure, Except.pure, Except.ok.injEq] at hr
      subst hr
      exact ⟨_, hs.push hch hframe hge⟩
  | assign i j =>
    simp only [exec] at hr
    cases hi : w.objs[i]? with
    | none =>
      simp only [hi, Except.ok.injEq] at hr
      subst hr
      exact ⟨ch, hs⟩
    | some l =>
      cases hj : w.objs[j]? with
      | none =>
        simp only [hi, hj, Except.ok.injEq] at hr
        subst hr
        exact ⟨ch, hs⟩
      | some c =>
        have hilt : i < w.objs.length := by
          by_contra hge
          rw [List.getElem?_eq_none (by omega)] at hi
          cases hi
        have hjlt : j < w.objs.length := by
          by_contra hge
          rw [List.getElem?_eq_none (by omega)] at hj
          cases hj
        by_cases hij : i = j
        · subst hij
          simp only [hi, hj, assign, beq_self_eq_true, if_true, bind, Except.bind, pure,
            Except.pure, Except.ok.injEq] at hr
          subst hr
          exact ⟨_, hs.update hi (hs.1 i l hi) (fun _ _ _ => rfl)
            (fun x hx => Or.inl (List.mem_map.mpr ⟨x, hx, rfl⟩))⟩
        · have hne : (i == j) = false := by simpa using hij
          obtain ⟨h1, l1, cells1, hasg, _, _, hframe, hch, _, hge⟩ :=
            dll_assign_exact w.heap l c (ch i) (ch j) (hs.1 i l hi).toChain
              (hs.1 j c hj).toChain (hs.2 j i (Ne.symm hij) hjlt hilt)
          simp only [hi, hj, hne, hasg, bind, Except.bind, pure, Except.pure,
            Except.ok.injEq] at hr
          subst hr
          exact ⟨_, hs.update hi hch hframe (fun x hx => Or.inr (hge x hx))⟩
  | call i c =>
    simp only [exec] at hr
    cases hi : w.objs[i]? with
    | none =>
      simp only [hi, Except.ok.injEq] at hr
      subst hr
      exact ⟨ch, hs⟩
    | some l =>
      cases hrun : run w.heap l c with
      | error e => simp [hi, hrun, bind, Except.bind] at hr
      | ok res =>
        obtain ⟨h1, l1, r⟩ := res
        simp only [hi, hrun, bind, Except.bind, pure, Except.pure, Except.ok.injEq] at hr
        subst hr
        have hc := hs.1 i l hi
        obtain ⟨cells1, hch⟩ := dll_run_chain hc hrun
        obtain ⟨hcl, hp⟩ := hc.dll_closed
        obtain ⟨hcl1, hp1, hsame⟩ := dll_run_closed hcl hp hrun
        refine ⟨_, hs.update hi hch ?_ ?_⟩
        · intro a ha ham
          exact hsame a (fun hS => hS.elim ham (fun hge => absurd ha (by omega)))
        · intro x hx
          exact Closed.chain_in hcl1 (fun n => by simp [DNode.links]) hp1 hch.toChain x hx

theorem dll_execAll_separated [BEq α] :
    ∀ (prog : List (Stmt α)) (w w1 : World α) (ch : Nat → List (Nat × DNode α)),
      Separated w ch → execAll w prog = .ok w1 → ∃ ch1, Separated w1 ch1
  | [], w, w1, ch, hs, hr => by
    simp only [execAll, Except.ok.injEq] at hr
    subst hr
    exact ⟨ch, hs⟩
  | s :: ss, w, w1, ch, hs, hr => by
    simp only [execAll, bind_eq_ok] at hr
    obtain ⟨w2, h2, hr⟩ := hr
    obtain ⟨ch2, hs2⟩ := dll_exec_separated hs h2
    exact dll_execAll_separated ss w2 w1 ch2 hs2 hr

/-- C27: link invariant of DoublyLinkedList.  A client program starts with no list object, in
any node store, and is any sequence of default constructions, copy constructions,
assignments and calls of the six mutators on the objects constructed so far.  In every state
that such a program reaches, for every list object the nodes met from `myFirst` by the `next`
links form a chain that ends with a null `next` link, the `prev` link of the first node is
null, and the `prev` link of every other node holds the address of the node before it in the
chain.  A call that dereferences a null pointer reaches no state. -/
theorem dll_link_invariant [BEq α] (h0 : Heap (DNode α)) (prog : List (Stmt α))
    (w : World α) (hrun : execAll { heap := h0, objs := [] } prog = .ok w) :
    ∀ l ∈ w.objs, ∃ cells, Chain DNode.next w.heap l.myFirst cells ∧
      (∀ c, cells.head? = some c → c.2.prev = none) ∧
      (∀ c, cells.getLast? = some c → c.2.next = none) ∧
      ∀ i c d, cells[i]? = some c → cells[i + 1]? = some d → d.2.prev = some c.1 := by
  have h0s : Separated { heap := h0, objs := [] } (fun _ => ([] : List (Nat × DNode α))) :=
    ⟨fun i l hi => by simp at hi, fun i j _ hi _ => by simp at hi⟩
  obtain ⟨ch, hs⟩ := dll_execAll_separated prog _ w _ h0s hrun
  intro l hl
  obtain ⟨i, hi⟩ := List.mem_iff_getElem?.mp hl
  have hc := hs.1 i l hi
  exact ⟨ch i, hc.toChain, hc.dll_links⟩

/-- Witness of C27: a program that builds the list 2, 1, copies it, deletes from the copy and
from the original, and assigns the copy to a third list; the final state has three objects. -/
theorem dll_link_invariant_witness :
    execAll { heap := [], objs := [] }
        [Stmt.construct, Stmt.call 0 (Call.insertAtEnd 1), Stmt.call 0 (Call.insertAtBegin 2),
          Stmt.copyConstruct 0, Stmt.call 1 (Call.deleteAtIndex 1),
          Stmt.call 0 (Call.deleteAtElement 2), Stmt.construct, Stmt.assign 2 1]
        = .ok ({ heap := [some ⟨1, none, none⟩, none, some ⟨2, some 4, none⟩, none,
                    some ⟨1, none, some 2⟩, some ⟨2, some 6, none⟩, some ⟨2, some 7, some 5⟩,
                    some ⟨1, none, some 6⟩],
                 objs := [⟨some 0, 1⟩, ⟨some 2, 1⟩, ⟨some 5, 1⟩] } : World Nat)
      ∧ ∀ l ∈ ([⟨some 0, 1⟩, ⟨some 2, 1⟩, ⟨some 5, 1⟩] : List DoublyLinkedList),
          ∃ cells, Chain DNode.next
              ([some ⟨1, none, none⟩, none, some ⟨2, some 4, none⟩, none,
                some ⟨1, none, some 2⟩, some ⟨2, some 6, none⟩, some ⟨2, some 7, some 5⟩,
                some ⟨1, none, some 6⟩] : Heap (DNode Nat))
              l.myFirst cells ∧
            (∀ c, cells.head? = some c → c.2.prev = none) ∧
            (∀ c, cells.getLast? = some c → c.2.next = none) ∧
            ∀ i c d, cells[i]? = some c → cells[i + 1]? = some d → d.2.prev = some c.1 :=
  have hrun : execAll { heap := [], objs := [] }
      [Stmt.construct, Stmt.call 0 (Call.insertAtEnd 1), Stmt.call 0 (Call.insertAtBegin 2),
        Stmt.copyConstruct 0, Stmt.call 1 (Call.deleteAtIndex 1),
        Stmt.call 0 (Call.deleteAtElement 2), Stmt.construct, Stmt.assign 2 1]
      = .ok ({ heap := [some ⟨1, none, none⟩, none, some ⟨2, some 4, none⟩, none,
                  some ⟨1, none, some 2⟩, some ⟨2, some 6, none⟩, some ⟨2, some 7, some 5⟩,
                  some ⟨1, none, some 6⟩],
               objs := [⟨some 0, 1⟩, ⟨some 2, 1⟩, ⟨some 5, 1⟩] } : World Nat) := rfl
  ⟨hrun, dll_link_invariant [] _ _ hrun⟩

end DoublyLinkedList

/-! ### Student, Course and split -/

/-- C31, the code at failing inputs: on a student whose ID is "A1234567", `setSudentId` with
an ID of a wrong first character ("B1234567") or of a wrong length ("A12345678", "") leaves
the ID "A1234567" where the documentation of the member promises "NULL"; an ID with a
non-digit among the last seven characters gives "NULL", and a valid ID is stored. -/
theorem setSudentId_invalid_format :
    ((Student.mk4 (Double.val 3) "A1234567" "Jane" "Doe").studentID,
      ((Student.mk4 (Double.val 3) "A1234567" "Jane" "Doe").setSudentId "B1234567").studentID,
      ((Student.mk4 (Double.val 3) "A1234567" "Jane" "Doe").setSudentId "A12345678").studentID,
      ((Student.mk4 (Double.val 3) "A1234567" "Jane" "Doe").setSudentId "").studentID,
      ((Student.mk4 (Double.val 3) "A1234567" "Jane" "Doe").setSudentId "A12x4567").studentID,
      ((Student.mk4 (Double.val 3) "A1234567" "Jane" "Doe").setSudentId "A7654321").studentID)
      = ("A1234567", "A1234567", "A1234567", "A1234567", "NULL", "A7654321") := by
  decide

/-- C32, the code at failing inputs: on a course with 3 credits `setNumberOfCredits(4)` leaves
the 3 credits, and `setNumberOfCredits(-1)` stores the number -1: the test of the member is
the opposite of the one its documentation describes. -/
theorem setNumberOfCredits_inverted :
    (((Course.mk "CSC310" "Data Structures" 3 30 []).setNumberOfCredits 4).getNumberOfCredits,
      ((Course.mk "CSC310" "Data Structures" 3 30 []).setNumberOfCredits (-1)).getNumberOfCredits)
      = (3, -1) := by
  decide

/-- C33, the code at a failing input: in a course where "A1234567" is registered as
"Jane, Doe", `registerStudent("A1234567", "John, Roe")` returns true, the number of enrolled
students stays 1 and the name of the entry is replaced. -/
theorem registerStudent_already_registered :
    (((Course.mk "CSC310" "Data Structures" 3 30 [("A1234567", "Jane, Doe")]).registerStudent
        "A1234567" "John, Roe").2,
      ((Course.mk "CSC310" "Data Structures" 3 30 [("A1234567", "Jane, Doe")]).registerStudent
        "A1234567" "John, Roe").1.getNumberOfEnrolled,
      ((Course.mk "CSC310" "Data Structures" 3 30 [("A1234567", "Jane, Doe")]).registerStudent
        "A1234567" "John, Roe").1.registeredStudents)
      = (true, 1, [("A1234567", "John, Roe")]) := by
  decide

/-- C34, the code at failing inputs: `split` returns the pieces "a" and " b" for "a  b" (two
spaces), the piece " a" for " a", and the pieces "a" and " " for "a  " (two spaces): a space
that is read while `temp` is empty is put into `temp`.  With single spaces between the words
and none in front the pieces are the words. -/
theorem split_keeps_spaces :
    (split "a  b", split " a", split "a  ", split "A1234567 Jane Doe 3.5")
      = (["a", " b"], [" a"], ["a", " "], ["A1234567", "Jane", "Doe", "3.5"]) := by
  decide

/-! ### The add/drop session of main.cpp -/

/-- C35, the code at a failing input: the registered list holds the student "A1234567", who
has no registered course, and the unregistered list is empty.  The final statements of
`option9` insert the student into the unregistered list and delete the student from the same
list: afterwards the registered list still holds "A1234567" (`search` returns 0) and the
unregistered list holds no student (`search` returns -1). -/
theorem option9_student_stays_registered :
    (do
      let (h1, reg0) := LListWithDummyNode.new ([] : Heap (Node Student))
        (Student.mk4 (Double.val 0) "NuLL" "Null" "Null")
      let (h2, unreg0) := LListWithDummyNode.new h1
        (Student.mk4 (Double.val 0) "NuLL" "Null" "Null")
      let (h3, reg, _) ← LListWithDummyNode.insertAtBegin h2 reg0
        (Student.mk4 (Double.val 3) "A1234567" "Jane" "Doe")
      let p ← LListWithDummyNode.searchAndRetreivePtr h3 reg
        (Student.mk4 (Double.val 0) "A1234567" "Null" "Null")
      let (h4, reg1, unreg1) ← option9Finish h3 reg unreg0 p
      let rs ← LListWithDummyNode.toList h4 reg1
      let us ← LListWithDummyNode.toList h4 unreg1
      let i ← LListWithDummyNode.search h4 reg1
        (Student.mk4 (Double.val 0) "A1234567" "Null" "Null")
      let j ← LListWithDummyNode.search h4 unreg1
        (Student.mk4 (Double.val 0) "A1234567" "Null" "Null")
      pure (rs.map Student.studentID, us.map Student.studentID, i, j))
      = .ok (["A1234567"], [], 0, -1) := by
  rfl

/-- C37, the code at failing inputs.  After the calls `insertAtEnd(1)`, `insertAtEnd(2)` on
an empty container of each kind, both hold 1, 2 with size 2, but `search(2)` returns 1 on the
DoublyLinkedList and 0 on the LListWithDummyNode.  After the further call `deleteFromEnd()`
both have size 1; the DoublyLinkedList holds 1, and in the LListWithDummyNode the walk over
the elements meets the deleted node. -/
theorem containers_diverge :
    (do
      let (hd, ld) ← DoublyLinkedList.runAll ([] : Heap (DNode Nat)) DoublyLinkedList.new
        [Call.insertAtEnd 1, Call.insertAtEnd 2]
      let xs ← DoublyLinkedList.toList hd ld
      let i ← DoublyLinkedList.search hd ld 2
      pure (xs, ld.getSize, i)) = .ok ([1, 2], 2, 1)
    ∧ (do
      let (hs, ls) ← LListWithDummyNode.runAll (LListWithDummyNode.new ([] : Heap (Node Nat)) 0).1
        (LListWithDummyNode.new ([] : Heap (Node Nat)) 0).2
        [Call.insertAtEnd 1, Call.insertAtEnd 2]
      let ys ← LListWithDummyNode.toList hs ls
      let j ← LListWithDummyNode.search hs ls 2
      pure (ys, ls.getSize, j)) = .ok ([1, 2], 2, 0)
    ∧ (do
      let (hd, ld) ← DoublyLinkedList.runAll ([] : Heap (DNode Nat)) DoublyLinkedList.new
        [Call.insertAtEnd 1, Call.insertAtEnd 2, Call.deleteFromEnd]
      let xs ← DoublyLinkedList.toList hd ld
      pure (xs, ld.getSize)) = .ok ([1], 1)
    ∧ (do
      let (hs, ls) ← LListWithDummyNode.runAll (LListWithDummyNode.new ([] : Heap (Node Nat)) 0).1
        (LListWithDummyNode.new ([] : Heap (Node Nat)) 0).2
        [Call.insertAtEnd 1, Call.insertAtEnd 2, Call.deleteFromEnd]
      pure (LListWithDummyNode.toList hs ls, ls.getSize))
        = .ok (.error .danglingDeref, 1) := by
  refine ⟨?_, ?_, ?_, ?_⟩ <;> rfl

/-- C39, the code at failing inputs.  DoublyLinkedList: the list A holds 7, B is copy
constructed from A (size 1, two nodes), and two calls `B.deleteFromBegin()` return true and
leave `B.getSize() == -1`.  LListWithDummyNode: A and B are default constructed, after the
assignment `B = A` the list B has size 0 and one node, and the call `B.deleteFromBegin()`
returns true and leaves `B.getSize() == -1`. -/
theorem getSize_negative :
    (DoublyLinkedList.execAll ({ heap := [], objs := [] } : DoublyLinkedList.World Nat)
        [DoublyLinkedList.Stmt.construct, DoublyLinkedList.Stmt.call 0 (Call.insertAtEnd 7),
          DoublyLinkedList.Stmt.copyConstruct 0,
          DoublyLinkedList.Stmt.call 1 Call.deleteFromBegin,
          DoublyLinkedList.Stmt.call 1 Call.deleteFromBegin]).map
      (fun w => w.objs.map DoublyLinkedList.getSize) = .ok [1, -1]
    ∧ (do
      let (h3, b) ← LListWithDummyNode.assign
        (LListWithDummyNode.new (LListWithDummyNode.new ([] : Heap (Node Nat)) 0).1 0).1
        (LListWithDummyNode.new (LListWithDummyNode.new ([] : Heap (Node Nat)) 0).1 0).2
        false (LListWithDummyNode.new ([] : Heap (Node Nat)) 0).2
      let (_, b1, r) ← LListWithDummyNode.deleteFromBegin h3 b
      pure (b.getSize, r, b1.getSize)) = .ok (0, true, -1) := by
  refine ⟨?_, ?_⟩ <;> rfl

/-! ### search and searchAndRetreivePtr -/

theorem findIdx_none_iff {β : Type} (p : β → Bool) (xs : List β) :
    (match xs.findIdx? p with
      | some i => (i : Int)
      | none => -1) = -1 ↔ ∀ x ∈ xs, p x = false := by
  cases hf : xs.findIdx? p with
  | none =>
    simp only [true_iff]
    exact List.findIdx?_eq_none_iff.mp hf
  | some i =>
    have hne : ¬ ((i : Int) = -1) := by omega
    simp only [hne, false_iff]
    intro hall
    rw [List.findIdx?_eq_none_iff.mpr hall] at hf
    cases hf

namespace LListWithDummyNode

variable {α : Type}

theorem sll_searchLoop_chain [BEq α] {h : Heap (Node α)} (e : α) :
    ∀ (rest : List (Nat × Node α)) (b : Nat × Node α) (k : Nat) (c : Int),
      h[b.1]? = some (some b.2) → Chain Node.next h b.2.next rest → rest.length < k →
      searchLoop h e k (some b.1) c = .ok
        (match (rest.map (fun c => c.2.data)).findIdx? (fun x => x == e) with
          | some i => c + (i : Int)
          | none => -1)
  | [], b, k, c, hb, hc, hk => by
    obtain ⟨k, rfl⟩ : ∃ j, k = j + 1 := ⟨k - 1, by simp at hk; omega⟩
    simp only [Chain] at hc
    simp only [searchLoop, Heap.load_of_cell hb, hc, bind, Except.bind, pure, Except.pure]
    rfl
  | x :: r, b, k, c, hb, hc, hk => by
    obtain ⟨k, rfl⟩ : ∃ j, k = j + 1 := ⟨k - 1, by simp at hk; omega⟩
    simp only [Chain] at hc
    obtain ⟨hbn, hxc, ht⟩ := hc
    have ih := sll_searchLoop_chain e r x k (c + 1) hxc ht
      (by simp only [List.length_cons] at hk; omega)
    simp only [searchLoop, Heap.load_of_cell hb, hbn, Heap.load_of_cell hxc, List.map_cons,
      List.findIdx?_cons, bind, Except.bind]
    by_cases hm : (x.2.data == e) = true
    · simp [hm, pure, Except.pure]
    · simp only [hm, ih, List.findIdx?_succ]
      cases (List.map (fun c => c.2.data) r).findIdx? (fun x => x == e) with
      | none => simp
      | some i => simp; omega

theorem sll_search_fails_iff [BEq α] (h : Heap (Node α)) (l : LListWithDummyNode)
    (xs : List α) (v : α) (hx : Holds h l xs) :
    ∃ i, search h l v = .ok i ∧ (i = -1 ↔ ∀ x ∈ xs, (x == v) = false) := by
  obtain ⟨dummy, cells, hc, rfl⟩ := hx
  have hfuel := hc.length_lt_fuel
  simp only [Chain] at hc
  obtain ⟨hp, hdummy, ht⟩ := hc
  cases cells with
  | nil =>
    simp only [Chain] at ht
    refine ⟨-1, ?_, by simp⟩
    simp only [search, isEmpty, hp, Heap.load_of_cell hdummy, ht, bind, Except.bind, pure,
      Except.pure]
    rfl
  | cons c rest =>
    simp only [Chain] at ht
    obtain ⟨hdn, hcell, ht2⟩ := ht
    have hne : (dummy.2.next == none) = false := by simp [hdn]
    by_cases hm : (c.2.data == v) = true
    · refine ⟨0, ?_, ?_⟩
      · simp only [search, isEmpty, hp, Heap.load_of_cell hdummy, hne, hdn,
          Heap.load_of_cell hcell, hm, bind, Except.bind, pure, Except.pure]
        rfl
      · constructor
        · intro h0
          omega
        · intro hall
          have := hall c.2.data (by simp)
          rw [hm] at this
          cases this
    · have hl := sll_searchLoop_chain v rest c h.fuel 0 hcell ht2
        (by simp only [List.length_cons] at hfuel; omega)
      refine ⟨(match (rest.map (fun c => c.2.data)).findIdx? (fun x => x == v) with
          | some i => 0 + (i : Int)
          | none => -1), ?_, ?_⟩
      · simp only [search, isEmpty, hp, Heap.load_of_cell hdummy, hne, hdn,
          Heap.load_of_cell hcell, hm, bind, Except.bind, pure, Except.pure]
        exact hl
      · have hm' : (c.2.data == v) = false := by simpa using hm
        have hrest : ((match (rest.map (fun c => c.2.data)).findIdx? (fun x => x == v) with
            | some i => 0 + (i : Int)
            | none => -1) = -1)
            ↔ ∀ x ∈ rest.map (fun c => c.2.data), (x == v) = false := by
          rw [← findIdx_none_iff (fun x => x == v)]
          cases (List.map (fun c => c.2.data) rest).findIdx? (fun x => x == v) <;> simp
        rw [hrest]
        constructor
        · intro hall x hx
          simp only [List.map_cons, List.mem_cons] at hx
          rcases hx with rfl | hx
          · exact hm'
          · exact hall x hx
        · intro hall x hx
          exact hall x (by simp only [List.map_cons, List.mem_cons]; exact Or.inr hx)

end LListWithDummyNode

/-- C38: for both container kinds, on every list whose nodes form a chain and for every value
`v`, `searchAndRetreivePtr(v)` and `search(v)` both return, and the handle is null exactly when
the index is -1. -/
theorem searchAndRetreivePtr_null_iff_search_fails {α : Type} [BEq α]
    (hd : Heap (DNode α)) (ld : DoublyLinkedList) (xs : List α)
    (hs : Heap (Node α)) (ls : LListWithDummyNode) (ys : List α) (v : α)
    (hxd : DoublyLinkedList.Holds hd ld xs) (hxs : LListWithDummyNode.Holds hs ls ys) :
    (∃ p i, DoublyLinkedList.searchAndRetreivePtr hd ld v = .ok p
        ∧ DoublyLinkedList.search hd ld v = .ok i ∧ (p = none ↔ i = -1))
    ∧ (∃ p i, LListWithDummyNode.searchAndRetreivePtr hs ls v = .ok p
        ∧ LListWithDummyNode.search hs ls v = .ok i ∧ (p = none ↔ i = -1)) := by
  constructor
  · have hsearch := DoublyLinkedList.dll_search_eq hd ld xs v hxd
    obtain ⟨cells, hc, rfl⟩ := hxd
    have hptr := DoublyLinkedList.dll_searchPtr_exact hd ld v cells hc
    have hfm := (Chain.first_match (fun n : DNode α => n.data) [] cells v
      (by simpa using hc)).1
    refine ⟨_, _, hptr, hsearch, ?_⟩
    rw [hfm]
    exact (findIdx_none_iff (fun x => x == v) _).symm
  · obtain ⟨i, hsearch, hi⟩ := LListWithDummyNode.sll_search_fails_iff hs ls ys v hxs
    obtain ⟨dummy, cells, hc, rfl⟩ := hxs
    have hptr := LListWithDummyNode.sll_searchPtr_exact hs ls v dummy cells hc
    have hfm := (Chain.first_match (fun n : Node α => n.data) [dummy] cells v
      (by simpa using hc)).1
    refine ⟨_, i, hptr, hsearch, ?_⟩
    rw [hfm]
    exact hi.symm

/-- Witness of C38: the sample lists 5, 7, 5 and 5, 7 and the value 7, which is found. -/
theorem searchAndRetreivePtr_null_iff_search_fails_witness :
    DoublyLinkedList.Holds DoublyLinkedList.sampleHeap DoublyLinkedList.sampleList [5, 7, 5]
      ∧ LListWithDummyNode.Holds LListWithDummyNode.sampleHeap LListWithDummyNode.sampleList
          [5, 7]
      ∧ ((∃ p i, DoublyLinkedList.searchAndRetreivePtr DoublyLinkedList.sampleHeap
              DoublyLinkedList.sampleList 7 = .ok p
            ∧ DoublyLinkedList.search DoublyLinkedList.sampleHeap DoublyLinkedList.sampleList 7
              = .ok i ∧ (p = none ↔ i = -1))
        ∧ (∃ p i, LListWithDummyNode.searchAndRetreivePtr LListWithDummyNode.sampleHeap
              LListWithDummyNode.sampleList 7 = .ok p
            ∧ LListWithDummyNode.search LListWithDummyNode.sampleHeap
              LListWithDummyNode.sampleList 7 = .ok i ∧ (p = none ↔ i = -1))) :=
  ⟨DoublyLinkedList.dll_sample_wellFormed.holds, LListWithDummyNode.sll_sample_wellFormed.1,
    searchAndRetreivePtr_null_iff_search_fails DoublyLinkedList.sampleHeap
      DoublyLinkedList.sampleList [5, 7, 5] LListWithDummyNode.sampleHeap
      LListWithDummyNode.sampleList [5, 7] 7 DoublyLinkedList.dll_sample_wellFormed.holds
      LListWithDummyNode.sll_sample_wellFormed.1⟩

/-! ### The walks of the indexed operations -/

theorem Chain.mid_cells {ν : Type} {next : ν → Ptr} {h : Heap ν} {b c : Nat × ν}
    {post : List (Nat × ν)} :
    ∀ {pre : List (Nat × ν)} {p : Ptr}, Chain next h p (pre ++ b :: c :: post) →
      h[b.1]? = some (some b.2) ∧ next b.2 = some c.1 ∧ h[c.1]? = some (some c.2)
  | [], p, hc => by
    simp only [List.nil_append, Chain] at hc
    exact ⟨hc.2.1, hc.2.2.1, hc.2.2.2.1⟩
  | x :: rest, p, hc => by
    simp only [List.cons_append, Chain] at hc
    exact Chain.mid_cells hc.2.2

namespace DoublyLinkedList

variable {α : Type}

theorem dll_retrieveAtIndex_ok (h : Heap (DNode α)) (l : DoublyLinkedList) (xs : List α)
    (i : Nat) (hw : WellFormed h l xs) (hr : l.getSize < 2147483648)
    (hi : (i : Int) < l.getSize) : ∃ v, retrieveAtIndex h l i = .ok v := by
  obtain ⟨cells, hc, rfl, hsz⟩ := hw
  simp only [getSize, List.length_map] at hr hi hsz
  have hu : toUnsigned l.mySize = cells.length := by
    rw [hsz]
    exact toUnsigned_natCast (by omega)
  have hilt : i < cells.length := by omega
  have hnot : ¬ i ≥ toUnsigned l.mySize := by rw [hu]; omega
  have hadv := dll_advance_chain cells l.myFirst i hilt hc.toChain
  have hcell := Chain.cell_of_mem hc.toChain cells[i] (List.getElem_mem _)
  refine ⟨cells[i].2.data, ?_⟩
  simp only [retrieveAtIndex, if_neg hnot, hadv, Heap.load_of_cell hcell, bind, Except.bind,
    pure, Except.pure]

theorem dll_deleteAtIndex_ok (h : Heap (DNode α)) (l : DoublyLinkedList) (xs : List α)
    (i : Nat) (hw : WellFormed h l xs) (hr : l.getSize < 2147483648)
    (hi : (i : Int) < l.getSize) : ∃ r, deleteAtIndex h l i = .ok r := by
  obtain ⟨cells, hc, rfl, hsz⟩ := hw
  simp only [getSize, List.length_map] at hr hi hsz
  have hu : toUnsigned l.mySize = cells.length := by
    rw [hsz]
    exact toUnsigned_natCast (by omega)
  have hilt : i < cells.length := by omega
  have hs : ¬ i ≥ toUnsigned l.mySize := by rw [hu]; omega
  have he : l.isEmpty = false := by
    cases cells with
    | nil => simp at hilt
    | cons c rest =>
      simp only [DChain] at hc
      simp [isEmpty, hc.1]
  cases i with
  | zero =>
    rw [dll_deleteAtIndex_zero h l he hs]
    cases cells with
    | nil => simp at hilt
    | cons c rest =>
      obtain ⟨h1, l1, _, hop, _⟩ := dll_deleteFromBegin_exact h l c rest hc
      exact ⟨_, hop⟩
  | succ j =>
    have hne : ¬ j + 1 = 0 := by omega
    obtain ⟨pre, b, c, post, rfl, hl⟩ := exists_split_at cells j hilt
    subst hl
    have hadv : advance h (pre.length + 1) l.myFirst = .ok (some c.1) := by
      have hch : Chain DNode.next h l.myFirst ((pre ++ [b]) ++ c :: post) := by
        simpa using hc.toChain
      simpa using dll_advance_prefix (pre ++ [b]) l.myFirst hch
    obtain ⟨_, _, hcc, hcp, ht⟩ := DChain.mid hc
    cases post with
    | nil =>
      simp only [DChain] at ht
      obtain ⟨h2, h3, hm1, hl1, hf, _⟩ := dll_unlink_last hc
      refine ⟨(h3, { l with mySize := l.mySize - 1 }, true), ?_⟩
      simp only [deleteAtIndex, he, Bool.false_eq_true, if_false, if_neg hs, if_neg hne, hadv,
        Heap.load_of_cell hcc, hcp, ht, hm1, hl1, hf, bind, Except.bind, pure, Except.pure]
    | cons d post =>
      simp only [DChain] at ht
      obtain ⟨h2, h3, h4, hm1, hl1, hm2, hf, _⟩ := dll_unlink_mid hc
      refine ⟨(h4, { l with mySize := l.mySize - 1 }, true), ?_⟩
      simp only [deleteAtIndex, he, Bool.false_eq_true, if_false, if_neg hs, if_neg hne, hadv,
        Heap.load_of_cell hcc, hcp, ht.1, hm1, hl1, hm2, hf, bind, Except.bind, pure,
        Except.pure]

theorem dll_deleteFromEnd_ok (h : Heap (DNode α)) (l : DoublyLinkedList) (xs : List α)
    (hw : WellFormed h l xs) : ∃ r, deleteFromEnd h l = .ok r := by
  obtain ⟨cells, hc, _, _⟩ := hw
  by_cases hne : cells = []
  · subst hne
    exact ⟨_, dll_deleteFromEnd_nil h l hc⟩
  · obtain ⟨h1, l1, _, hop, _⟩ := dll_deleteFromEnd_exact h l cells hne hc
    exact ⟨_, hop⟩

end DoublyLinkedList

namespace LListWithDummyNode

variable {α : Type}

theorem sll_advance_prefix {h : Heap (Node α)} {c : Nat × Node α}
    {post : List (Nat × Node α)} :
    ∀ (pre : List (Nat × Node α)) (p : Ptr), Chain Node.next h p (pre ++ c :: post) →
      advance h pre.length p = .ok (some c.1)
  | [], p, hc => by
    simp only [List.nil_append, Chain] at hc
    simp [advance, hc.1]
  | x :: rest, p, hc => by
    simp only [List.cons_append, Chain] at hc
    have ih := sll_advance_prefix rest x.2.next hc.2.2
    simp only [List.length_cons, advance, hc.1, Heap.load_of_cell hc.2.1, bind, Except.bind, ih]

theorem sll_retrieveAtIndex_ok (h : Heap (Node α)) (l : LListWithDummyNode) (xs : List α)
    (i : Nat) (hw : WellFormed h l xs) (hr : l.getSize < 2147483648)
    (hi : (i : Int) < l.getSize) : ∃ v, retrieveAtIndex h l i = .ok v := by
  obtain ⟨⟨dummy, cells, hc, rfl⟩, hsz⟩ := hw
  simp only [getSize, List.length_map] at hr hi hsz
  have hu : toUnsigned l.mySize = cells.length := by
    rw [hsz]
    exact toUnsigned_natCast (by omega)
  have hilt : i < cells.length := by omega
  have hnot : ¬ i ≥ toUnsigned l.mySize := by rw [hu]; omega
  simp only [Chain] at hc
  obtain ⟨hp, hdummy, ht⟩ := hc
  have hadv := sll_advance_chain cells dummy.2.next i hilt ht
  have hcell := Chain.cell_of_mem ht cells[i] (List.getElem_mem _)
  refine ⟨cells[i].2.data, ?_⟩
  simp only [retrieveAtIndex, if_neg hnot, hp, Heap.load_of_cell hdummy, hadv,
    Heap.load_of_cell hcell, bind, Except.bind, pure, Except.pure]

theorem sll_deleteFromEnd_ok (h : Heap (Node α)) (l : LListWithDummyNode)
    (dummy : Nat × Node α) (cells : List (Nat × Node α))
    (hc : Chain Node.next h l.myFirst (dummy :: cells)) :
    ∃ r, deleteFromEnd h l = .ok r := by
  have hfuel := hc.length_lt_fuel
  simp only [Chain] at hc
  obtain ⟨hp, hdummy, ht⟩ := hc
  by_cases hne : cells = []
  · subst hne
    simp only [Chain] at ht
    refine ⟨(h, l, false), ?_⟩
    simp only [deleteFromEnd, hp, Heap.load_of_cell hdummy, ht, bind, Except.bind, pure,
      Except.pure]
  · obtain ⟨pre, c, rfl⟩ := exists_last cells hne
    have hnext : ∃ b, dummy.2.next = some b := by
      cases pre with
      | nil =>
        simp only [List.nil_append, Chain] at ht
        exact ⟨_, ht.1⟩
      | cons x r =>
        simp only [List.cons_append, Chain] at ht
        exact ⟨_, ht.1⟩
    obtain ⟨b, hb⟩ := hnext
    rw [hb] at ht
    have hwalk := sll_walkToLast_chain pre (some b) h.fuel ht
      (by simp only [List.length_cons, List.length_append, List.length_nil] at hfuel; omega)
    obtain ⟨hcell, _⟩ := Chain.last ht
    obtain ⟨h1, hf, _⟩ := Heap.free_ok hcell
    refine ⟨(h1, { l with mySize := l.mySize - 1 }, true), ?_⟩
    simp only [deleteFromEnd, hp, Heap.load_of_cell hdummy, hb, hwalk, hf, bind, Except.bind,
      pure, Except.pure]

theorem sll_deleteAtIndex_ok (h : Heap (Node α)) (l : LListWithDummyNode) (xs : List α)
    (i : Nat) (hw : WellFormed h l xs) (hr : l.getSize < 2147483648)
    (hi : (i : Int) < l.getSize) : ∃ r, deleteAtIndex h l i = .ok r := by
  obtain ⟨⟨dummy, cells, hc, rfl⟩, hsz⟩ := hw
  simp only [getSize, List.length_map] at hr hi hsz
  have hu : toUnsigned l.mySize = cells.length := by
    rw [hsz]
    exact toUnsigned_natCast (by omega)
  have hilt : i < cells.length := by omega
  have hs : ¬ i ≥ toUnsigned l.mySize := by rw [hu]; omega
  have hc0 := hc
  simp only [Chain] at hc
  obtain ⟨hp, hdummy, ht⟩ := hc
  have hempty : isEmpty h l = .ok false := by
    cases cells with
    | nil => simp at hilt
    | cons c rest =>
      simp only [Chain] at ht
      simp only [isEmpty, hp, Heap.load_of_cell hdummy, ht.1, bind, Except.bind, pure,
        Except.pure]
      rfl
  by_cases h0 : i = 0
  · subst h0
    cases cells with
    | nil => simp at hilt
    | cons c rest =>
      obtain ⟨h1, _, hop, _⟩ := sll_deleteFromBegin_exact h l dummy c rest hc0
      refine ⟨(h1, { l with mySize := l.mySize - 1 }, true), ?_⟩
      simp only [deleteAtIndex, hempty, Bool.false_eq_true, if_false, if_neg hs, if_true, bind,
        Except.bind]
      exact hop
  · by_cases hlast : i = toUnsigned (l.mySize - 1)
    · obtain ⟨r, hop⟩ := sll_deleteFromEnd_ok h l dummy cells hc0
      refine ⟨r, ?_⟩
      simp only [deleteAtIndex, hempty, Bool.false_eq_true, if_false, if_neg hs, if_neg h0,
        if_pos hlast, bind, Except.bind]
      exact hop
    · obtain ⟨j, rfl⟩ : ∃ j, i = j + 1 := ⟨i - 1, by omega⟩
      obtain ⟨pre, b, c, post, rfl, hl⟩ := DoublyLinkedList.exists_split_at cells j hilt
      subst hl
      have hadv := sll_advance_prefix pre dummy.2.next ht
      obtain ⟨hb, hbn, hcc⟩ := Chain.mid_cells ht
      have hnd := ht.nodup
      obtain ⟨hbc, _, _, _⟩ := nodup_mid hnd
      obtain ⟨h1, hm1, _, h1o, _⟩ :=
        Heap.modify_ok hb (fun n => { n with next := c.2.next })
      have hc1 : h1[c.1]? = some (some c.2) := (h1o c.1 (Ne.symm hbc)).trans hcc
      obtain ⟨h2, hf, _⟩ := Heap.free_ok hc1
      refine ⟨(h2, { l with mySize := l.mySize - 1 }, true), ?_⟩
      simp only [deleteAtIndex, hempty, Bool.false_eq_true, if_false, if_neg hs, if_neg h0,
        if_neg hlast, hp, Heap.load_of_cell hdummy, Nat.add_sub_cancel, hadv,
        Heap.load_of_cell hb, hbn, Heap.load_of_cell hcc, hm1, hf, bind, Except.bind, pure,
        Except.pure]

end LListWithDummyNode

/-- C40: for both container kinds, on every well-formed list (whose size is in the range of
`int`) and for every index below `getSize()`, the calls `retrieveAtIndex` and `deleteAtIndex`
return a result, and so does `deleteFromEnd` on the DoublyLinkedList: none of their walks, nor
the access to the predecessor of the last node, ends in the fault of a null dereference (or in
any other fault). -/
theorem index_walks_never_null {α : Type}
    (hd : Heap (DNode α)) (ld : DoublyLinkedList) (xs : List α)
    (hs : Heap (Node α)) (ls : LListWithDummyNode) (ys : List α) (i j : Nat)
    (hwd : DoublyLinkedList.WellFormed hd ld xs) (hrd : ld.getSize < 2147483648)
    (hi : (i : Int) < ld.getSize)
    (hws : LListWithDummyNode.WellFormed hs ls ys) (hrs : ls.getSize < 2147483648)
    (hj : (j : Int) < ls.getSize) :
    ((∃ v, DoublyLinkedList.retrieveAtIndex hd ld i = .ok v)
        ∧ (∃ r, DoublyLinkedList.deleteAtIndex hd ld i = .ok r)
        ∧ (∃ r, DoublyLinkedList.deleteFromEnd hd ld = .ok r)
        ∧ DoublyLinkedList.retrieveAtIndex hd ld i ≠ .error .nullDeref
        ∧ DoublyLinkedList.deleteAtIndex hd ld i ≠ .error .nullDeref
        ∧ DoublyLinkedList.deleteFromEnd hd ld ≠ .error .nullDeref)
    ∧ ((∃ v, LListWithDummyNode.retrieveAtIndex hs ls j = .ok v)
        ∧ (∃ r, LListWithDummyNode.deleteAtIndex hs ls j = .ok r)
        ∧ LListWithDummyNode.retrieveAtIndex hs ls j ≠ .error .nullDeref
        ∧ LListWithDummyNode.deleteAtIndex hs ls j ≠ .error .nullDeref) := by
  obtain ⟨v1, h1⟩ := DoublyLinkedList.dll_retrieveAtIndex_ok hd ld xs i hwd hrd hi
  obtain ⟨r2, h2⟩ := DoublyLinkedList.dll_deleteAtIndex_ok hd ld xs i hwd hrd hi
  obtain ⟨r3, h3⟩ := DoublyLinkedList.dll_deleteFromEnd_ok hd ld xs hwd
  obtain ⟨v4, h4⟩ := LListWithDummyNode.sll_retrieveAtIndex_ok hs ls ys j hws hrs hj
  obtain ⟨r5, h5⟩ := LListWithDummyNode.sll_deleteAtIndex_ok hs ls ys j hws hrs hj
  refine ⟨⟨⟨v1, h1⟩, ⟨r2, h2⟩, ⟨r3, h3⟩, ?_, ?_, ?_⟩, ⟨v4, h4⟩, ⟨r5, h5⟩, ?_, ?_⟩
  · rw [h1]; exact fun h => by cases h
  · rw [h2]; exact fun h => by cases h
  · rw [h3]; exact fun h => by cases h
  · rw [h4]; exact fun h => by cases h
  · rw [h5]; exact fun h => by cases h

/-- Witness of C40: index 1 of the sample lists 5, 7, 5 and 5, 7 (in the second the last
index, at which `deleteAtIndex` goes through `deleteFromEnd`). -/
theorem index_walks_never_null_witness :
    DoublyLinkedList.WellFormed DoublyLinkedList.sampleHeap DoublyLinkedList.sampleList
        [5, 7, 5]
      ∧ LListWithDummyNode.WellFormed LListWithDummyNode.sampleHeap
          LListWithDummyNode.sampleList [5, 7]
      ∧ (∃ v, DoublyLinkedList.retrieveAtIndex DoublyLinkedList.sampleHeap
          DoublyLinkedList.sampleList 1 = .ok v)
      ∧ (∃ r, DoublyLinkedList.deleteAtIndex DoublyLinkedList.sampleHeap
          DoublyLinkedList.sampleList 1 = .ok r)
      ∧ (∃ r, DoublyLinkedList.deleteFromEnd DoublyLinkedList.sampleHeap
          DoublyLinkedList.sampleList = .ok r)
      ∧ (∃ v, LListWithDummyNode.retrieveAtIndex LListWithDummyNode.sampleHeap
          LListWithDummyNode.sampleList 1 = .ok v)
      ∧ (∃ r, LListWithDummyNode.deleteAtIndex LListWithDummyNode.sampleHeap
          LListWithDummyNode.sampleList 1 = .ok r) :=
  have key := index_walks_never_null DoublyLinkedList.sampleHeap DoublyLinkedList.sampleList
    [5, 7, 5] LListWithDummyNode.sampleHeap LListWithDummyNode.sampleList [5, 7] 1 1
    DoublyLinkedList.dll_sample_wellFormed (by decide) (by decide)
    LListWithDummyNode.sll_sample_wellFormed (by decide) (by decide)
  ⟨DoublyLinkedList.dll_sample_wellFormed, LListWithDummyNode.sll_sample_wellFormed,
    key.1.1, key.1.2.1, key.1.2.2.1, key.2.1, key.2.2.1⟩

end CourseReg
